import Mathlib

/-!
# Microwatt4Zynq: the PS bootloader (`sw/ps_bootloader/bootloader.c`)

A shallow embedding of the ELF loader (`my_memcpy`, `my_memset`,
`load_and_run_elf`) and of the chunked SD reader (`read_elf_from_sd`).

Conventions of the embedding.

* The target is the 64-bit ARM processing system: `uintptr_t`, `size_t` and
  `uint64_t` are 64 bits wide, `u32`/`uint32_t` 32 bits, `uint16_t` 16 bits, and
  multi-byte fields are little-endian.  Unsigned arithmetic wraps: every
  machine operation that can leave its type is followed by an explicit
  `% 2 ^ w`.
* Memory is a map from byte addresses to byte values.  Every access goes
  through `load8` / `store8`, which reduce the address modulo `2 ^ 64` and the
  value modulo `256`.
* The ELF structures are read from memory field by field at the offsets the
  C struct layout gives them; a field is read again each time the C code
  evaluates `ehdr->f` or `phdr->f`.
* The SDPS driver is an environment: its answers are parameters, its calls are
  logged in order.  A read leaves the instance field `HCS` as the card
  initialisation set it, and the initialisation calls leave the memory alone.
  Console output (`xil_printf`) is not part of the state.
-/

namespace Bootloader

/-! ## Status codes (`xstatus.h`) and constants of `bootloader.c` -/

/-- Success status of the Xilinx drivers (`XST_SUCCESS`, `0L`). -/
def XST_SUCCESS : Int := 0

/-- Failure status of the Xilinx drivers (`XST_FAILURE`, `1L`). -/
def XST_FAILURE : Int := 1

/-- Segment type of a loadable program header (`#define PT_LOAD 1`). -/
def PT_LOAD : Nat := 1

/-- First magic byte (`#define ELFMAG0 0x7f`). -/
def ELFMAG0 : Nat := 0x7f

/-- Second magic byte, the character `E`. -/
def ELFMAG1 : Nat := 69

/-- Third magic byte, the character `L`. -/
def ELFMAG2 : Nat := 76

/-- Fourth magic byte, the character `F`. -/
def ELFMAG3 : Nat := 70

/-- Transfer ceiling of one driver call: `#define MAX_BYTES_PER_TRANSFER (32U * 65536U)`. -/
def MAX_BYTES_PER_TRANSFER : Nat := (32 * 65536) % 2 ^ 32

/-- Size in bytes of one `Elf64_Phdr` (`sizeof(Elf64_Phdr)`): two 32-bit and six 64-bit fields. -/
def SIZEOF_PHDR : Nat := 56

/-! ## Byte-addressed memory -/

/-- Memory: the byte stored at each address. -/
def Mem := Nat → Nat

/-- Read the byte at address `a` (addresses are 64 bits wide). -/
def load8 (m : Mem) (a : Nat) : Nat := m (a % 2 ^ 64) % 256

/-- Write the byte `v` at address `a`. -/
def store8 (m : Mem) (a v : Nat) : Mem :=
  fun x => if x = a % 2 ^ 64 then v % 256 else m x

/-- Little-endian 16-bit read. -/
def load16 (m : Mem) (a : Nat) : Nat := load8 m a + 256 * load8 m (a + 1)

/-- Little-endian 32-bit read. -/
def load32 (m : Mem) (a : Nat) : Nat := load16 m a + 65536 * load16 m (a + 2)

/-- Little-endian 64-bit read. -/
def load64 (m : Mem) (a : Nat) : Nat := load32 m a + 4294967296 * load32 m (a + 4)

/-- A memory holding the bytes of `bytes` from address `base` on, and zero elsewhere. -/
def memOfList (base : Nat) (bytes : List Nat) : Mem :=
  fun a => if base ≤ a then bytes.getD (a - base) 0 else 0

/-! ## `my_memcpy` and `my_memset` -/

/-- The loop of `my_memcpy`: `k` iterations remain, the index is `i`; each
iteration performs `d[i] = s[i]` on the current memory. -/
def my_memcpy_loop (dest src : Nat) : Nat → Nat → Mem → Mem
  | 0, _, m => m
  | k + 1, i, m => my_memcpy_loop dest src k (i + 1) (store8 m (dest + i) (load8 m (src + i)))

/-- `my_memcpy(dest, src, n)`: forward byte-by-byte copy, `for (i = 0; i < n; i++) d[i] = s[i]`. -/
def my_memcpy (m : Mem) (dest src n : Nat) : Mem := my_memcpy_loop dest src n 0 m

/-- The loop of `my_memset`: `k` iterations remain, the index is `i`; each
iteration performs `p[i] = (unsigned char)c`. -/
def my_memset_loop (s c : Nat) : Nat → Nat → Mem → Mem
  | 0, _, m => m
  | k + 1, i, m => my_memset_loop s c k (i + 1) (store8 m (s + i) c)

/-- `my_memset(s, c, n)`: `for (i = 0; i < n; i++) p[i] = (unsigned char)c`. -/
def my_memset (m : Mem) (s c n : Nat) : Mem := my_memset_loop s c n 0 m

/-! ## ELF structures, read in place -/

/-- Byte `k` of `ehdr->e_ident`. -/
def e_ident (m : Mem) (ehdr k : Nat) : Nat := load8 m (ehdr + k)

/-- Field `ehdr->e_phoff` (offset 32 of `Elf64_Ehdr`). -/
def e_phoff (m : Mem) (ehdr : Nat) : Nat := load64 m (ehdr + 32)

/-- Field `ehdr->e_phentsize` (offset 54 of `Elf64_Ehdr`); the loader never reads it. -/
def e_phentsize (m : Mem) (ehdr : Nat) : Nat := load16 m (ehdr + 54)

/-- Field `ehdr->e_phnum` (offset 56 of `Elf64_Ehdr`). -/
def e_phnum (m : Mem) (ehdr : Nat) : Nat := load16 m (ehdr + 56)

/-- Field `phdr->p_type` (offset 0 of `Elf64_Phdr`). -/
def p_type (m : Mem) (phdr : Nat) : Nat := load32 m phdr

/-- Field `phdr->p_offset` (offset 8 of `Elf64_Phdr`). -/
def p_offset (m : Mem) (phdr : Nat) : Nat := load64 m (phdr + 8)

/-- Field `phdr->p_vaddr` (offset 16 of `Elf64_Phdr`). -/
def p_vaddr (m : Mem) (phdr : Nat) : Nat := load64 m (phdr + 16)

/-- Field `phdr->p_filesz` (offset 32 of `Elf64_Phdr`). -/
def p_filesz (m : Mem) (phdr : Nat) : Nat := load64 m (phdr + 32)

/-- Field `phdr->p_memsz` (offset 40 of `Elf64_Phdr`). -/
def p_memsz (m : Mem) (phdr : Nat) : Nat := load64 m (phdr + 40)

/-! ## `load_and_run_elf` -/

/-- The magic test of `load_and_run_elf`: all four bytes of the signature match. -/
def magic_ok (m : Mem) (elf : Nat) : Bool :=
  !(e_ident m elf 0 != ELFMAG0 || e_ident m elf 1 != ELFMAG1 ||
    e_ident m elf 2 != ELFMAG2 || e_ident m elf 3 != ELFMAG3)

/-- Body of the `for` loop of `load_and_run_elf` for the entry at address
`phdr`: a `PT_LOAD` entry is copied with `my_memcpy`, then `p_memsz` and
`p_filesz` are read again and the tail is cleared with `my_memset`; any other
entry leaves the memory as it is. -/
def load_segment (m : Mem) (extract_to_offset elf_file_in_memory phdr : Nat) : Mem :=
  if p_type m phdr = PT_LOAD then
    let source_address := (elf_file_in_memory + p_offset m phdr) % 2 ^ 64
    let dest_address := (extract_to_offset + p_vaddr m phdr) % 2 ^ 64
    let m1 := my_memcpy m dest_address source_address (p_filesz m phdr)
    if p_memsz m1 phdr > p_filesz m1 phdr then
      let bss_start := (dest_address + p_filesz m1 phdr) % 2 ^ 64
      let bss_size := p_memsz m1 phdr - p_filesz m1 phdr
      my_memset m1 bss_start 0 bss_size
    else m1
  else m

/-- The `for` loop of `load_and_run_elf` from index `i` on: the bound
`ehdr->e_phnum` is read from the current memory at every test, the entry is
`&phdr_table[i]`. -/
def load_loop (extract_to_offset elf_file_in_memory phdr_table : Nat) (i : Nat) (m : Mem) : Mem :=
  if i < e_phnum m elf_file_in_memory then
    load_loop extract_to_offset elf_file_in_memory phdr_table (i + 1)
      (load_segment m extract_to_offset elf_file_in_memory
        ((phdr_table + SIZEOF_PHDR * i) % 2 ^ 64))
  else m
termination_by 65536 - i
decreasing_by
  have h : e_phnum m elf_file_in_memory < 65536 := by
    unfold e_phnum load16 load8
    omega
  omega

/-- `load_and_run_elf(extract_to_offset, elf_file_in_memory)`: the returned
status and the memory it leaves. -/
def load_and_run_elf (m : Mem) (extract_to_offset elf_file_in_memory : Nat) : Int × Mem :=
  if !magic_ok m elf_file_in_memory then (XST_FAILURE, m)
  else
    let phdr_table := (elf_file_in_memory + e_phoff m elf_file_in_memory) % 2 ^ 64
    (XST_SUCCESS, load_loop extract_to_offset elf_file_in_memory phdr_table 0 m)


/-! ## The SD driver seen from `read_elf_from_sd` -/

/-- One call into the SDPS driver together with what the driver answered. -/
inductive SdEvent where
  /-- `XSdPs_LookupConfig`; `found` tells whether the result was non-NULL. -/
  | LookupConfig (found : Bool)
  /-- `XSdPs_CfgInitialize` and its status. -/
  | CfgInitialize (Status : Int)
  /-- `XSdPs_CardInitialize`, its status and the `HCS` flag it left in the instance. -/
  | CardInitialize (Status : Int) (HCS : Nat)
  /-- `XSdPs_ReadPolled(&SdInstance, Arg, BlkCnt, Buff)` and its status. -/
  | ReadPolled (Arg BlkCnt Buff : Nat) (Status : Int)
  deriving DecidableEq, Repr

/-- The SDPS driver and the card behind it, as an environment: each answer may
depend on all the driver calls made so far (and, for a read, on the memory). -/
structure SdDriver where
  /-- Whether `XSdPs_LookupConfig` finds the device configuration. -/
  LookupConfig : List SdEvent → Bool
  /-- Status of `XSdPs_CfgInitialize`. -/
  CfgInitialize : List SdEvent → Int
  /-- Status of `XSdPs_CardInitialize` and the `HCS` flag it stores in the instance. -/
  CardInitialize : List SdEvent → Int × Nat
  /-- Status of `XSdPs_ReadPolled` and the memory after the transfer. -/
  ReadPolled : List SdEvent → Mem → (Arg BlkCnt Buff : Nat) → Int × Mem

/-- What persists across calls of `read_elf_from_sd`: its two `static`
variables (of `SdInstance` only the field `HCS` is read), the driver calls made
so far, oldest first, and the memory. -/
structure SdWorld where
  /-- The flag `static int SdIsInitialized`. -/
  SdIsInitialized : Int
  /-- The field `SdInstance.HCS`. -/
  HCS : Nat
  /-- The driver calls made so far. -/
  events : List SdEvent
  /-- The memory. -/
  mem : Mem

/-- `const u32 SectorSize = 512`. -/
def SectorSize : Nat := 512

/-- `u32 MaxBlocksPerTransfer = MAX_BYTES_PER_TRANSFER / SectorSize`. -/
def MaxBlocksPerTransfer : Nat := MAX_BYTES_PER_TRANSFER / SectorSize

/-- The value of `BytesToReadInChunk` chosen by an iteration with `BytesRemaining` bytes left. -/
def BytesToReadInChunk (BytesRemaining : Nat) : Nat :=
  if BytesRemaining > MAX_BYTES_PER_TRANSFER then MAX_BYTES_PER_TRANSFER else BytesRemaining

/-- The value of `BlocksToRead` chosen by an iteration with `BytesRemaining`
bytes left; the else branch is the `u32` expression
`(BytesRemaining + SectorSize - 1) / SectorSize`. -/
def BlocksToRead (BytesRemaining : Nat) : Nat :=
  if BytesRemaining > MAX_BYTES_PER_TRANSFER then MaxBlocksPerTransfer
  else (((BytesRemaining + SectorSize) % 2 ^ 32 + 2 ^ 32 - 1) % 2 ^ 32) / SectorSize

/-- The value of `ReadArg` for the sector cursor `CurrentSectorOffset`:
the cursor itself, multiplied in `u32` by `SectorSize` when `HCS` is clear. -/
def ReadArg (HCS CurrentSectorOffset : Nat) : Nat :=
  if HCS = 0 then (CurrentSectorOffset * SectorSize) % 2 ^ 32 else CurrentSectorOffset

/-- The `while (BytesRemaining > 0)` loop of `read_elf_from_sd`; `HCS` is the
field of the initialised instance, which a read leaves as it is. -/
def read_loop (drv : SdDriver) (HCS : Nat)
    (BytesRemaining CurrentMemAddr CurrentSectorOffset : Nat)
    (events : List SdEvent) (m : Mem) : Int × List SdEvent × Mem :=
  if h : BytesRemaining > 0 then
    let r := drv.ReadPolled events m (ReadArg HCS CurrentSectorOffset)
      (BlocksToRead BytesRemaining) CurrentMemAddr
    let events1 := events ++ [SdEvent.ReadPolled (ReadArg HCS CurrentSectorOffset)
      (BlocksToRead BytesRemaining) CurrentMemAddr r.1]
    if r.1 ≠ XST_SUCCESS then (XST_FAILURE, events1, r.2)
    else
      read_loop drv HCS
        ((BytesRemaining + 2 ^ 32 - BytesToReadInChunk BytesRemaining) % 2 ^ 32)
        ((CurrentMemAddr + (BlocksToRead BytesRemaining * SectorSize) % 2 ^ 32) % 2 ^ 64)
        ((CurrentSectorOffset + BlocksToRead BytesRemaining) % 2 ^ 32)
        events1 r.2
  else (XST_SUCCESS, events, m)
termination_by BytesRemaining
decreasing_by
  unfold BytesToReadInChunk MAX_BYTES_PER_TRANSFER
  split <;> omega

/-- `read_elf_from_sd(mem_dst_adr, elf_size_in_byte, sd_sector_offset)`: the
returned status and the state it leaves. -/
def read_elf_from_sd (drv : SdDriver) (w : SdWorld)
    (mem_dst_adr elf_size_in_byte sd_sector_offset : Nat) : Int × SdWorld :=
  if w.SdIsInitialized = 0 then
    let found := drv.LookupConfig w.events
    let ev1 := w.events ++ [SdEvent.LookupConfig found]
    if !found then (XST_FAILURE, { w with events := ev1 })
    else
      let st1 := drv.CfgInitialize ev1
      let ev2 := ev1 ++ [SdEvent.CfgInitialize st1]
      if st1 ≠ XST_SUCCESS then (XST_FAILURE, { w with events := ev2 })
      else
        let c := drv.CardInitialize ev2
        let ev3 := ev2 ++ [SdEvent.CardInitialize c.1 c.2]
        if c.1 ≠ XST_SUCCESS then (XST_FAILURE, { w with HCS := c.2, events := ev3 })
        else
          let r := read_loop drv c.2 elf_size_in_byte mem_dst_adr sd_sector_offset ev3 w.mem
          (r.1, { SdIsInitialized := 1, HCS := c.2, events := r.2.1, mem := r.2.2 })
  else
    let r := read_loop drv w.HCS elf_size_in_byte mem_dst_adr sd_sector_offset w.events w.mem
    (r.1, { w with events := r.2.1, mem := r.2.2 })

/-! ## Vocabulary for the statements about the loader -/

/-- Address of entry `i` of the program-header table, `&phdr_table[i]`, for the
image at `elf` in the memory `m`. -/
def phdr_at (m : Mem) (elf i : Nat) : Nat :=
  ((elf + e_phoff m elf) % 2 ^ 64 + SIZEOF_PHDR * i) % 2 ^ 64

/-- Entry `i` is one of the `e_phnum` entries of the table and its type is `PT_LOAD`. -/
def loadable (m : Mem) (elf i : Nat) : Prop :=
  i < e_phnum m elf ∧ p_type m (phdr_at m elf i) = PT_LOAD

/-- Address `x` lies in the destination range of the entry at `phdr`: the
`max(filesz, memsz)` bytes from `destination_base + vaddr` on. -/
def in_dest (m : Mem) (dst phdr x : Nat) : Prop :=
  ∃ j, j < max (p_filesz m phdr) (p_memsz m phdr) ∧ x = (dst + p_vaddr m phdr + j) % 2 ^ 64

/-- Address `x` holds one of the `filesz` file bytes of the entry at `phdr`,
which start at `image_base + offset`. -/
def in_src (m : Mem) (elf phdr x : Nat) : Prop :=
  ∃ j, j < p_filesz m phdr ∧ x = (elf + p_offset m phdr + j) % 2 ^ 64

/-- Address `x` holds a byte that steers the loop: a byte of the header field
`e_phnum` or of one of the `e_phnum` entries of the program-header table. -/
def in_ctrl (m : Mem) (elf x : Nat) : Prop :=
  (∃ j, j < 2 ∧ x = (elf + 56 + j) % 2 ^ 64) ∨
  (∃ i j, i < e_phnum m elf ∧ j < SIZEOF_PHDR ∧ x = (phdr_at m elf i + j) % 2 ^ 64)

/-- The segment of the entry at `phdr` (fields read in `m`) is in place in the
memory `μ`: destination byte `j` holds file byte `j` of `m` for `j < filesz`,
and zero for `filesz ≤ j < memsz`. -/
def segment_loaded (m μ : Mem) (dst elf phdr : Nat) : Prop :=
  (∀ j, j < p_filesz m phdr →
    load8 μ (dst + p_vaddr m phdr + j) = load8 m (elf + p_offset m phdr + j)) ∧
  (∀ j, p_filesz m phdr ≤ j → j < p_memsz m phdr →
    load8 μ (dst + p_vaddr m phdr + j) = 0)

/-! ## Concrete images -/

/-- The `n` low-order bytes of `v`, least significant first. -/
def le_bytes : Nat → Nat → List Nat
  | 0, _ => []
  | n + 1, v => (v % 256) :: le_bytes n (v / 256)

/-- The 64 bytes of an `Elf64_Ehdr` with the given signature byte 0, `e_phoff`,
`e_phentsize` and `e_phnum`. -/
def ehdr_bytes (mag0 phoff phentsize phnum : Nat) : List Nat :=
  [mag0, 0x45, 0x4C, 0x46, 2, 1, 1, 0, 0, 0, 0, 0, 0, 0, 0, 0] ++
  le_bytes 2 2 ++ le_bytes 2 21 ++ le_bytes 4 1 ++ le_bytes 8 0 ++ le_bytes 8 phoff ++
  le_bytes 8 0 ++ le_bytes 4 0 ++ le_bytes 2 64 ++ le_bytes 2 phentsize ++ le_bytes 2 phnum ++
  le_bytes 2 0 ++ le_bytes 2 0 ++ le_bytes 2 0

/-- The 56 bytes of an `Elf64_Phdr` with the given type, offset, virtual
address, file size and memory size. -/
def phdr_bytes (type offset vaddr filesz memsz : Nat) : List Nat :=
  le_bytes 4 type ++ le_bytes 4 0 ++ le_bytes 8 offset ++ le_bytes 8 vaddr ++
  le_bytes 8 vaddr ++ le_bytes 8 filesz ++ le_bytes 8 memsz ++ le_bytes 8 0

/-- The image of the loader scenario: a header, a table of three entries at
offset 64 of which only the middle one is loadable (`filesz = 100`,
`memsz = 150`, `vaddr = 0x1000`, file bytes at offset 232), and the 100 file
bytes `1, 2, ..., 100`. -/
def scenario_image (mag0 : Nat) : List Nat :=
  ehdr_bytes mag0 64 56 3 ++
  phdr_bytes 0 0 0 0 0 ++ phdr_bytes 1 232 0x1000 100 150 ++ phdr_bytes 4 0 0 0 0 ++
  (List.range 100).map (fun j => j + 1)

/-- The scenario image placed at address `0x10000` of an otherwise zero memory. -/
def scenario_mem : Mem := memOfList 0x10000 (scenario_image 0x7F)

/-- An image that rewrites its own program-header table while it is loaded:
entry 0 is loadable and its 56 file bytes, themselves a loadable entry
(`offset = 232`, `vaddr = 0x3000`, `filesz = memsz = 1`), are copied to
`0x2000 + 0xE078 = 0x10078`, the address of entry 1 when the image is at
`0x10000`; entry 1 is of type `PT_NULL` in the image. -/
def selfmod_image : List Nat :=
  ehdr_bytes 0x7F 64 56 2 ++
  phdr_bytes 1 176 0xE078 56 56 ++ phdr_bytes 0 0 0 0 0 ++
  phdr_bytes 1 232 0x3000 1 1 ++ [0xAA]

/-- The self-rewriting image placed at address `0x10000` of an otherwise zero memory. -/
def selfmod_mem : Mem := memOfList 0x10000 selfmod_image

/-! ## Vocabulary for the statements about the SD reader -/

/-- The driver call succeeded: the configuration was found, or the status is `XST_SUCCESS`. -/
def event_ok : SdEvent → Bool
  | SdEvent.LookupConfig found => found
  | SdEvent.CfgInitialize st => st == XST_SUCCESS
  | SdEvent.CardInitialize st _ => st == XST_SUCCESS
  | SdEvent.ReadPolled _ _ _ st => st == XST_SUCCESS

/-- The driver call is a sub-transfer, a call of `XSdPs_ReadPolled`. -/
def is_read : SdEvent → Bool
  | SdEvent.ReadPolled _ _ _ _ => true
  | _ => false

/-- Every read of the driver reports success. -/
def reads_succeed (drv : SdDriver) : Prop :=
  ∀ ev m a b p, (drv.ReadPolled ev m a b p).1 = XST_SUCCESS

/-- The initialisation was already done, or its three driver calls succeed now. -/
def init_ok (drv : SdDriver) (w : SdWorld) : Prop :=
  w.SdIsInitialized ≠ 0 ∨
  (drv.LookupConfig w.events = true ∧
   drv.CfgInitialize (w.events ++ [SdEvent.LookupConfig true]) = XST_SUCCESS ∧
   (drv.CardInitialize (w.events ++ [SdEvent.LookupConfig true,
      SdEvent.CfgInitialize XST_SUCCESS])).1 = XST_SUCCESS)

/-- The sub-transfers `evs` follow the sector cursor: each is a read whose
argument is the cursor `c` on a high-capacity card and `c * 512` reduced to 32
bits otherwise, and the cursor of the next one is `c + BlkCnt` reduced to 32
bits. -/
def args_follow_cursor (hcs : Nat) : Nat → List SdEvent → Prop
  | _, [] => True
  | c, SdEvent.ReadPolled a b _ _ :: rest =>
    a = (if hcs = 0 then (c * 512) % 2 ^ 32 else c) ∧
    args_follow_cursor hcs ((c + b) % 2 ^ 32) rest
  | _, _ :: _ => False

/-- The events a run of the loop appends when it is entered with `r` bytes
remaining, destination `addr` and cursor `c`: each is the read of the
iteration, every read but the last succeeded, and the next iteration starts
from the updated counters. -/
def sub_transfers (hcs : Nat) : Nat → Nat → Nat → List SdEvent → Prop
  | _, _, _, [] => True
  | r, addr, c, e :: rest =>
    0 < r ∧
    (∃ st, e = SdEvent.ReadPolled (ReadArg hcs c) (BlocksToRead r) addr st ∧
      (rest ≠ [] → st = XST_SUCCESS)) ∧
    sub_transfers hcs ((r + 2 ^ 32 - BytesToReadInChunk r) % 2 ^ 32)
      ((addr + (BlocksToRead r * SectorSize) % 2 ^ 32) % 2 ^ 64)
      ((c + BlocksToRead r) % 2 ^ 32) rest

/-- A failing driver call is the last one of the list. -/
def fail_fast (l : List SdEvent) : Prop :=
  ∀ pre e post, l = pre ++ e :: post → event_ok e = false → post = []

/-- A driver on which every call succeeds; reads leave the memory as it is and
the card reports the flag `hcs`. -/
def ok_driver (hcs : Nat) : SdDriver where
  LookupConfig := fun _ => true
  CfgInitialize := fun _ => XST_SUCCESS
  CardInitialize := fun _ => (XST_SUCCESS, hcs)
  ReadPolled := fun _ m _ _ _ => (XST_SUCCESS, m)

/-- A driver like `ok_driver` whose reads fail once `k` reads have been made. -/
def fail_after_driver (hcs k : Nat) : SdDriver where
  LookupConfig := fun _ => true
  CfgInitialize := fun _ => XST_SUCCESS
  CardInitialize := fun _ => (XST_SUCCESS, hcs)
  ReadPolled := fun ev m _ _ _ =>
    (if (ev.filter is_read).length < k then XST_SUCCESS else XST_FAILURE, m)

/-- A state in which the driver and the card are initialised, with the flag
`hcs`, no driver call logged and a zero memory. -/
def ready_world (hcs : Nat) : SdWorld where
  SdIsInitialized := 1
  HCS := hcs
  events := []
  mem := fun _ => 0

/-- The state at program start: nothing initialised, nothing logged, a zero memory. -/
def fresh_world : SdWorld where
  SdIsInitialized := 0
  HCS := 0
  events := []
  mem := fun _ => 0

/-! ## The counters of the read loop, calls in sequence, and `main` -/

/-- The `while (BytesRemaining > 0)` loop of `read_elf_from_sd` once more, this
time returning the three counters it ends with: `BytesRemaining`,
`CurrentMemAddr` and `CurrentSectorOffset`. -/
def read_loop_counters (drv : SdDriver) (HCS : Nat)
    (BytesRemaining CurrentMemAddr CurrentSectorOffset : Nat)
    (events : List SdEvent) (m : Mem) : Nat × Nat × Nat :=
  if h : BytesRemaining > 0 then
    let r := drv.ReadPolled events m (ReadArg HCS CurrentSectorOffset)
      (BlocksToRead BytesRemaining) CurrentMemAddr
    let events1 := events ++ [SdEvent.ReadPolled (ReadArg HCS CurrentSectorOffset)
      (BlocksToRead BytesRemaining) CurrentMemAddr r.1]
    if r.1 ≠ XST_SUCCESS then (BytesRemaining, CurrentMemAddr, CurrentSectorOffset)
    else
      read_loop_counters drv HCS
        ((BytesRemaining + 2 ^ 32 - BytesToReadInChunk BytesRemaining) % 2 ^ 32)
        ((CurrentMemAddr + (BlocksToRead BytesRemaining * SectorSize) % 2 ^ 32) % 2 ^ 64)
        ((CurrentSectorOffset + BlocksToRead BytesRemaining) % 2 ^ 32)
        events1 r.2
  else (BytesRemaining, CurrentMemAddr, CurrentSectorOffset)
termination_by BytesRemaining
decreasing_by
  unfold BytesToReadInChunk MAX_BYTES_PER_TRANSFER
  split <;> omega

/-- Control register of the companion core (`#define CTR_REG 0xA0000000`). -/
def CTR_REG : Nat := 0xA0000000

/-- Load-address register (`#define MEM_REG 0xA0000004`). -/
def MEM_REG : Nat := 0xA0000004

/-- Version register (`#define VER_REG 0xA000000C`). -/
def VER_REG : Nat := 0xA000000C

/-- Expected version (`#define CUR_VER 0xDEADBEEF`). -/
def CUR_VER : Nat := 0xDEADBEEF

/-- Size of the image fetched by `main` (`#define OS_SIZE_BYTES 0x00700000UL`). -/
def OS_SIZE_BYTES : Nat := 0x00700000

/-- First sector of the image (`#define SECTOR_OFFSET 0x00000000UL`). -/
def SECTOR_OFFSET : Nat := 0x00000000

/-- Staging and extraction base (`#define PS_DRAM_BASE_OFFSET 0x20000000UL`). -/
def PS_DRAM_BASE_OFFSET : Nat := 0x20000000

/-- Address the image is fetched to (`#define ELF_OS_BASE_OFFSET 0x30000000UL`). -/
def ELF_OS_BASE_OFFSET : Nat := 0x30000000

/-- One access to a register of the companion core. -/
inductive MmioEvent where
  /-- `Xil_Out32(addr, val)`. -/
  | Out32 (addr val : Nat)
  /-- `Xil_In32(addr)` and the value it returned. -/
  | In32 (addr val : Nat)
  deriving DecidableEq, Repr

/-- The companion core seen through its registers: the value a read returns may
depend on all the register accesses made so far. -/
structure Mmio where
  /-- Value returned by `Xil_In32(addr)`. -/
  In32 : List MmioEvent → Nat → Nat

/-- How `main` ends: in the endless `wfi` loop after the start bit was written,
or by returning `XST_FAILURE`. -/
inductive BootOutcome where
  /-- The start bit was written and `main` waits forever. -/
  | Running
  /-- `main` returned `XST_FAILURE`. -/
  | Aborted
  deriving DecidableEq, Repr

/-- What a run of `main` leaves: how it ended, the state of the SD reader with
the memory, and the register accesses in order. -/
structure BootResult where
  /-- How the run ended. -/
  outcome : BootOutcome
  /-- The state of the SD reader, with the memory. -/
  sd : SdWorld
  /-- The register accesses made, oldest first. -/
  mmio : List MmioEvent

/-- `prog_mem_directly(mem_dst_adr, prog, prog_size_in_byte)`. -/
def prog_mem_directly (m : Mem) (mem_dst_adr prog prog_size_in_byte : Nat) : Int × Mem :=
  (XST_SUCCESS, my_memcpy m mem_dst_adr prog prog_size_in_byte)

/-- The function `main` of the bootloader, started on the memory `m` with the
`static` variables of the reader at zero.  The array `program` (the included
file `mw_welcome_c_ver.hex`) is given by its address and its size in bytes. -/
def main (drv : SdDriver) (io : Mmio) (m : Mem) (program program_size : Nat) : BootResult :=
  let s := prog_mem_directly m PS_DRAM_BASE_OFFSET program program_size
  let w0 : SdWorld := { SdIsInitialized := 0, HCS := 0, events := [], mem := s.2 }
  if s.1 ≠ XST_SUCCESS then { outcome := BootOutcome.Aborted, sd := w0, mmio := [] }
  else
    let f := read_elf_from_sd drv w0 ELF_OS_BASE_OFFSET OS_SIZE_BYTES SECTOR_OFFSET
    if f.1 ≠ XST_SUCCESS then { outcome := BootOutcome.Aborted, sd := f.2, mmio := [] }
    else
      let l := load_and_run_elf f.2.mem PS_DRAM_BASE_OFFSET ELF_OS_BASE_OFFSET
      let w2 : SdWorld := { f.2 with mem := l.2 }
      if l.1 ≠ XST_SUCCESS then { outcome := BootOutcome.Aborted, sd := w2, mmio := [] }
      else
        let log1 := [MmioEvent.Out32 MEM_REG PS_DRAM_BASE_OFFSET]
        let v1 := io.In32 log1 MEM_REG
        let log2 := log1 ++ [MmioEvent.In32 MEM_REG v1]
        if v1 ≠ PS_DRAM_BASE_OFFSET then
          { outcome := BootOutcome.Aborted, sd := w2, mmio := log2 }
        else
          let v2 := io.In32 log2 VER_REG
          let log3 := log2 ++ [MmioEvent.In32 VER_REG v2]
          if v2 ≠ CUR_VER then { outcome := BootOutcome.Aborted, sd := w2, mmio := log3 }
          else
            { outcome := BootOutcome.Running, sd := w2,
              mmio := log3 ++ [MmioEvent.Out32 CTR_REG 0x1] }

/-- The state in which `main` calls `read_elf_from_sd`: the `static` variables
at zero, nothing logged, the memory after the staging of `program`. -/
def staged_world (m : Mem) (program program_size : Nat) : SdWorld where
  SdIsInitialized := 0
  HCS := 0
  events := []
  mem := (prog_mem_directly m PS_DRAM_BASE_OFFSET program program_size).2

/-- The sectors requested by the sub-transfers of a list of driver calls, summed. -/
def blocks_sum : List SdEvent → Nat
  | [] => 0
  | SdEvent.ReadPolled _ b _ _ :: rest => b + blocks_sum rest
  | _ :: rest => blocks_sum rest

/-- The sector counts of the sub-transfers of a list of driver calls, in order. -/
def block_counts : List SdEvent → List Nat
  | [] => []
  | SdEvent.ReadPolled _ b _ _ :: rest => b :: block_counts rest
  | _ :: rest => block_counts rest

/-- A driver that finds no device configuration; reads, were any made, succeed. -/
def no_config_driver : SdDriver where
  LookupConfig := fun _ => false
  CfgInitialize := fun _ => XST_SUCCESS
  CardInitialize := fun _ => (XST_SUCCESS, 1)
  ReadPolled := fun _ m _ _ _ => (XST_SUCCESS, m)

/-- A companion core whose load-address register reads back `0x20000000` and
whose version register reads `0xDEADBEEF`. -/
def good_io : Mmio where
  In32 := fun _ addr => if addr = MEM_REG then PS_DRAM_BASE_OFFSET else CUR_VER

/-- A companion core of another version: the load-address register reads back
`0x20000000`, the version register reads `0`. -/
def old_io : Mmio where
  In32 := fun _ addr => if addr = MEM_REG then PS_DRAM_BASE_OFFSET else 0

/-- An image whose only program-header entry is loadable, with
`vaddr = 0x80000000`, `filesz = memsz = 4` and the file bytes `1, 0, 0, 0` at
offset 120.  Extracted with `extract_to_offset = 0x20000000`, its destination
`0x20000000 + 0x80000000` is `0xA0000000`, the address of the control register. -/
def release_image : List Nat :=
  ehdr_bytes 0x7F 64 56 1 ++ phdr_bytes 1 120 0x80000000 4 4 ++ [1, 0, 0, 0]

/-- The image `release_image` at `0x30000000`, where `main` fetches, in an
otherwise zero memory. -/
def release_mem : Mem := memOfList 0x30000000 release_image

/-- The scenario image at `0x30000000`, where `main` fetches, in an otherwise
zero memory. -/
def fetched_mem : Mem := memOfList 0x30000000 (scenario_image 0x7F)

/-- The `for` loop of `load_and_run_elf` once more, this time returning also
the addresses `&phdr_table[i]` of the entries it visits, in the order of the
visits. -/
def load_loop_trace (extract_to_offset elf_file_in_memory phdr_table : Nat) (i : Nat) (m : Mem) :
    List Nat × Mem :=
  if i < e_phnum m elf_file_in_memory then
    let r := load_loop_trace extract_to_offset elf_file_in_memory phdr_table (i + 1)
      (load_segment m extract_to_offset elf_file_in_memory
        ((phdr_table + SIZEOF_PHDR * i) % 2 ^ 64))
    (((phdr_table + SIZEOF_PHDR * i) % 2 ^ 64) :: r.1, r.2)
  else ([], m)
termination_by 65536 - i
decreasing_by
  have h : e_phnum m elf_file_in_memory < 65536 := by
    unfold e_phnum load16 load8
    omega
  omega

/-- Address `x` holds one of the two bytes of the header field `e_phentsize`
of the image at `elf`. -/
def in_phentsize (elf x : Nat) : Prop := ∃ j, j < 2 ∧ x = (elf + 54 + j) % 2 ^ 64

/-- The memories `m` and `μ` hold the same bytes, except possibly in the field
`e_phentsize` of the image at `elf`. -/
def same_but_phentsize (m μ : Mem) (elf : Nat) : Prop :=
  ∀ x, ¬ in_phentsize elf x → μ x = m x

/-- An image whose only program-header entry is loadable and has for file
bytes the first 56 bytes of the image itself (`offset = 0`,
`filesz = memsz = 56`, `vaddr = 0x1000`), as in an executable whose first
segment starts at file offset 0; the field `e_phentsize` holds 56. -/
def header_copy_image : List Nat :=
  ehdr_bytes 0x7F 64 56 1 ++ phdr_bytes 1 0 0x1000 56 56

/-- The image `header_copy_image` at `0x10000` of an otherwise zero memory. -/
def header_copy_mem : Mem := memOfList 0x10000 header_copy_image

/-- An image that rewrites its own field `e_phnum` while it is loaded: the
field holds 1, and the only entry of the table is loadable and copies the two
file bytes `2, 0` to `0x2000 + 0xE038 = 0x10038`, the address of `e_phnum`
when the image is at `0x10000`. -/
def recount_image : List Nat :=
  ehdr_bytes 0x7F 64 56 1 ++ phdr_bytes 1 120 0xE038 2 2 ++ [2, 0]

/-- The image `recount_image` at `0x10000` of an otherwise zero memory. -/
def recount_mem : Mem := memOfList 0x10000 recount_image

end Bootloader

/-!
# Microwatt4Zynq: the console output of the welcome program (`sw/mw_welcome/print.c`)

Conventions of this part.

* A C string is the list of the bytes found from its address on; it ends at
  the first zero byte, and past the listed bytes the memory reads as zero.
* A buffer written with `s[i++] = c` from `i = 0` on is the list of the bytes
  written so far.
* The console is the list of the bytes handed to `uart_transmit_byte`, oldest
  first; the wait for room in the transmit FIFO is not part of the state.
* `int` is 32 bits wide: the negation in `my_itoa` wraps.  String lengths,
  the width `min_len` and the character count stay far below `2 ^ 31` on
  every input considered, so they are not reduced.
* A variadic argument is one 64-bit slot; used as `char *` it comes with the
  string it points to.  Reading past the supplied arguments gives zero slots.
-/

namespace MwWelcome

/-! ## Strings and the console -/

/-- Byte `i` of the string stored in `s`: `s[i]`. -/
def char_at (s : List Nat) (i : Nat) : Nat := s.getD i 0

/-- `uart_transmit_byte(data)`: the byte is appended to the console. -/
def uart_transmit_byte (out : List Nat) (data : Nat) : List Nat := out ++ [data % 256]

/-- `my_print(str)`: every byte of `str` before its terminator is transmitted. -/
def my_print (out : List Nat) : List Nat → List Nat
  | [] => out
  | c :: rest => if c ≠ 0 then my_print (uart_transmit_byte out c) rest else out

/-- `my_strlen(s)`: the number of bytes before the terminator. -/
def my_strlen : List Nat → Nat
  | [] => 0
  | c :: rest => if c ≠ 0 then my_strlen rest + 1 else 0

/-- The loop of `str_reverse`, `while (i < j)`: the bytes at `i` and `j` are
swapped, `i` goes up and `j` down.  At most `fuel` iterations are run; the
loop needs half the distance from `i` to `j`. -/
def str_reverse_loop : Nat → Nat → Int → List Nat → List Nat
  | 0, _, _, str => str
  | fuel + 1, i, j, str =>
    if (i : Int) < j then
      let temp := char_at str i
      let str1 := str.set i (char_at str j.toNat)
      let str2 := str1.set j.toNat temp
      str_reverse_loop fuel (i + 1) (j - 1) str2
    else str

/-- `str_reverse(str)`: in-place reversal of the bytes before the terminator. -/
def str_reverse (str : List Nat) : List Nat :=
  str_reverse_loop (my_strlen str) 0 ((my_strlen str : Int) - 1) str

/-! ## `my_itoa` and `my_uitoa_hex` -/

/-- Reduction of an integer to the range of a 32-bit `int`. -/
def wrap_int (x : Int) : Int := (x + 2 ^ 31) % 2 ^ 32 - 2 ^ 31

/-- The digit loop of `my_itoa`, `while (n != 0)`: the byte `(n % 10) + '0'` is
written and `n` divided by ten, both with the truncating operators of C.  At
most `fuel` iterations are run; the loop needs one per decimal digit. -/
def itoa_digits : Nat → Int → List Nat → List Nat
  | 0, _, s => s
  | fuel + 1, n, s =>
    if n ≠ 0 then
      itoa_digits fuel (Int.tdiv n 10) (s ++ [((Int.tmod n 10 + 48) % 256).toNat])
    else s

/-- The padding loop of both conversions, `while (i < min_len) s[i++] = '0'`,
where `i` is the number of bytes written.  At most `fuel` iterations are run;
the loop needs `min_len - i` of them. -/
def pad_zeros (min_len : Int) : Nat → List Nat → List Nat
  | 0, s => s
  | fuel + 1, s => if (s.length : Int) < min_len then pad_zeros min_len fuel (s ++ [48]) else s

/-- `my_itoa(n, s, min_len)`: the bytes left in the buffer `s`, terminator included. -/
def my_itoa (n : Int) (min_len : Int) : List Nat :=
  let s0 : List Nat := if n = 0 then [48] else []
  let is_negative : Int := if n = 0 then 0 else if n < 0 then 1 else 0
  let n1 : Int := if n = 0 then n else if n < 0 then wrap_int (-n) else n
  let s1 := itoa_digits n1.natAbs n1 s0
  let s2 := pad_zeros min_len (min_len - s1.length).toNat s1
  let s3 := if is_negative ≠ 0 then s2 ++ [45] else s2
  str_reverse (s3 ++ [0])

/-- The table `hex_chars = "0123456789abcdef"`. -/
def hex_chars : List Nat :=
  [48, 49, 50, 51, 52, 53, 54, 55, 56, 57, 97, 98, 99, 100, 101, 102]

/-- The digit loop of `my_uitoa_hex`, `while (n != 0)`: the byte
`hex_chars[n % 16]` is written and `n` divided by sixteen.  At most `fuel`
iterations are run; the loop needs one per hexadecimal digit. -/
def uitoa_hex_digits : Nat → Nat → List Nat → List Nat
  | 0, _, s => s
  | fuel + 1, n, s =>
    if n ≠ 0 then uitoa_hex_digits fuel (n / 16) (s ++ [char_at hex_chars (n % 16)]) else s

/-- `my_uitoa_hex(n, s, min_len)`: the bytes left in the buffer `s`, terminator included. -/
def my_uitoa_hex (n : Nat) (min_len : Int) : List Nat :=
  let s0 : List Nat := if n = 0 then [48] else []
  let s1 := uitoa_hex_digits n n s0
  let s2 := pad_zeros min_len (min_len - s1.length).toNat s1
  str_reverse (s2 ++ [0])

/-! ## `my_printf` -/

/-- One variadic argument: the 64-bit slot and, for a `char *`, the string at
that address. -/
structure Arg where
  /-- The value of the slot. -/
  val : Nat
  /-- The bytes at the address `val`, when the argument is used as a string. -/
  str : List Nat
  deriving DecidableEq, Repr

/-- `va_arg(args, T)`: the next slot, a zero slot when none is left. -/
def va_arg (args : List Arg) : Arg × List Arg :=
  match args with
  | [] => ({ val := 0, str := [] }, [])
  | a :: rest => (a, rest)

/-- The local variables of `my_printf` that change along the format string. -/
structure PrintfState where
  /-- The index `i` into `format`. -/
  i : Nat
  /-- The arguments not yet consumed. -/
  args : List Arg
  /-- The counter `count`. -/
  count : Int
  /-- The console. -/
  out : List Nat
  /-- The longest string, terminator included, written into `buffer` so far. -/
  buffer_used : Nat
  deriving DecidableEq, Repr

/-- The width loop of `my_printf`, `while (format[i] >= '0' && format[i] <= '9')`.
At most `fuel` iterations are run; the loop needs one per digit. -/
def parse_width (format : List Nat) : Nat → Nat → Int → Nat × Int
  | 0, i, min_len => (i, min_len)
  | fuel + 1, i, min_len =>
    if char_at format i ≥ 48 ∧ char_at format i ≤ 57 then
      parse_width format fuel (i + 1) (min_len * 10 + ((char_at format i : Int) - 48))
    else (i, min_len)

/-- The `switch (format[i])` of `my_printf`, entered with `i` at the conversion
character and the parsed width `min_len`. -/
def my_printf_switch (format : List Nat) (st : PrintfState) (min_len : Int) : PrintfState :=
  let c := char_at format st.i
  if c = 100 then
    let d := wrap_int ((va_arg st.args).1.val)
    let buffer := my_itoa d min_len
    { st with args := (va_arg st.args).2, out := my_print st.out buffer,
              count := st.count + my_strlen buffer,
              buffer_used := max st.buffer_used buffer.length }
  else if c = 120 then
    let x := (va_arg st.args).1.val % 2 ^ 64
    let buffer := my_uitoa_hex x min_len
    { st with args := (va_arg st.args).2, out := my_print st.out buffer,
              count := st.count + my_strlen buffer,
              buffer_used := max st.buffer_used buffer.length }
  else if c = 112 then
    let p := (va_arg st.args).1.val % 2 ^ 64
    let out1 := my_print st.out [48, 120, 0]
    let buffer := my_uitoa_hex p 16
    { st with args := (va_arg st.args).2, out := my_print out1 buffer,
              count := st.count + 2 + my_strlen buffer,
              buffer_used := max st.buffer_used buffer.length }
  else if c = 99 then
    let ch := (va_arg st.args).1.val % 256
    { st with args := (va_arg st.args).2, out := my_print st.out [ch, 0],
              count := st.count + 1 }
  else if c = 115 then
    let a := (va_arg st.args).1
    let s := if a.val = 0 then [40, 110, 117, 108, 108, 41, 0] else a.str
    { st with args := (va_arg st.args).2, out := my_print st.out s,
              count := st.count + my_strlen s }
  else if c = 37 then
    { st with out := my_print st.out [37, 0], count := st.count + 1 }
  else
    { st with out := my_print (my_print st.out [37, 0]) (format.drop st.i),
              count := st.count + 2 }

/-- The body of the `for` loop of `my_printf`, entered with `format[i] != 0`;
the increment `i++` of the loop is left to the caller. -/
def my_printf_body (format : List Nat) (st : PrintfState) : PrintfState :=
  if char_at format st.i ≠ 37 then
    { st with out := my_print st.out [char_at format st.i, 0], count := st.count + 1 }
  else
    let i1 := st.i + 1
    let i2 := if char_at format i1 = 48 then i1 + 1 else i1
    let w := parse_width format format.length i2 0
    my_printf_switch format { st with i := w.1 } w.2

/-- The `for (i = 0; format[i] != 0; i++)` loop of `my_printf`.  At most `fuel`
iterations are run; the loop needs at most one per byte of `format`. -/
def my_printf_loop (format : List Nat) : Nat → PrintfState → PrintfState
  | 0, st => st
  | fuel + 1, st =>
    if char_at format st.i ≠ 0 then
      let st1 := my_printf_body format st
      my_printf_loop format fuel { st1 with i := st1.i + 1 }
    else st

/-- The state in which `my_printf` leaves its loop. -/
def my_printf_run (format : List Nat) (args : List Arg) : PrintfState :=
  my_printf_loop format (format.length + 1)
    { i := 0, args := args, count := 0, out := [], buffer_used := 0 }

/-- `my_printf(format, ...)`: the value returned and the bytes transmitted. -/
def my_printf (format : List Nat) (args : List Arg) : Int × List Nat :=
  ((my_printf_run format args).count, (my_printf_run format args).out)

/-- The bytes of a string literal. -/
def c_str (s : String) : List Nat := s.toList.map Char.toNat

/-- Value of a hexadecimal digit character. -/
def hex_value (c : Nat) : Nat := if c ≤ 57 then c - 48 else c - 87

/-- The byte is one of `0`-`9`, `a`-`f`. -/
def is_hex_char (c : Nat) : Prop := (48 ≤ c ∧ c ≤ 57) ∨ (97 ≤ c ∧ c ≤ 102)

end MwWelcome

namespace Bootloader

/-! ## Basic facts about the memory model -/

theorem load8_lt (m : Mem) (a : Nat) : load8 m a < 256 :=
  Nat.mod_lt _ (by decide)

theorem load16_lt (m : Mem) (a : Nat) : load16 m a < 65536 := by
  have h1 := load8_lt m a
  have h2 := load8_lt m (a + 1)
  unfold load16
  omega

theorem load32_lt (m : Mem) (a : Nat) : load32 m a < 4294967296 := by
  have h1 := load16_lt m a
  have h2 := load16_lt m (a + 2)
  unfold load32
  omega

theorem load64_lt (m : Mem) (a : Nat) : load64 m a < 2 ^ 64 := by
  have h1 := load32_lt m a
  have h2 := load32_lt m (a + 4)
  unfold load64
  omega


/-! ## Stores, copies and fills -/

theorem store8_of_ne (m : Mem) (a v x : Nat) (h : x ≠ a % 2 ^ 64) : store8 m a v x = m x := by
  unfold store8
  exact if_neg h

theorem load8_store8_same (m : Mem) (a v : Nat) : load8 (store8 m a v) a = v % 256 := by
  simp [load8, store8]

theorem load8_congr (m1 m2 : Mem) (a : Nat) (h : m1 (a % 2 ^ 64) = m2 (a % 2 ^ 64)) :
    load8 m1 a = load8 m2 a := by
  unfold load8
  rw [h]

theorem load16_congr (m1 m2 : Mem) (a : Nat)
    (h : ∀ j, j < 2 → m1 ((a + j) % 2 ^ 64) = m2 ((a + j) % 2 ^ 64)) :
    load16 m1 a = load16 m2 a := by
  unfold load16
  rw [load8_congr m1 m2 a (by simpa using h 0 (by omega)),
    load8_congr m1 m2 (a + 1) (h 1 (by omega))]

theorem load32_congr (m1 m2 : Mem) (a : Nat)
    (h : ∀ j, j < 4 → m1 ((a + j) % 2 ^ 64) = m2 ((a + j) % 2 ^ 64)) :
    load32 m1 a = load32 m2 a := by
  unfold load32
  rw [load16_congr m1 m2 a (fun j hj => h j (by omega)),
    load16_congr m1 m2 (a + 2) (fun j hj => by simpa [Nat.add_assoc] using h (2 + j) (by omega))]

theorem load64_congr (m1 m2 : Mem) (a : Nat)
    (h : ∀ j, j < 8 → m1 ((a + j) % 2 ^ 64) = m2 ((a + j) % 2 ^ 64)) :
    load64 m1 a = load64 m2 a := by
  unfold load64
  rw [load32_congr m1 m2 a (fun j hj => h j (by omega)),
    load32_congr m1 m2 (a + 4) (fun j hj => by simpa [Nat.add_assoc] using h (4 + j) (by omega))]

/-- A copy changes no byte outside the destination addresses it runs over. -/
theorem my_memcpy_loop_frame (dest src : Nat) :
    ∀ (k i : Nat) (m : Mem) (x : Nat),
      (∀ j, i ≤ j → j < i + k → x ≠ (dest + j) % 2 ^ 64) →
      my_memcpy_loop dest src k i m x = m x := by
  intro k
  induction k with
  | zero => intro i m x _; rfl
  | succ k ih =>
    intro i m x hx
    rw [my_memcpy_loop, ih (i + 1) _ x (fun j h1 h2 => hx j (by omega) (by omega))]
    exact store8_of_ne _ _ _ _ (hx i (by omega) (by omega))

/-- A copy whose source bytes lie outside its destination puts source byte `j`
at destination byte `j`. -/
theorem my_memcpy_loop_content (dest src : Nat) :
    ∀ (k i : Nat) (m : Mem), i + k ≤ 2 ^ 64 →
      (∀ j j2, i ≤ j → j < i + k → i ≤ j2 → j2 < i + k →
        (src + j) % 2 ^ 64 ≠ (dest + j2) % 2 ^ 64) →
      ∀ j, i ≤ j → j < i + k →
        load8 (my_memcpy_loop dest src k i m) (dest + j) = load8 m (src + j) := by
  intro k
  induction k with
  | zero => intro i m _ _ j h1 h2; omega
  | succ k ih =>
    intro i m hk hdis j h1 h2
    rw [my_memcpy_loop]
    by_cases hj : j = i
    · subst hj
      have hfr := my_memcpy_loop_frame dest src k (j + 1)
        (store8 m (dest + j) (load8 m (src + j))) ((dest + j) % 2 ^ 64)
        (fun j2 h3 h4 => by omega)
      rw [load8_congr _ (store8 m (dest + j) (load8 m (src + j))) (dest + j) hfr,
        load8_store8_same]
      exact Nat.mod_eq_of_lt (Nat.mod_lt _ (by decide))
    · rw [ih (i + 1) _ (by omega)
        (fun a b h3 h4 h5 h6 => hdis a b (by omega) (by omega) (by omega) (by omega))
        j (by omega) (by omega)]
      apply load8_congr
      exact store8_of_ne _ _ _ _ (hdis j i (by omega) (by omega) (by omega) (by omega))

theorem my_memcpy_frame (m : Mem) (dest src n x : Nat)
    (hx : ∀ j, j < n → x ≠ (dest + j) % 2 ^ 64) : my_memcpy m dest src n x = m x :=
  my_memcpy_loop_frame dest src n 0 m x (fun j _ h => hx j (by omega))

theorem my_memcpy_content (m : Mem) (dest src n : Nat) (hn : n ≤ 2 ^ 64)
    (hdis : ∀ j j2, j < n → j2 < n → (src + j) % 2 ^ 64 ≠ (dest + j2) % 2 ^ 64)
    (j : Nat) (hj : j < n) :
    load8 (my_memcpy m dest src n) (dest + j) = load8 m (src + j) :=
  my_memcpy_loop_content dest src n 0 m (by omega)
    (fun a b _ h2 _ h4 => hdis a b (by omega) (by omega)) j (by omega) (by omega)

/-- A fill changes no byte outside the addresses it runs over. -/
theorem my_memset_loop_frame (s c : Nat) :
    ∀ (k i : Nat) (m : Mem) (x : Nat),
      (∀ j, i ≤ j → j < i + k → x ≠ (s + j) % 2 ^ 64) →
      my_memset_loop s c k i m x = m x := by
  intro k
  induction k with
  | zero => intro i m x _; rfl
  | succ k ih =>
    intro i m x hx
    rw [my_memset_loop, ih (i + 1) _ x (fun j h1 h2 => hx j (by omega) (by omega))]
    exact store8_of_ne _ _ _ _ (hx i (by omega) (by omega))

/-- A fill leaves the byte `c` at each of its addresses. -/
theorem my_memset_loop_content (s c : Nat) :
    ∀ (k i : Nat) (m : Mem), i + k ≤ 2 ^ 64 →
      ∀ j, i ≤ j → j < i + k → load8 (my_memset_loop s c k i m) (s + j) = c % 256 := by
  intro k
  induction k with
  | zero => intro i m _ j h1 h2; omega
  | succ k ih =>
    intro i m hk j h1 h2
    rw [my_memset_loop]
    by_cases hj : j = i
    · subst hj
      have hfr := my_memset_loop_frame s c k (j + 1) (store8 m (s + j) c) ((s + j) % 2 ^ 64)
        (fun j2 h3 h4 => by omega)
      rw [load8_congr _ (store8 m (s + j) c) (s + j) hfr, load8_store8_same]
    · exact ih (i + 1) _ (by omega) j (by omega) (by omega)

theorem my_memset_frame (m : Mem) (s c n x : Nat)
    (hx : ∀ j, j < n → x ≠ (s + j) % 2 ^ 64) : my_memset m s c n x = m x :=
  my_memset_loop_frame s c n 0 m x (fun j _ h => hx j (by omega))

theorem my_memset_content (m : Mem) (s c n : Nat) (hn : n ≤ 2 ^ 64) (j : Nat) (hj : j < n) :
    load8 (my_memset m s c n) (s + j) = c % 256 :=
  my_memset_loop_content s c n 0 m (by omega) j (by omega) (by omega)

/-! ## One iteration of the loader loop -/

theorem load_segment_of_not_load (m : Mem) (dst elf phdr : Nat) (h : p_type m phdr ≠ PT_LOAD) :
    load_segment m dst elf phdr = m := by
  unfold load_segment
  exact if_neg h

/-- The two size fields read after the copy are those read before it, when the
entry itself is not overwritten by its own segment. -/
theorem sizes_after_copy (m : Mem) (dst elf phdr : Nat)
    (hself : ∀ j, j < SIZEOF_PHDR → ¬ in_dest m dst phdr ((phdr + j) % 2 ^ 64)) :
    p_filesz (my_memcpy m ((dst + p_vaddr m phdr) % 2 ^ 64)
        ((elf + p_offset m phdr) % 2 ^ 64) (p_filesz m phdr)) phdr = p_filesz m phdr ∧
    p_memsz (my_memcpy m ((dst + p_vaddr m phdr) % 2 ^ 64)
        ((elf + p_offset m phdr) % 2 ^ 64) (p_filesz m phdr)) phdr = p_memsz m phdr := by
  have key : ∀ j, j < SIZEOF_PHDR →
      my_memcpy m ((dst + p_vaddr m phdr) % 2 ^ 64) ((elf + p_offset m phdr) % 2 ^ 64)
        (p_filesz m phdr) ((phdr + j) % 2 ^ 64) = m ((phdr + j) % 2 ^ 64) := by
    intro j hj
    apply my_memcpy_frame
    intro j2 hj2 heq
    apply hself j hj
    refine ⟨j2, by omega, ?_⟩
    rw [heq]
    omega
  unfold SIZEOF_PHDR at key
  constructor
  · unfold p_filesz
    apply load64_congr
    intro j hj
    have := key (32 + j) (by omega)
    rwa [← Nat.add_assoc] at this
  · unfold p_memsz
    apply load64_congr
    intro j hj
    have := key (40 + j) (by omega)
    rwa [← Nat.add_assoc] at this

/-- The iteration for a `PT_LOAD` entry that its own segment does not overwrite:
a copy of `filesz` bytes, followed by a fill of `memsz - filesz` bytes when
`memsz > filesz`. -/
theorem load_segment_of_load (m : Mem) (dst elf phdr : Nat) (ht : p_type m phdr = PT_LOAD)
    (hself : ∀ j, j < SIZEOF_PHDR → ¬ in_dest m dst phdr ((phdr + j) % 2 ^ 64)) :
    load_segment m dst elf phdr =
      if p_memsz m phdr > p_filesz m phdr then
        my_memset (my_memcpy m ((dst + p_vaddr m phdr) % 2 ^ 64)
            ((elf + p_offset m phdr) % 2 ^ 64) (p_filesz m phdr))
          (((dst + p_vaddr m phdr) % 2 ^ 64 + p_filesz m phdr) % 2 ^ 64) 0
          (p_memsz m phdr - p_filesz m phdr)
      else
        my_memcpy m ((dst + p_vaddr m phdr) % 2 ^ 64)
          ((elf + p_offset m phdr) % 2 ^ 64) (p_filesz m phdr) := by
  obtain ⟨h1, h2⟩ := sizes_after_copy m dst elf phdr hself
  unfold load_segment
  rw [if_pos ht]
  simp only [h1, h2]

/-- One iteration writes inside the destination range of its entry only. -/
theorem load_segment_frame (m : Mem) (dst elf phdr : Nat)
    (hself0 : p_type m phdr = PT_LOAD →
      ∀ j, j < SIZEOF_PHDR → ¬ in_dest m dst phdr ((phdr + j) % 2 ^ 64))
    (x : Nat) (hx : p_type m phdr = PT_LOAD → ¬ in_dest m dst phdr x) :
    load_segment m dst elf phdr x = m x := by
  by_cases ht : p_type m phdr = PT_LOAD
  · have hx2 := hx ht
    have hself := hself0 ht
    have hcopy : my_memcpy m ((dst + p_vaddr m phdr) % 2 ^ 64)
        ((elf + p_offset m phdr) % 2 ^ 64) (p_filesz m phdr) x = m x := by
      apply my_memcpy_frame
      intro j hj heq
      apply hx2
      refine ⟨j, by omega, ?_⟩
      rw [heq]
      omega
    rw [load_segment_of_load m dst elf phdr ht hself]
    split
    · rw [my_memset_frame, hcopy]
      intro j hj heq
      apply hx2
      refine ⟨p_filesz m phdr + j, by omega, ?_⟩
      rw [heq]
      omega
    · exact hcopy
  · rw [load_segment_of_not_load m dst elf phdr ht]

/-- One iteration for a `PT_LOAD` entry puts the file bytes at the start of the
destination range and zeroes after them up to `memsz`, when the segment
overwrites neither its own entry nor its own file bytes. -/
theorem load_segment_content (m : Mem) (dst elf phdr : Nat) (ht : p_type m phdr = PT_LOAD)
    (hself : ∀ j, j < SIZEOF_PHDR → ¬ in_dest m dst phdr ((phdr + j) % 2 ^ 64))
    (hsrc : ∀ x, in_src m elf phdr x → ¬ in_dest m dst phdr x) :
    (∀ j, j < p_filesz m phdr →
      load8 (load_segment m dst elf phdr) (dst + p_vaddr m phdr + j) =
        load8 m (elf + p_offset m phdr + j)) ∧
    (∀ j, p_filesz m phdr ≤ j → j < p_memsz m phdr →
      load8 (load_segment m dst elf phdr) (dst + p_vaddr m phdr + j) = 0) := by
  have hF := load64_lt m (phdr + 32)
  have hM := load64_lt m (phdr + 40)
  change p_filesz m phdr < 2 ^ 64 at hF
  change p_memsz m phdr < 2 ^ 64 at hM
  have hcopy : ∀ j, j < p_filesz m phdr →
      load8 (my_memcpy m ((dst + p_vaddr m phdr) % 2 ^ 64)
        ((elf + p_offset m phdr) % 2 ^ 64) (p_filesz m phdr)) (dst + p_vaddr m phdr + j) =
      load8 m (elf + p_offset m phdr + j) := by
    intro j hj
    have h := my_memcpy_content m ((dst + p_vaddr m phdr) % 2 ^ 64)
      ((elf + p_offset m phdr) % 2 ^ 64) (p_filesz m phdr) (by omega)
      (fun a b ha hb heq => hsrc (((elf + p_offset m phdr) % 2 ^ 64 + a) % 2 ^ 64)
        ⟨a, ha, by omega⟩ ⟨b, by omega, by rw [heq]; omega⟩) j hj
    unfold load8 at h ⊢
    have e1 : ((dst + p_vaddr m phdr) % 2 ^ 64 + j) % 2 ^ 64 =
        (dst + p_vaddr m phdr + j) % 2 ^ 64 := by omega
    have e2 : ((elf + p_offset m phdr) % 2 ^ 64 + j) % 2 ^ 64 =
        (elf + p_offset m phdr + j) % 2 ^ 64 := by omega
    rw [e1, e2] at h
    exact h
  rw [load_segment_of_load m dst elf phdr ht hself]
  constructor
  · intro j hj
    split
    · rw [← hcopy j hj]
      apply load8_congr
      apply my_memset_frame
      intro j2 hj2
      omega
    · exact hcopy j hj
  · intro j h1 h2
    rw [if_pos (by omega)]
    have h := my_memset_content
      (my_memcpy m ((dst + p_vaddr m phdr) % 2 ^ 64)
        ((elf + p_offset m phdr) % 2 ^ 64) (p_filesz m phdr))
      (((dst + p_vaddr m phdr) % 2 ^ 64 + p_filesz m phdr) % 2 ^ 64) 0
      (p_memsz m phdr - p_filesz m phdr) (by omega) (j - p_filesz m phdr) (by omega)
    unfold load8 at h ⊢
    have e1 : ((((dst + p_vaddr m phdr) % 2 ^ 64 + p_filesz m phdr) % 2 ^ 64 +
        (j - p_filesz m phdr)) % 2 ^ 64) = (dst + p_vaddr m phdr + j) % 2 ^ 64 := by omega
    rw [e1] at h
    exact h

/-! ## The loader loop -/

/-- The fields of an entry depend on its 56 bytes only. -/
theorem phdr_fields_congr (μ m : Mem) (ph : Nat)
    (h : ∀ j, j < SIZEOF_PHDR → μ ((ph + j) % 2 ^ 64) = m ((ph + j) % 2 ^ 64)) :
    p_type μ ph = p_type m ph ∧ p_offset μ ph = p_offset m ph ∧ p_vaddr μ ph = p_vaddr m ph ∧
    p_filesz μ ph = p_filesz m ph ∧ p_memsz μ ph = p_memsz m ph := by
  unfold SIZEOF_PHDR at h
  refine ⟨?_, ?_, ?_, ?_, ?_⟩
  · exact load32_congr _ _ _ (fun j hj => h j (by omega))
  · exact load64_congr _ _ _ (fun j hj => by
      have := h (8 + j) (by omega)
      rwa [← Nat.add_assoc] at this)
  · exact load64_congr _ _ _ (fun j hj => by
      have := h (16 + j) (by omega)
      rwa [← Nat.add_assoc] at this)
  · exact load64_congr _ _ _ (fun j hj => by
      have := h (32 + j) (by omega)
      rwa [← Nat.add_assoc] at this)
  · exact load64_congr _ _ _ (fun j hj => by
      have := h (40 + j) (by omega)
      rwa [← Nat.add_assoc] at this)

theorem in_dest_congr (μ m : Mem) (dst ph x : Nat)
    (hv : p_vaddr μ ph = p_vaddr m ph) (hf : p_filesz μ ph = p_filesz m ph)
    (hm : p_memsz μ ph = p_memsz m ph) : in_dest μ dst ph x ↔ in_dest m dst ph x := by
  unfold in_dest
  rw [hv, hf, hm]

theorem in_src_congr (μ m : Mem) (elf ph x : Nat)
    (ho : p_offset μ ph = p_offset m ph) (hf : p_filesz μ ph = p_filesz m ph) :
    in_src μ elf ph x ↔ in_src m elf ph x := by
  unfold in_src
  rw [ho, hf]

/-- Invariant rule for the loop: a property that holds before iteration `k`,
fixes the value read for `e_phnum`, and is carried over by one iteration,
holds with index `n` for the memory the loop leaves. -/
theorem load_loop_inv (dst elf tbl n : Nat) (P : Nat → Mem → Prop)
    (hnum : ∀ k μ, k ≤ n → P k μ → e_phnum μ elf = n)
    (hstep : ∀ k μ, k < n → P k μ →
      P (k + 1) (load_segment μ dst elf ((tbl + SIZEOF_PHDR * k) % 2 ^ 64))) :
    ∀ d k μ, k + d = n → P k μ → P n (load_loop dst elf tbl k μ) := by
  intro d
  induction d with
  | zero =>
    intro k μ hk hP
    have hk2 : k = n := by omega
    subst hk2
    rw [load_loop, if_neg (by rw [hnum k μ (le_refl _) hP]; omega)]
    exact hP
  | succ d ih =>
    intro k μ hk hP
    rw [load_loop, if_pos (by rw [hnum k μ (by omega) hP]; omega)]
    exact ih (k + 1) _ (by omega) (hstep k μ (by omega) hP)

/-- Frame of the loop.  When no loadable destination range overlaps the field
`e_phnum` or the program-header table, the loop leaves unchanged every byte
outside the destination ranges of the loadable entries. -/
theorem load_loop_frame (m : Mem) (dst elf : Nat)
    (hctrl : ∀ i, loadable m elf i →
      ∀ x, in_dest m dst (phdr_at m elf i) x → ¬ in_ctrl m elf x)
    (x : Nat) (hx : ∀ i, loadable m elf i → ¬ in_dest m dst (phdr_at m elf i) x) :
    load_loop dst elf ((elf + e_phoff m elf) % 2 ^ 64) 0 m x = m x := by
  have hagree : ∀ μ : Mem, (∀ y, (∀ i, loadable m elf i →
      ¬ in_dest m dst (phdr_at m elf i) y) → μ y = m y) →
      ∀ y, in_ctrl m elf y → μ y = m y :=
    fun μ hμ y hy => hμ y (fun i hi hd => hctrl i hi y hd hy)
  have main := load_loop_inv dst elf ((elf + e_phoff m elf) % 2 ^ 64) (e_phnum m elf)
    (fun _ μ => ∀ y, (∀ i, loadable m elf i → ¬ in_dest m dst (phdr_at m elf i) y) → μ y = m y)
    (by
      intro k μ _ hP
      exact load16_congr μ m (elf + 56) (fun j hj => hagree μ hP _ (Or.inl ⟨j, hj, rfl⟩)))
    (by
      intro k μ hk hP y hy
      have hf := phdr_fields_congr μ m (phdr_at m elf k)
        (fun j hj => hagree μ hP _ (Or.inr ⟨k, j, hk, hj, rfl⟩))
      obtain ⟨ht, _, hv, hfs, hms⟩ := hf
      change load_segment μ dst elf (phdr_at m elf k) y = m y
      rw [load_segment_frame μ dst elf (phdr_at m elf k)]
      · exact hP y hy
      · intro hty j hj hd
        rw [ht] at hty
        rw [in_dest_congr μ m dst _ _ hv hfs hms] at hd
        exact hctrl k ⟨hk, hty⟩ _ hd (Or.inr ⟨k, j, hk, hj, rfl⟩)
      · intro hty hd
        rw [ht] at hty
        rw [in_dest_congr μ m dst _ _ hv hfs hms] at hd
        exact hy k ⟨hk, hty⟩ hd)
    (e_phnum m elf) 0 m (by omega) (fun _ _ => rfl)
  exact main x hx

/-- Content of the loop.  When the destination ranges of the loadable entries
are pairwise disjoint and disjoint from a set `image` of addresses that holds
the field `e_phnum`, the program-header table and the file bytes of the
loadable entries, every loadable segment is in place after the loop. -/
theorem load_loop_content (m : Mem) (dst elf : Nat) (image : Nat → Prop)
    (himg_ctrl : ∀ x, in_ctrl m elf x → image x)
    (himg_src : ∀ i, loadable m elf i → ∀ x, in_src m elf (phdr_at m elf i) x → image x)
    (hdisj_img : ∀ i, loadable m elf i → ∀ x, in_dest m dst (phdr_at m elf i) x → ¬ image x)
    (hdisj : ∀ i j, loadable m elf i → loadable m elf j → i ≠ j →
      ∀ x, in_dest m dst (phdr_at m elf i) x → ¬ in_dest m dst (phdr_at m elf j) x)
    (i : Nat) (hi : loadable m elf i) :
    segment_loaded m (load_loop dst elf ((elf + e_phoff m elf) % 2 ^ 64) 0 m)
      dst elf (phdr_at m elf i) := by
  have hagree : ∀ μ : Mem, (∀ y, (∀ i, loadable m elf i →
      ¬ in_dest m dst (phdr_at m elf i) y) → μ y = m y) →
      ∀ y, image y → μ y = m y :=
    fun μ hμ y hy => hμ y (fun i hi hd => hdisj_img i hi y hd hy)
  have main := load_loop_inv dst elf ((elf + e_phoff m elf) % 2 ^ 64) (e_phnum m elf)
    (fun k μ =>
      (∀ y, (∀ i, loadable m elf i → ¬ in_dest m dst (phdr_at m elf i) y) → μ y = m y) ∧
      (∀ i, i < k → loadable m elf i → segment_loaded m μ dst elf (phdr_at m elf i)))
    (by
      intro k μ _ hP
      exact load16_congr μ m (elf + 56)
        (fun j hj => hagree μ hP.1 _ (himg_ctrl _ (Or.inl ⟨j, hj, rfl⟩))))
    (by
      intro k μ hk hP
      obtain ⟨hfr, hcont⟩ := hP
      obtain ⟨ht, ho, hv, hfs, hms⟩ := phdr_fields_congr μ m (phdr_at m elf k)
        (fun j hj => hagree μ hfr _ (himg_ctrl _ (Or.inr ⟨k, j, hk, hj, rfl⟩)))
      change (∀ y, _ → load_segment μ dst elf (phdr_at m elf k) y = m y) ∧
        (∀ i, i < k + 1 → loadable m elf i →
          segment_loaded m (load_segment μ dst elf (phdr_at m elf k)) dst elf (phdr_at m elf i))
      have hself : p_type μ (phdr_at m elf k) = PT_LOAD → ∀ j, j < SIZEOF_PHDR →
          ¬ in_dest μ dst (phdr_at m elf k) ((phdr_at m elf k + j) % 2 ^ 64) := by
        intro hty j hj hd
        rw [ht] at hty
        rw [in_dest_congr μ m dst _ _ hv hfs hms] at hd
        exact hdisj_img k ⟨hk, hty⟩ _ hd (himg_ctrl _ (Or.inr ⟨k, j, hk, hj, rfl⟩))
      have hstepfr : ∀ y, (loadable m elf k → ¬ in_dest m dst (phdr_at m elf k) y) →
          load_segment μ dst elf (phdr_at m elf k) y = μ y := by
        intro y hy
        apply load_segment_frame μ dst elf (phdr_at m elf k) hself
        intro hty hd
        rw [ht] at hty
        rw [in_dest_congr μ m dst _ _ hv hfs hms] at hd
        exact hy ⟨hk, hty⟩ hd
      refine ⟨?_, ?_⟩
      · intro y hy
        rw [hstepfr y (fun hl => hy k hl)]
        exact hfr y hy
      · intro i hik hli
        by_cases hik2 : i = k
        · subst hik2
          have hc := load_segment_content μ dst elf (phdr_at m elf i) (by rw [ht]; exact hli.2)
            (hself (by rw [ht]; exact hli.2))
            (by
              intro x hs hd
              rw [in_src_congr μ m elf _ _ ho hfs] at hs
              rw [in_dest_congr μ m dst _ _ hv hfs hms] at hd
              exact hdisj_img i hli x hd (himg_src i hli x hs))
          rw [ho, hv, hfs, hms] at hc
          refine ⟨?_, hc.2⟩
          intro j hj
          rw [hc.1 j hj]
          apply load8_congr
          exact hagree μ hfr _ (himg_src i hli _ ⟨j, hj, rfl⟩)
        · have hprev := hcont i (by omega) hli
          have hkeep : ∀ j, j < max (p_filesz m (phdr_at m elf i)) (p_memsz m (phdr_at m elf i)) →
              load8 (load_segment μ dst elf (phdr_at m elf k))
                (dst + p_vaddr m (phdr_at m elf i) + j) =
              load8 μ (dst + p_vaddr m (phdr_at m elf i) + j) := by
            intro j hj
            apply load8_congr
            apply hstepfr
            intro hlk hd
            exact hdisj i k hli hlk hik2 _ ⟨j, hj, rfl⟩ hd
          refine ⟨?_, ?_⟩
          · intro j hj
            rw [hkeep j (by omega)]
            exact hprev.1 j hj
          · intro j h1 h2
            rw [hkeep j (by omega)]
            exact hprev.2 j h1 h2)
    (e_phnum m elf) 0 m (by omega) ⟨fun _ _ => rfl, fun i hi0 _ => absurd hi0 (by omega)⟩
  exact main.2 i hi.1 hi

/-! ## The read loop, step by step -/

theorem max_bytes_eq : MAX_BYTES_PER_TRANSFER = 2097152 := by decide

theorem max_blocks_eq : MaxBlocksPerTransfer = 4096 := by decide

theorem bytes_in_chunk_eq (r : Nat) : BytesToReadInChunk r = min r 2097152 := by
  unfold BytesToReadInChunk
  rw [max_bytes_eq]
  split <;> omega

theorem blocks_to_read_eq (r : Nat) :
    BlocksToRead r = if r > 2097152 then 4096 else (r + 511) / 512 := by
  unfold BlocksToRead
  rw [max_bytes_eq, max_blocks_eq]
  unfold SectorSize
  split
  · rfl
  · omega

theorem blocks_to_read_le (r : Nat) : BlocksToRead r ≤ 4096 := by
  rw [blocks_to_read_eq]
  split <;> omega

theorem read_loop_done (drv : SdDriver) (hcs addr c : Nat) (ev : List SdEvent) (m : Mem) :
    read_loop drv hcs 0 addr c ev m = (XST_SUCCESS, ev, m) := by
  rw [read_loop]
  simp

theorem read_loop_fail (drv : SdDriver) (hcs r addr c : Nat) (ev : List SdEvent) (m : Mem)
    (hr : 0 < r)
    (hst : (drv.ReadPolled ev m (ReadArg hcs c) (BlocksToRead r) addr).1 ≠ XST_SUCCESS) :
    read_loop drv hcs r addr c ev m =
      (XST_FAILURE,
        ev ++ [SdEvent.ReadPolled (ReadArg hcs c) (BlocksToRead r) addr
          (drv.ReadPolled ev m (ReadArg hcs c) (BlocksToRead r) addr).1],
        (drv.ReadPolled ev m (ReadArg hcs c) (BlocksToRead r) addr).2) := by
  rw [read_loop]
  simp [hr, hst]

theorem read_loop_next (drv : SdDriver) (hcs r addr c : Nat) (ev : List SdEvent) (m : Mem)
    (hr : 0 < r)
    (hst : (drv.ReadPolled ev m (ReadArg hcs c) (BlocksToRead r) addr).1 = XST_SUCCESS) :
    read_loop drv hcs r addr c ev m =
      read_loop drv hcs ((r + 2 ^ 32 - BytesToReadInChunk r) % 2 ^ 32)
        ((addr + (BlocksToRead r * SectorSize) % 2 ^ 32) % 2 ^ 64)
        ((c + BlocksToRead r) % 2 ^ 32)
        (ev ++ [SdEvent.ReadPolled (ReadArg hcs c) (BlocksToRead r) addr XST_SUCCESS])
        (drv.ReadPolled ev m (ReadArg hcs c) (BlocksToRead r) addr).2 := by
  rw [read_loop]
  simp [hr, hst]

/-- What the loop appends to the log, and how its status reads off it. -/
theorem read_loop_spec (drv : SdDriver) (hcs : Nat) :
    ∀ (r addr c : Nat) (ev : List SdEvent) (m : Mem), ∃ new,
      (read_loop drv hcs r addr c ev m).2.1 = ev ++ new ∧
      sub_transfers hcs r addr c new ∧
      ((read_loop drv hcs r addr c ev m).1 = XST_SUCCESS ↔ ∀ e ∈ new, event_ok e = true) ∧
      ((read_loop drv hcs r addr c ev m).1 = XST_SUCCESS ∨
        (read_loop drv hcs r addr c ev m).1 = XST_FAILURE) := by
  intro r
  induction r using Nat.strong_induction_on with
  | _ r ih =>
    intro addr c ev m
    by_cases hr : r = 0
    · subst hr
      refine ⟨[], ?_, trivial, ?_, ?_⟩
      · rw [read_loop_done]
        simp
      · rw [read_loop_done]
        simp
      · rw [read_loop_done]
        exact Or.inl rfl
    · have hr0 : 0 < r := Nat.pos_of_ne_zero hr
      by_cases hst : (drv.ReadPolled ev m (ReadArg hcs c) (BlocksToRead r) addr).1 = XST_SUCCESS
      · have hlt : (r + 2 ^ 32 - BytesToReadInChunk r) % 2 ^ 32 < r := by
          rw [bytes_in_chunk_eq]
          omega
        obtain ⟨new, h1, h2, h3, h4⟩ := ih _ hlt
          ((addr + (BlocksToRead r * SectorSize) % 2 ^ 32) % 2 ^ 64)
          ((c + BlocksToRead r) % 2 ^ 32)
          (ev ++ [SdEvent.ReadPolled (ReadArg hcs c) (BlocksToRead r) addr XST_SUCCESS])
          (drv.ReadPolled ev m (ReadArg hcs c) (BlocksToRead r) addr).2
        refine ⟨SdEvent.ReadPolled (ReadArg hcs c) (BlocksToRead r) addr XST_SUCCESS :: new,
          ?_, ?_, ?_, ?_⟩
        · rw [read_loop_next drv hcs r addr c ev m hr0 hst, h1]
          simp
        · exact ⟨hr0, ⟨XST_SUCCESS, rfl, fun _ => rfl⟩, h2⟩
        · rw [read_loop_next drv hcs r addr c ev m hr0 hst, h3]
          simp [event_ok]
        · rw [read_loop_next drv hcs r addr c ev m hr0 hst]
          exact h4
      · refine ⟨[SdEvent.ReadPolled (ReadArg hcs c) (BlocksToRead r) addr
            (drv.ReadPolled ev m (ReadArg hcs c) (BlocksToRead r) addr).1], ?_, ?_, ?_, ?_⟩
        · rw [read_loop_fail drv hcs r addr c ev m hr0 hst]
        · exact ⟨hr0, ⟨_, rfl, fun h => absurd rfl h⟩, trivial⟩
        · rw [read_loop_fail drv hcs r addr c ev m hr0 hst]
          simp only [List.mem_singleton, forall_eq, event_ok, beq_iff_eq]
          constructor
          · intro h
            exact absurd h (by decide)
          · intro h
            exact absurd h hst
        · rw [read_loop_fail drv hcs r addr c ev m hr0 hst]
          exact Or.inr rfl

theorem sub_transfers_args (hcs : Nat) :
    ∀ (new : List SdEvent) (r addr c : Nat),
      sub_transfers hcs r addr c new → args_follow_cursor hcs c new := by
  intro new
  induction new with
  | nil => intro r addr c _; trivial
  | cons e rest ih =>
    intro r addr c h
    obtain ⟨_, ⟨st, he, _⟩, hrest⟩ := h
    subst he
    refine ⟨?_, ?_⟩
    · unfold ReadArg SectorSize
      rfl
    · exact ih _ _ _ hrest

theorem sub_transfers_reads (hcs : Nat) :
    ∀ (new : List SdEvent) (r addr c : Nat),
      sub_transfers hcs r addr c new →
      ∀ e ∈ new, ∃ a b p st, e = SdEvent.ReadPolled a b p st ∧ b ≤ 4096 := by
  intro new
  induction new with
  | nil => intro r addr c _ e he; simp at he
  | cons e0 rest ih =>
    intro r addr c h e he
    obtain ⟨_, ⟨st, he0, _⟩, hrest⟩ := h
    rcases List.mem_cons.mp he with rfl | hmem
    · exact ⟨_, _, _, st, he0, blocks_to_read_le r⟩
    · exact ih _ _ _ hrest e hmem

theorem fail_fast_nil : fail_fast [] := by
  intro pre e post h
  simp at h

theorem fail_fast_cons (a : SdEvent) (l : List SdEvent)
    (ha : event_ok a = false → l = []) (hl : fail_fast l) : fail_fast (a :: l) := by
  intro pre e post h hf
  cases pre with
  | nil =>
    simp only [List.nil_append, List.cons.injEq] at h
    obtain ⟨h1, h2⟩ := h
    subst h1
    rw [← h2]
    exact ha hf
  | cons b pre2 =>
    simp only [List.cons_append, List.cons.injEq] at h
    exact hl pre2 e post h.2 hf

theorem sub_transfers_fail_fast (hcs : Nat) :
    ∀ (new : List SdEvent) (r addr c : Nat), sub_transfers hcs r addr c new → fail_fast new := by
  intro new
  induction new with
  | nil => intro r addr c _; exact fail_fast_nil
  | cons e rest ih =>
    intro r addr c h
    obtain ⟨_, ⟨st, he, hok⟩, hrest⟩ := h
    apply fail_fast_cons e rest _ (ih _ _ _ hrest)
    intro hf
    by_contra hne
    have := hok hne
    subst he
    simp [event_ok, this] at hf

/-! ## `read_elf_from_sd`, case by case -/

theorem read_elf_from_sd_ready (drv : SdDriver) (w : SdWorld) (dst n c : Nat)
    (h0 : w.SdIsInitialized ≠ 0) :
    read_elf_from_sd drv w dst n c =
      ((read_loop drv w.HCS n dst c w.events w.mem).1,
        { w with events := (read_loop drv w.HCS n dst c w.events w.mem).2.1,
                 mem := (read_loop drv w.HCS n dst c w.events w.mem).2.2 }) := by
  unfold read_elf_from_sd
  rw [if_neg h0]

theorem read_elf_from_sd_no_config (drv : SdDriver) (w : SdWorld) (dst n c : Nat)
    (h0 : w.SdIsInitialized = 0) (hl : drv.LookupConfig w.events = false) :
    read_elf_from_sd drv w dst n c =
      (XST_FAILURE, { w with events := w.events ++ [SdEvent.LookupConfig false] }) := by
  unfold read_elf_from_sd
  simp [h0, hl]

theorem read_elf_from_sd_cfg_fail (drv : SdDriver) (w : SdWorld) (dst n c : Nat)
    (h0 : w.SdIsInitialized = 0) (hl : drv.LookupConfig w.events = true)
    (hc : drv.CfgInitialize (w.events ++ [SdEvent.LookupConfig true]) ≠ XST_SUCCESS) :
    read_elf_from_sd drv w dst n c =
      (XST_FAILURE, { w with events := w.events ++ [SdEvent.LookupConfig true,
        SdEvent.CfgInitialize (drv.CfgInitialize (w.events ++ [SdEvent.LookupConfig true]))] }) := by
  unfold read_elf_from_sd
  simp [h0, hl, hc]

theorem read_elf_from_sd_card_fail (drv : SdDriver) (w : SdWorld) (dst n c : Nat)
    (h0 : w.SdIsInitialized = 0) (hl : drv.LookupConfig w.events = true)
    (hc : drv.CfgInitialize (w.events ++ [SdEvent.LookupConfig true]) = XST_SUCCESS)
    (hk : (drv.CardInitialize (w.events ++ [SdEvent.LookupConfig true,
      SdEvent.CfgInitialize XST_SUCCESS])).1 ≠ XST_SUCCESS) :
    read_elf_from_sd drv w dst n c =
      (XST_FAILURE,
        { w with
          HCS := (drv.CardInitialize (w.events ++ [SdEvent.LookupConfig true,
            SdEvent.CfgInitialize XST_SUCCESS])).2,
          events := w.events ++ [SdEvent.LookupConfig true, SdEvent.CfgInitialize XST_SUCCESS,
            SdEvent.CardInitialize
              (drv.CardInitialize (w.events ++ [SdEvent.LookupConfig true,
                SdEvent.CfgInitialize XST_SUCCESS])).1
              (drv.CardInitialize (w.events ++ [SdEvent.LookupConfig true,
                SdEvent.CfgInitialize XST_SUCCESS])).2] }) := by
  unfold read_elf_from_sd
  simp [h0, hl, hc, hk]

theorem read_elf_from_sd_init (drv : SdDriver) (w : SdWorld) (dst n c : Nat)
    (h0 : w.SdIsInitialized = 0) (hl : drv.LookupConfig w.events = true)
    (hc : drv.CfgInitialize (w.events ++ [SdEvent.LookupConfig true]) = XST_SUCCESS)
    (hk : (drv.CardInitialize (w.events ++ [SdEvent.LookupConfig true,
      SdEvent.CfgInitialize XST_SUCCESS])).1 = XST_SUCCESS) :
    read_elf_from_sd drv w dst n c =
      ((read_loop drv
          (drv.CardInitialize (w.events ++ [SdEvent.LookupConfig true,
            SdEvent.CfgInitialize XST_SUCCESS])).2 n dst c
          (w.events ++ [SdEvent.LookupConfig true, SdEvent.CfgInitialize XST_SUCCESS,
            SdEvent.CardInitialize XST_SUCCESS
              (drv.CardInitialize (w.events ++ [SdEvent.LookupConfig true,
                SdEvent.CfgInitialize XST_SUCCESS])).2]) w.mem).1,
        { SdIsInitialized := 1,
          HCS := (drv.CardInitialize (w.events ++ [SdEvent.LookupConfig true,
            SdEvent.CfgInitialize XST_SUCCESS])).2,
          events := (read_loop drv
            (drv.CardInitialize (w.events ++ [SdEvent.LookupConfig true,
              SdEvent.CfgInitialize XST_SUCCESS])).2 n dst c
            (w.events ++ [SdEvent.LookupConfig true, SdEvent.CfgInitialize XST_SUCCESS,
              SdEvent.CardInitialize XST_SUCCESS
                (drv.CardInitialize (w.events ++ [SdEvent.LookupConfig true,
                  SdEvent.CfgInitialize XST_SUCCESS])).2]) w.mem).2.1,
          mem := (read_loop drv
            (drv.CardInitialize (w.events ++ [SdEvent.LookupConfig true,
              SdEvent.CfgInitialize XST_SUCCESS])).2 n dst c
            (w.events ++ [SdEvent.LookupConfig true, SdEvent.CfgInitialize XST_SUCCESS,
              SdEvent.CardInitialize XST_SUCCESS
                (drv.CardInitialize (w.events ++ [SdEvent.LookupConfig true,
                  SdEvent.CfgInitialize XST_SUCCESS])).2]) w.mem).2.2 }) := by
  unfold read_elf_from_sd
  simp [h0, hl, hc, hk]

/-- The driver calls of one fetch: calls of the initialisation, then the
sub-transfers of the loop; a failing call is the last one, and the status is
`XST_SUCCESS` exactly when the initialisation is in order and every
sub-transfer succeeded. -/
theorem read_elf_from_sd_spec (drv : SdDriver) (w : SdWorld) (dst n c : Nat) :
    ∃ init new,
      (read_elf_from_sd drv w dst n c).2.events = w.events ++ (init ++ new) ∧
      (∀ e ∈ init, is_read e = false) ∧
      sub_transfers (read_elf_from_sd drv w dst n c).2.HCS n dst c new ∧
      fail_fast (init ++ new) ∧
      ((read_elf_from_sd drv w dst n c).1 = XST_SUCCESS ↔
        init_ok drv w ∧ ∀ e ∈ new, event_ok e = true) ∧
      ((read_elf_from_sd drv w dst n c).1 = XST_SUCCESS ∨
        (read_elf_from_sd drv w dst n c).1 = XST_FAILURE) := by
  have hne : XST_FAILURE ≠ XST_SUCCESS := by decide
  by_cases h0 : w.SdIsInitialized = 0
  · cases hl : drv.LookupConfig w.events
    · refine ⟨[SdEvent.LookupConfig false], [], ?_, ?_, trivial, ?_, ?_, ?_⟩
      · rw [read_elf_from_sd_no_config drv w dst n c h0 hl]
        simp
      · simp [is_read]
      · exact fail_fast_cons _ _ (fun _ => rfl) fail_fast_nil
      · rw [read_elf_from_sd_no_config drv w dst n c h0 hl]
        simp [init_ok, h0, hl, hne]
      · rw [read_elf_from_sd_no_config drv w dst n c h0 hl]
        exact Or.inr rfl
    · by_cases hc : drv.CfgInitialize (w.events ++ [SdEvent.LookupConfig true]) = XST_SUCCESS
      · by_cases hk : (drv.CardInitialize (w.events ++ [SdEvent.LookupConfig true,
          SdEvent.CfgInitialize XST_SUCCESS])).1 = XST_SUCCESS
        · obtain ⟨new, h1, h2, h3, h4⟩ := read_loop_spec drv
            (drv.CardInitialize (w.events ++ [SdEvent.LookupConfig true,
              SdEvent.CfgInitialize XST_SUCCESS])).2 n dst c
            (w.events ++ [SdEvent.LookupConfig true, SdEvent.CfgInitialize XST_SUCCESS,
              SdEvent.CardInitialize XST_SUCCESS
                (drv.CardInitialize (w.events ++ [SdEvent.LookupConfig true,
                  SdEvent.CfgInitialize XST_SUCCESS])).2]) w.mem
          refine ⟨[SdEvent.LookupConfig true, SdEvent.CfgInitialize XST_SUCCESS,
              SdEvent.CardInitialize XST_SUCCESS
                (drv.CardInitialize (w.events ++ [SdEvent.LookupConfig true,
                  SdEvent.CfgInitialize XST_SUCCESS])).2], new, ?_, ?_, ?_, ?_, ?_, ?_⟩
          · rw [read_elf_from_sd_init drv w dst n c h0 hl hc hk]
            simp only [h1, List.append_assoc]
          · simp [is_read]
          · rw [read_elf_from_sd_init drv w dst n c h0 hl hc hk]
            exact h2
          · exact fail_fast_cons _ _ (fun h => by simp [event_ok] at h)
              (fail_fast_cons _ _ (fun h => by simp [event_ok] at h)
                (fail_fast_cons _ _ (fun h => by simp [event_ok] at h)
                  (sub_transfers_fail_fast _ new _ _ _ h2)))
          · rw [read_elf_from_sd_init drv w dst n c h0 hl hc hk]
            simp only [h3]
            constructor
            · intro h
              exact ⟨Or.inr ⟨hl, hc, hk⟩, h⟩
            · intro h
              exact h.2
          · rw [read_elf_from_sd_init drv w dst n c h0 hl hc hk]
            exact h4
        · refine ⟨[SdEvent.LookupConfig true, SdEvent.CfgInitialize XST_SUCCESS,
              SdEvent.CardInitialize
                (drv.CardInitialize (w.events ++ [SdEvent.LookupConfig true,
                  SdEvent.CfgInitialize XST_SUCCESS])).1
                (drv.CardInitialize (w.events ++ [SdEvent.LookupConfig true,
                  SdEvent.CfgInitialize XST_SUCCESS])).2], [], ?_, ?_, trivial, ?_, ?_, ?_⟩
          · rw [read_elf_from_sd_card_fail drv w dst n c h0 hl hc hk]
            simp
          · simp [is_read]
          · exact fail_fast_cons _ _ (fun h => by simp [event_ok] at h)
              (fail_fast_cons _ _ (fun h => by simp [event_ok] at h)
                (fail_fast_cons _ _ (fun _ => rfl) fail_fast_nil))
          · rw [read_elf_from_sd_card_fail drv w dst n c h0 hl hc hk]
            simp [init_ok, h0, hk, hne]
          · rw [read_elf_from_sd_card_fail drv w dst n c h0 hl hc hk]
            exact Or.inr rfl
      · refine ⟨[SdEvent.LookupConfig true, SdEvent.CfgInitialize
            (drv.CfgInitialize (w.events ++ [SdEvent.LookupConfig true]))], [],
            ?_, ?_, trivial, ?_, ?_, ?_⟩
        · rw [read_elf_from_sd_cfg_fail drv w dst n c h0 hl hc]
          simp
        · simp [is_read]
        · exact fail_fast_cons _ _ (fun h => by simp [event_ok] at h)
            (fail_fast_cons _ _ (fun _ => rfl) fail_fast_nil)
        · rw [read_elf_from_sd_cfg_fail drv w dst n c h0 hl hc]
          simp [init_ok, h0, hc, hne]
        · rw [read_elf_from_sd_cfg_fail drv w dst n c h0 hl hc]
          exact Or.inr rfl
  · obtain ⟨new, h1, h2, h3, h4⟩ := read_loop_spec drv w.HCS n dst c w.events w.mem
    refine ⟨[], new, ?_, ?_, ?_, ?_, ?_, ?_⟩
    · rw [read_elf_from_sd_ready drv w dst n c h0]
      simpa using h1
    · simp
    · rw [read_elf_from_sd_ready drv w dst n c h0]
      exact h2
    · exact sub_transfers_fail_fast _ new _ _ _ h2
    · rw [read_elf_from_sd_ready drv w dst n c h0]
      simp only [h3]
      constructor
      · intro h
        exact ⟨Or.inl h0, h⟩
      · intro h
        exact h.2
    · rw [read_elf_from_sd_ready drv w dst n c h0]
      exact h4

/-! ## Short fetches -/

/-- A fetch of at most one chunk, all reads succeeding: one read of `⌈r / 512⌉` sectors. -/
theorem read_loop_one_chunk (drv : SdDriver) (hok : reads_succeed drv) (hcs r addr c : Nat)
    (ev : List SdEvent) (m : Mem) (h1 : 0 < r) (h2 : r ≤ 2097152) :
    read_loop drv hcs r addr c ev m =
      (XST_SUCCESS,
        ev ++ [SdEvent.ReadPolled (ReadArg hcs c) ((r + 511) / 512) addr XST_SUCCESS],
        (drv.ReadPolled ev m (ReadArg hcs c) ((r + 511) / 512) addr).2) := by
  have hb : BlocksToRead r = (r + 511) / 512 := by
    rw [blocks_to_read_eq, if_neg (by omega)]
  have hz : (r + 2 ^ 32 - BytesToReadInChunk r) % 2 ^ 32 = 0 := by
    rw [bytes_in_chunk_eq]
    omega
  rw [read_loop_next drv hcs r addr c ev m h1 (hok _ _ _ _ _), hz, read_loop_done, hb]

/-- A fetch of one chunk and one byte, all reads succeeding: a read of 4096
sectors, then a read of one sector 2 MiB further. -/
theorem read_loop_two_chunks (drv : SdDriver) (hok : reads_succeed drv) (hcs addr c : Nat)
    (ev : List SdEvent) (m : Mem) :
    (read_loop drv hcs 2097153 addr c ev m).1 = XST_SUCCESS ∧
    (read_loop drv hcs 2097153 addr c ev m).2.1 =
      ev ++ [SdEvent.ReadPolled (ReadArg hcs c) 4096 addr XST_SUCCESS,
        SdEvent.ReadPolled (ReadArg hcs ((c + 4096) % 2 ^ 32)) 1
          ((addr + 2097152) % 2 ^ 64) XST_SUCCESS] := by
  have hb : BlocksToRead 2097153 = 4096 := by decide
  have hr : (2097153 + 2 ^ 32 - BytesToReadInChunk 2097153) % 2 ^ 32 = 1 := by decide
  have ha : (addr + (4096 * SectorSize) % 2 ^ 32) % 2 ^ 64 = (addr + 2097152) % 2 ^ 64 := by
    unfold SectorSize
    omega
  rw [read_loop_next drv hcs 2097153 addr c ev m (by omega) (hok _ _ _ _ _), hr, hb, ha,
    read_loop_one_chunk drv hok hcs 1 _ _ _ _ (by omega) (by omega)]
  simp

theorem ceil_div_sector (r : Nat) : ⌈(r : ℚ) / 512⌉₊ = (r + 511) / 512 := by
  apply le_antisymm
  · apply Nat.ceil_le.mpr
    have h : r ≤ 512 * ((r + 511) / 512) := by omega
    have h2 : (r : ℚ) ≤ 512 * (((r + 511) / 512 : ℕ) : ℚ) := by exact_mod_cast h
    rw [div_le_iff₀ (by norm_num)]
    linarith
  · have h := Nat.le_ceil ((r : ℚ) / 512)
    rw [div_le_iff₀ (by norm_num)] at h
    have h2 : r ≤ ⌈(r : ℚ) / 512⌉₊ * 512 := by exact_mod_cast h
    omega

theorem ok_driver_reads (hcs : Nat) : reads_succeed (ok_driver hcs) :=
  fun _ _ _ _ _ => rfl

/-! ## The magic test -/

theorem magic_ok_iff (m : Mem) (elf : Nat) :
    magic_ok m elf = true ↔
      load8 m elf = 0x7F ∧ load8 m (elf + 1) = 0x45 ∧
      load8 m (elf + 2) = 0x4C ∧ load8 m (elf + 3) = 0x46 := by
  simp [magic_ok, e_ident, ELFMAG0, ELFMAG1, ELFMAG2, ELFMAG3, and_assoc]

theorem load_and_run_elf_of_magic (m : Mem) (dst elf : Nat) (h : magic_ok m elf = true) :
    load_and_run_elf m dst elf =
      (XST_SUCCESS, load_loop dst elf ((elf + e_phoff m elf) % 2 ^ 64) 0 m) := by
  simp [load_and_run_elf, h]

theorem load_and_run_elf_of_bad_magic (m : Mem) (dst elf : Nat) (h : magic_ok m elf = false) :
    load_and_run_elf m dst elf = (XST_FAILURE, m) := by
  simp [load_and_run_elf, h]

/-! ## Facts about the concrete images -/

theorem scenario_header :
    magic_ok scenario_mem 0x10000 = true ∧ e_phnum scenario_mem 0x10000 = 3 ∧
    e_phoff scenario_mem 0x10000 = 64 := by decide

theorem scenario_phdr_at (i : Nat) (hi : i < 3) :
    phdr_at scenario_mem 0x10000 i = 0x10040 + 56 * i := by
  interval_cases i <;> decide

theorem scenario_entry :
    p_type scenario_mem 0x10040 = 0 ∧ p_type scenario_mem 0x10078 = 1 ∧
    p_type scenario_mem 0x100B0 = 4 ∧ p_offset scenario_mem 0x10078 = 232 ∧
    p_vaddr scenario_mem 0x10078 = 0x1000 ∧ p_filesz scenario_mem 0x10078 = 100 ∧
    p_memsz scenario_mem 0x10078 = 150 := by decide

theorem scenario_loadable (i : Nat) : loadable scenario_mem 0x10000 i ↔ i = 1 := by
  unfold loadable PT_LOAD
  rw [scenario_header.2.1]
  constructor
  · rintro ⟨hi, ht⟩
    rw [scenario_phdr_at i hi] at ht
    interval_cases i
    · rw [scenario_entry.1] at ht
      omega
    · rfl
    · rw [scenario_entry.2.2.1] at ht
      omega
  · rintro rfl
    exact ⟨by omega, by rw [scenario_phdr_at 1 (by omega)]; exact scenario_entry.2.1⟩

theorem scenario_in_dest (x : Nat) :
    in_dest scenario_mem 0x2000 0x10078 x ↔ 0x3000 ≤ x ∧ x < 0x3096 := by
  unfold in_dest
  rw [scenario_entry.2.2.2.2.1, scenario_entry.2.2.2.2.2.1, scenario_entry.2.2.2.2.2.2]
  constructor
  · rintro ⟨j, hj, rfl⟩
    omega
  · intro h
    exact ⟨x - 0x3000, by omega, by omega⟩

theorem scenario_in_ctrl (x : Nat) (h : in_ctrl scenario_mem 0x10000 x) :
    0x10000 ≤ x ∧ x < 0x100E8 := by
  unfold in_ctrl SIZEOF_PHDR at h
  rw [scenario_header.2.1] at h
  rcases h with ⟨j, hj, rfl⟩ | ⟨i, j, hi, hj, rfl⟩
  · omega
  · rw [scenario_phdr_at i hi, Nat.mod_eq_of_lt (by omega)]
    omega

theorem scenario_in_src (x : Nat) (h : in_src scenario_mem 0x10000 0x10078 x) :
    0x100E8 ≤ x ∧ x < 0x1014C := by
  unfold in_src at h
  rw [scenario_entry.2.2.2.1, scenario_entry.2.2.2.2.2.1] at h
  obtain ⟨j, hj, rfl⟩ := h
  omega

/-- The run of the loader on the self-rewriting image: two iterations, the
second on the entry that the first one wrote. -/
theorem selfmod_run :
    load_and_run_elf selfmod_mem 0x2000 0x10000 =
      (XST_SUCCESS,
        load_segment (load_segment selfmod_mem 0x2000 0x10000 0x10040) 0x2000 0x10000 0x10078) := by
  rw [load_and_run_elf_of_magic _ _ _ (by decide)]
  have e : (0x10000 + e_phoff selfmod_mem 0x10000) % 2 ^ 64 = 0x10040 := by decide
  have e0 : (0x10040 + SIZEOF_PHDR * 0) % 2 ^ 64 = 0x10040 := by decide
  have e1 : (0x10040 + SIZEOF_PHDR * (0 + 1)) % 2 ^ 64 = 0x10078 := by decide
  rw [e, load_loop, if_pos (by decide), e0, load_loop, if_pos (by decide!), e1, load_loop,
    if_neg (by decide!)]

/-! ## The claims on `load_and_run_elf` -/

/-- C1. `load_and_run_elf` returns `XST_FAILURE` exactly when one of the first
four bytes of the image differs from `0x7F`, `E`, `L`, `F`; otherwise it
returns `XST_SUCCESS`.  Hence the status is the same for any two memories
that agree on those four bytes, whatever the other header fields hold. -/
theorem C1_failure_iff_bad_magic (m : Mem) (extract_to_offset elf_file_in_memory : Nat) :
    ((load_and_run_elf m extract_to_offset elf_file_in_memory).1 = XST_FAILURE ↔
        (load8 m elf_file_in_memory ≠ 0x7F ∨ load8 m (elf_file_in_memory + 1) ≠ 0x45 ∨
         load8 m (elf_file_in_memory + 2) ≠ 0x4C ∨ load8 m (elf_file_in_memory + 3) ≠ 0x46)) ∧
    ((load_and_run_elf m extract_to_offset elf_file_in_memory).1 = XST_SUCCESS ↔
        (load8 m elf_file_in_memory = 0x7F ∧ load8 m (elf_file_in_memory + 1) = 0x45 ∧
         load8 m (elf_file_in_memory + 2) = 0x4C ∧ load8 m (elf_file_in_memory + 3) = 0x46)) ∧
    (∀ m2 : Mem,
        load8 m2 elf_file_in_memory = load8 m elf_file_in_memory →
        load8 m2 (elf_file_in_memory + 1) = load8 m (elf_file_in_memory + 1) →
        load8 m2 (elf_file_in_memory + 2) = load8 m (elf_file_in_memory + 2) →
        load8 m2 (elf_file_in_memory + 3) = load8 m (elf_file_in_memory + 3) →
        (load_and_run_elf m2 extract_to_offset elf_file_in_memory).1 =
          (load_and_run_elf m extract_to_offset elf_file_in_memory).1) := by
  have key : ∀ μ : Mem, (load_and_run_elf μ extract_to_offset elf_file_in_memory).1 =
      if magic_ok μ elf_file_in_memory then XST_SUCCESS else XST_FAILURE := by
    intro μ
    cases h : magic_ok μ elf_file_in_memory
    · simp [load_and_run_elf_of_bad_magic _ _ _ h]
    · simp [load_and_run_elf_of_magic _ _ _ h]
  have hm := magic_ok_iff m elf_file_in_memory
  refine ⟨?_, ?_, ?_⟩
  · rw [key]
    cases h : magic_ok m elf_file_in_memory
    · simp only [h, Bool.false_eq_true, false_iff] at hm
      simp only [Bool.false_eq_true, if_false, true_iff]
      by_contra hc
      push_neg at hc
      exact hm hc
    · have := hm.mp h
      simp [XST_SUCCESS, XST_FAILURE, this]
  · rw [key]
    cases h : magic_ok m elf_file_in_memory
    · simp only [h, Bool.false_eq_true, false_iff] at hm
      simp [XST_SUCCESS, XST_FAILURE, hm]
    · have := hm.mp h
      simp [this]
  · intro m2 h0 h1 h2 h3
    rw [key, key]
    have h2' := magic_ok_iff m2 elf_file_in_memory
    rw [h0, h1, h2, h3, ← hm] at h2'
    cases h : magic_ok m elf_file_in_memory <;> cases h' : magic_ok m2 elf_file_in_memory <;>
      simp_all

/-- C2. When the first four bytes at the image base are not the ELF magic,
`load_and_run_elf` returns `XST_FAILURE` and the memory it leaves is the
memory it was given: nothing is copied or cleared, whatever the header and the
program-header table contain. -/
theorem C2_bad_magic_no_write (m : Mem) (extract_to_offset elf_file_in_memory : Nat)
    (h : load8 m elf_file_in_memory ≠ 0x7F ∨ load8 m (elf_file_in_memory + 1) ≠ 0x45 ∨
         load8 m (elf_file_in_memory + 2) ≠ 0x4C ∨ load8 m (elf_file_in_memory + 3) ≠ 0x46) :
    load_and_run_elf m extract_to_offset elf_file_in_memory = (XST_FAILURE, m) := by
  apply load_and_run_elf_of_bad_magic
  cases hm : magic_ok m elf_file_in_memory
  · rfl
  · have := (magic_ok_iff m elf_file_in_memory).mp hm
    omega

/-- C2 at a concrete input: the scenario image with its first signature byte
changed to `0x7E`, which still carries a loadable entry, is rejected and the
memory is left as it was. -/
theorem C2_bad_magic_no_write_witness :
    load8 (memOfList 0x10000 (scenario_image 0x7E)) 0x10000 ≠ 0x7F ∧
    p_type (memOfList 0x10000 (scenario_image 0x7E)) 0x10078 = PT_LOAD ∧
    load_and_run_elf (memOfList 0x10000 (scenario_image 0x7E)) 0x2000 0x10000 =
      (XST_FAILURE, memOfList 0x10000 (scenario_image 0x7E)) :=
  ⟨by decide, by decide, C2_bad_magic_no_write _ 0x2000 0x10000 (Or.inl (by decide))⟩

/-- C3. For an image with valid magic whose loadable entries have destination
ranges `[destination_base + vaddr, destination_base + vaddr + max(filesz, memsz))`
that are pairwise disjoint and disjoint from the image buffer (a set `image`
of addresses holding the field `e_phnum`, the program-header table and the
file bytes of the loadable entries), `load_and_run_elf` succeeds and, for
every loadable entry, destination byte `k` equals image byte `offset + k` for
`k < filesz` and is zero for `filesz ≤ k < memsz`; bytes outside all
destination ranges are left as they were. -/
theorem C3_loadable_segments_in_place (m : Mem) (destination_base image_base : Nat)
    (image : Nat → Prop)
    (hmagic : magic_ok m image_base = true)
    (himg_ctrl : ∀ x, in_ctrl m image_base x → image x)
    (himg_src : ∀ i, loadable m image_base i →
      ∀ x, in_src m image_base (phdr_at m image_base i) x → image x)
    (hdisj_img : ∀ i, loadable m image_base i →
      ∀ x, in_dest m destination_base (phdr_at m image_base i) x → ¬ image x)
    (hdisj : ∀ i j, loadable m image_base i → loadable m image_base j → i ≠ j →
      ∀ x, in_dest m destination_base (phdr_at m image_base i) x →
        ¬ in_dest m destination_base (phdr_at m image_base j) x) :
    (load_and_run_elf m destination_base image_base).1 = XST_SUCCESS ∧
    (∀ i, loadable m image_base i →
      (∀ k, k < p_filesz m (phdr_at m image_base i) →
        load8 (load_and_run_elf m destination_base image_base).2
            (destination_base + p_vaddr m (phdr_at m image_base i) + k) =
          load8 m (image_base + p_offset m (phdr_at m image_base i) + k)) ∧
      (∀ k, p_filesz m (phdr_at m image_base i) ≤ k → k < p_memsz m (phdr_at m image_base i) →
        load8 (load_and_run_elf m destination_base image_base).2
            (destination_base + p_vaddr m (phdr_at m image_base i) + k) = 0)) ∧
    (∀ x, (∀ i, loadable m image_base i →
        ¬ in_dest m destination_base (phdr_at m image_base i) x) →
      (load_and_run_elf m destination_base image_base).2 x = m x) := by
  rw [load_and_run_elf_of_magic m destination_base image_base hmagic]
  refine ⟨rfl, ?_, ?_⟩
  · intro i hi
    exact load_loop_content m destination_base image_base image himg_ctrl himg_src
      hdisj_img hdisj i hi
  · intro x hx
    exact load_loop_frame m destination_base image_base
      (fun i hi y hd hc => hdisj_img i hi y hd (himg_ctrl y hc)) x hx

/-- C3 on the scenario image at `0x10000`, loaded with base `0x2000`: the 100
file bytes arrive at `0x3000` and the 50 bytes after them are zero. -/
theorem C3_loadable_segments_in_place_witness :
    magic_ok scenario_mem 0x10000 = true ∧
    (load_and_run_elf scenario_mem 0x2000 0x10000).1 = XST_SUCCESS ∧
    (∀ k, k < 100 →
      load8 (load_and_run_elf scenario_mem 0x2000 0x10000).2 (0x2000 + 0x1000 + k) =
        load8 scenario_mem (0x10000 + 232 + k)) ∧
    (∀ k, 100 ≤ k → k < 150 →
      load8 (load_and_run_elf scenario_mem 0x2000 0x10000).2 (0x2000 + 0x1000 + k) = 0) := by
  have h := C3_loadable_segments_in_place scenario_mem 0x2000 0x10000
    (fun x => 0x10000 ≤ x ∧ x < 0x1014C) scenario_header.1
    (fun x hx => by have := scenario_in_ctrl x hx; omega)
    (fun i hi x hx => by
      rw [(scenario_loadable i).mp hi, scenario_phdr_at 1 (by omega)] at hx
      have := scenario_in_src x hx
      omega)
    (fun i hi x hx => by
      rw [(scenario_loadable i).mp hi, scenario_phdr_at 1 (by omega)] at hx
      have := (scenario_in_dest x).mp hx
      omega)
    (fun i j hi hj hij => by
      have := (scenario_loadable i).mp hi
      have := (scenario_loadable j).mp hj
      omega)
  have h1 := h.2.1 1 ((scenario_loadable 1).mpr rfl)
  rw [scenario_phdr_at 1 (by omega)] at h1
  simp only [scenario_entry.2.2.2.1, scenario_entry.2.2.2.2.1, scenario_entry.2.2.2.2.2.1,
    scenario_entry.2.2.2.2.2.2] at h1
  exact ⟨scenario_header.1, h.1, h1.1, h1.2⟩

/-- C4, the claim as stated fails: on the self-rewriting image the address
`0x5000` lies outside the destination range of every entry that is loadable
in the memory given to the loader, yet the byte there is changed from `0` to
`0xAA`. -/
theorem C4_counterexample :
    magic_ok selfmod_mem 0x10000 = true ∧
    (∀ i, loadable selfmod_mem 0x10000 i →
      ¬ in_dest selfmod_mem 0x2000 (phdr_at selfmod_mem 0x10000 i) 0x5000) ∧
    selfmod_mem 0x5000 = 0 ∧
    (load_and_run_elf selfmod_mem 0x2000 0x10000).2 0x5000 = 0xAA := by
  refine ⟨by decide, ?_, by decide, ?_⟩
  · rintro i ⟨hi, ht⟩ ⟨j, hj, hx⟩
    have hn : e_phnum selfmod_mem 0x10000 = 2 := by decide
    rw [hn] at hi
    interval_cases i
    · have e : phdr_at selfmod_mem 0x10000 0 = 0x10040 := by decide
      have hf : p_filesz selfmod_mem 0x10040 = 56 ∧ p_memsz selfmod_mem 0x10040 = 56 ∧
          p_vaddr selfmod_mem 0x10040 = 0xE078 := by decide
      rw [e, hf.1, hf.2.1] at hj
      rw [e, hf.2.2] at hx
      omega
    · revert ht
      decide
  · rw [selfmod_run]
    decide!

/-- C4, amended.  When no destination range of a loadable entry overlaps the
header field `e_phnum` or the program-header table, every byte whose address
lies outside the union of the destination ranges
`[destination_base + vaddr, destination_base + vaddr + max(filesz, memsz))`
of the loadable entries has the same value after the call as before; and an
image with valid magic whose entries are all non-loadable leaves the whole
memory unchanged and returns success. -/
theorem C4_writes_only_destination_ranges (m : Mem) (destination_base image_base : Nat)
    (hctrl : ∀ i, loadable m image_base i →
      ∀ x, in_dest m destination_base (phdr_at m image_base i) x → ¬ in_ctrl m image_base x) :
    (∀ x, (∀ i, loadable m image_base i →
        ¬ in_dest m destination_base (phdr_at m image_base i) x) →
      (load_and_run_elf m destination_base image_base).2 x = m x) ∧
    (magic_ok m image_base = true →
      (∀ i, i < e_phnum m image_base → p_type m (phdr_at m image_base i) ≠ PT_LOAD) →
      load_and_run_elf m destination_base image_base = (XST_SUCCESS, m)) := by
  constructor
  · intro x hx
    cases hmag : magic_ok m image_base
    · rw [load_and_run_elf_of_bad_magic m destination_base image_base hmag]
    · rw [load_and_run_elf_of_magic m destination_base image_base hmag]
      exact load_loop_frame m destination_base image_base hctrl x hx
  · intro hmag hnone
    rw [load_and_run_elf_of_magic m destination_base image_base hmag]
    congr 1
    funext x
    exact load_loop_frame m destination_base image_base hctrl x
      (fun i hi => absurd hi.2 (hnone i hi.1))

/-- C4 amended, on the scenario image: the bytes just below and just above the
destination range `[0x3000, 0x3096)`, and the first byte of the image, are
left as they were. -/
theorem C4_writes_only_destination_ranges_witness :
    (load_and_run_elf scenario_mem 0x2000 0x10000).2 0x2FFF = scenario_mem 0x2FFF ∧
    (load_and_run_elf scenario_mem 0x2000 0x10000).2 0x3096 = scenario_mem 0x3096 ∧
    (load_and_run_elf scenario_mem 0x2000 0x10000).2 0x10000 = scenario_mem 0x10000 := by
  have h := (C4_writes_only_destination_ranges scenario_mem 0x2000 0x10000 (by
    intro i hi y hd hc
    rw [(scenario_loadable i).mp hi, scenario_phdr_at 1 (by omega)] at hd
    have h1 := (scenario_in_dest y).mp hd
    have h2 := scenario_in_ctrl y hc
    omega)).1
  have hout : ∀ x, ¬ (0x3000 ≤ x ∧ x < 0x3096) →
      ∀ i, loadable scenario_mem 0x10000 i →
        ¬ in_dest scenario_mem 0x2000 (phdr_at scenario_mem 0x10000 i) x := by
    intro x hx i hi hd
    rw [(scenario_loadable i).mp hi, scenario_phdr_at 1 (by omega)] at hd
    exact hx ((scenario_in_dest x).mp hd)
  exact ⟨h _ (hout _ (by omega)), h _ (hout _ (by omega)), h _ (hout _ (by omega))⟩

/-- C5, the scenario as the spec states it fails: the scenario image (valid
magic, three entries at `0x10040`, `0x10078`, `0x100B0`, only the middle one
loadable with `filesz = 100`, `memsz = 150`, `vaddr = 0x1000`) loaded with
`destination_base = 0x2000` leaves the byte at `0x2000` at zero, while the first
file byte of the segment is `1`. -/
theorem C5_counterexample :
    magic_ok scenario_mem 0x10000 = true ∧ e_phnum scenario_mem 0x10000 = 3 ∧
    (∀ i, loadable scenario_mem 0x10000 i ↔ i = 1) ∧
    phdr_at scenario_mem 0x10000 1 = 0x10078 ∧
    p_filesz scenario_mem 0x10078 = 100 ∧ p_memsz scenario_mem 0x10078 = 150 ∧
    p_vaddr scenario_mem 0x10078 = 0x1000 ∧ p_offset scenario_mem 0x10078 = 232 ∧
    ¬ (∀ k, k < 100 →
        load8 (load_and_run_elf scenario_mem 0x2000 0x10000).2 (0x2000 + k) =
          load8 scenario_mem (0x10000 + 232 + k)) := by
  refine ⟨scenario_header.1, scenario_header.2.1, scenario_loadable, by decide,
    scenario_entry.2.2.2.2.2.1, scenario_entry.2.2.2.2.2.2, scenario_entry.2.2.2.2.1,
    scenario_entry.2.2.2.1, ?_⟩
  intro h
  have h0 := h 0 (by omega)
  have hfr : (load_and_run_elf scenario_mem 0x2000 0x10000).2 0x2000 = scenario_mem 0x2000 := by
    rw [load_and_run_elf_of_magic _ _ _ scenario_header.1]
    apply load_loop_frame
    · intro i hi y hd hc
      rw [(scenario_loadable i).mp hi, scenario_phdr_at 1 (by omega)] at hd
      have h1 := (scenario_in_dest y).mp hd
      have h2 := scenario_in_ctrl y hc
      omega
    · intro i hi hd
      rw [(scenario_loadable i).mp hi, scenario_phdr_at 1 (by omega)] at hd
      have := (scenario_in_dest 0x2000).mp hd
      omega
  rw [load8_congr _ scenario_mem (0x2000 + 0) hfr] at h0
  revert h0
  decide

/-- C5, amended.  For an image with valid magic and a three-entry
program-header table with exactly one loadable entry (`filesz = 100`,
`memsz = 150`, `vaddr = 0x1000`), whose field `e_phnum`, table and segment file
bytes lie outside `[0x3000, 0x3096)`, the loader called with
`destination_base = 0x2000` succeeds and leaves the bytes at `[0x3000, 0x3064)`
equal to the 100 file bytes of the segment and the bytes at `[0x3064, 0x3096)`
all zero. -/
theorem C5_scenario_loads_at_base_plus_vaddr (m : Mem) (image_base k : Nat)
    (hmagic : magic_ok m image_base = true)
    (_hnum : e_phnum m image_base = 3)
    (hone : ∀ i, loadable m image_base i ↔ i = k)
    (hfilesz : p_filesz m (phdr_at m image_base k) = 100)
    (hmemsz : p_memsz m (phdr_at m image_base k) = 150)
    (hvaddr : p_vaddr m (phdr_at m image_base k) = 0x1000)
    (hclear : ∀ x, 0x3000 ≤ x → x < 0x3096 →
      ¬ in_ctrl m image_base x ∧ ¬ in_src m image_base (phdr_at m image_base k) x) :
    (load_and_run_elf m 0x2000 image_base).1 = XST_SUCCESS ∧
    (∀ j, j < 100 →
      load8 (load_and_run_elf m 0x2000 image_base).2 (0x3000 + j) =
        load8 m (image_base + p_offset m (phdr_at m image_base k) + j)) ∧
    (∀ j, 0x64 ≤ j → j < 0x96 →
      load8 (load_and_run_elf m 0x2000 image_base).2 (0x3000 + j) = 0) := by
  have hk : loadable m image_base k := (hone k).mpr rfl
  have hdest : ∀ x, in_dest m 0x2000 (phdr_at m image_base k) x → 0x3000 ≤ x ∧ x < 0x3096 := by
    intro x hx
    unfold in_dest at hx
    rw [hfilesz, hmemsz, hvaddr] at hx
    obtain ⟨j, hj, rfl⟩ := hx
    omega
  have hc := load_loop_content m 0x2000 image_base
    (fun x => in_ctrl m image_base x ∨ in_src m image_base (phdr_at m image_base k) x)
    (fun x hx => Or.inl hx)
    (fun i hi x hx => by
      rw [(hone i).mp hi] at hx
      exact Or.inr hx)
    (fun i hi x hx himg => by
      rw [(hone i).mp hi] at hx
      obtain ⟨h1, h2⟩ := hdest x hx
      obtain ⟨h3, h4⟩ := hclear x h1 h2
      exact himg.elim h3 h4)
    (fun i j hi hj hij => absurd (((hone i).mp hi).trans ((hone j).mp hj).symm) hij)
    k hk
  rw [load_and_run_elf_of_magic m 0x2000 image_base hmagic]
  unfold segment_loaded at hc
  rw [hfilesz, hmemsz, hvaddr] at hc
  exact ⟨rfl, hc.1, hc.2⟩

/-- C5 amended, on the scenario image at `0x10000`. -/
theorem C5_scenario_loads_at_base_plus_vaddr_witness :
    (load_and_run_elf scenario_mem 0x2000 0x10000).1 = XST_SUCCESS ∧
    (∀ j, j < 100 →
      load8 (load_and_run_elf scenario_mem 0x2000 0x10000).2 (0x3000 + j) =
        load8 scenario_mem (0x10000 + p_offset scenario_mem (phdr_at scenario_mem 0x10000 1) + j)) ∧
    (∀ j, 0x64 ≤ j → j < 0x96 →
      load8 (load_and_run_elf scenario_mem 0x2000 0x10000).2 (0x3000 + j) = 0) :=
  C5_scenario_loads_at_base_plus_vaddr scenario_mem 0x10000 1 scenario_header.1
    scenario_header.2.1 scenario_loadable
    (by rw [scenario_phdr_at 1 (by omega)]; exact scenario_entry.2.2.2.2.2.1)
    (by rw [scenario_phdr_at 1 (by omega)]; exact scenario_entry.2.2.2.2.2.2)
    (by rw [scenario_phdr_at 1 (by omega)]; exact scenario_entry.2.2.2.2.1)
    (fun x h1 h2 => ⟨fun hc => by have := scenario_in_ctrl x hc; omega,
      fun hs => by
        rw [scenario_phdr_at 1 (by omega)] at hs
        have := scenario_in_src x hs
        omega⟩)

/-! ## The claims on `read_elf_from_sd` -/

/-- C6, the claim as stated fails: with the storage initialised and every read
succeeding, a fetch of `total_bytes = 0`, which is within the ceiling, performs
no sub-transfer at all. -/
theorem C6_counterexample :
    reads_succeed (ok_driver 1) ∧ (ready_world 1).SdIsInitialized ≠ 0 ∧ 0 ≤ 2097152 ∧
    (read_elf_from_sd (ok_driver 1) (ready_world 1) 0x30000000 0 0).2.events = [] := by
  refine ⟨ok_driver_reads 1, by decide, by decide, ?_⟩
  rw [read_elf_from_sd_ready _ _ _ _ _ (by decide), read_loop_done]
  rfl

/-- C6, amended.  With the storage already initialised and every underlying
read succeeding, `read_elf_from_sd` performs no sub-transfer for
`total_bytes = 0`, exactly one (of `⌈total_bytes / 512⌉` sectors) for
`0 < total_bytes ≤ 2,097,152`, and exactly two for `total_bytes = 2,097,153`:
the first of 4096 sectors, the second of exactly 1 sector. -/
theorem C6_sub_transfer_count (drv : SdDriver) (hok : reads_succeed drv) (w : SdWorld)
    (hinit : w.SdIsInitialized ≠ 0) (mem_dst_adr total_bytes start_sector : Nat) :
    (total_bytes = 0 →
      (read_elf_from_sd drv w mem_dst_adr total_bytes start_sector).2.events = w.events) ∧
    (0 < total_bytes → total_bytes ≤ 2097152 →
      (read_elf_from_sd drv w mem_dst_adr total_bytes start_sector).2.events =
        w.events ++ [SdEvent.ReadPolled (ReadArg w.HCS start_sector)
          ((total_bytes + 511) / 512) mem_dst_adr XST_SUCCESS]) ∧
    (total_bytes = 2097153 →
      (read_elf_from_sd drv w mem_dst_adr total_bytes start_sector).2.events =
        w.events ++ [SdEvent.ReadPolled (ReadArg w.HCS start_sector) 4096 mem_dst_adr XST_SUCCESS,
          SdEvent.ReadPolled (ReadArg w.HCS ((start_sector + 4096) % 2 ^ 32)) 1
            ((mem_dst_adr + 2097152) % 2 ^ 64) XST_SUCCESS]) := by
  rw [read_elf_from_sd_ready drv w mem_dst_adr total_bytes start_sector hinit]
  refine ⟨?_, ?_, ?_⟩
  · intro h
    subst h
    rw [read_loop_done]
  · intro h1 h2
    rw [read_loop_one_chunk drv hok w.HCS total_bytes _ _ _ _ h1 h2]
  · intro h
    subst h
    exact (read_loop_two_chunks drv hok w.HCS mem_dst_adr start_sector w.events w.mem).2

/-- C6 amended, at concrete inputs: 2,097,152 bytes take one sub-transfer of
4096 sectors, 2,097,153 bytes take two, of 4096 sectors and of 1 sector. -/
theorem C6_sub_transfer_count_witness :
    (read_elf_from_sd (ok_driver 1) (ready_world 1) 0x30000000 2097152 0).2.events =
      [SdEvent.ReadPolled 0 4096 0x30000000 XST_SUCCESS] ∧
    (read_elf_from_sd (ok_driver 1) (ready_world 1) 0x30000000 2097153 0).2.events =
      [SdEvent.ReadPolled 0 4096 0x30000000 XST_SUCCESS,
        SdEvent.ReadPolled 4096 1 0x30200000 XST_SUCCESS] :=
  ⟨(C6_sub_transfer_count (ok_driver 1) (ok_driver_reads 1) (ready_world 1) (by decide)
      0x30000000 2097152 0).2.1 (by decide) (by decide),
    (C6_sub_transfer_count (ok_driver 1) (ok_driver_reads 1) (ready_world 1) (by decide)
      0x30000000 2097153 0).2.2 rfl⟩

/-- C7, the claim as stated fails: on a standard-capacity card (`HCS` clear)
the sub-transfer issued with sector cursor `0x800000` carries the argument `0`,
not `0x800000 * 512`. -/
theorem C7_counterexample :
    (ready_world 0).HCS = 0 ∧
    (read_elf_from_sd (ok_driver 0) (ready_world 0) 0x30000000 512 0x800000).2.events =
      [SdEvent.ReadPolled 0 1 0x30000000 XST_SUCCESS] ∧
    (0 : Nat) ≠ 0x800000 * 512 := by
  refine ⟨rfl, ?_, by decide⟩
  rw [read_elf_from_sd_ready _ _ _ _ _ (by decide),
    read_loop_one_chunk (ok_driver 0) (ok_driver_reads 0) _ 512 _ _ _ _ (by decide) (by decide)]
  rfl

/-- C7, amended.  The driver calls of a fetch are calls of the initialisation
followed by the sub-transfers, and the sub-transfers follow the sector cursor,
which starts at `sd_sector_offset` and advances by the sectors read, in 32
bits: on a high-capacity card (`HCS` set) the argument is the cursor `c`; on a
standard-capacity card (`HCS` clear) it is `c * 512` reduced modulo `2 ^ 32`,
which is `c * 512` whenever `c < 2 ^ 23`. -/
theorem C7_read_argument (drv : SdDriver) (w : SdWorld)
    (mem_dst_adr total_bytes sd_sector_offset : Nat) :
    (∃ init new,
      (read_elf_from_sd drv w mem_dst_adr total_bytes sd_sector_offset).2.events =
        w.events ++ (init ++ new) ∧
      (∀ e ∈ init, is_read e = false) ∧
      args_follow_cursor
        (read_elf_from_sd drv w mem_dst_adr total_bytes sd_sector_offset).2.HCS
        sd_sector_offset new) ∧
    (∀ hcs c, hcs ≠ 0 → ReadArg hcs c = c) ∧
    (∀ c, ReadArg 0 c = (c * 512) % 2 ^ 32) ∧
    (∀ c, c < 2 ^ 23 → ReadArg 0 c = c * 512) := by
  refine ⟨?_, ?_, ?_, ?_⟩
  · obtain ⟨init, new, h1, h2, h3, _⟩ :=
      read_elf_from_sd_spec drv w mem_dst_adr total_bytes sd_sector_offset
    exact ⟨init, new, h1, h2, sub_transfers_args _ new _ _ _ h3⟩
  · intro hcs c h
    unfold ReadArg
    rw [if_neg h]
  · intro c
    rfl
  · intro c hc
    unfold ReadArg SectorSize
    rw [if_pos rfl]
    omega

/-- C7 amended, at concrete inputs: cursor `0x7FFFFF` on a standard-capacity
card gives the byte address `0xFFFFFE00`, and on a high-capacity card the
cursor itself. -/
theorem C7_read_argument_witness :
    ReadArg 0 0x7FFFFF = 0xFFFFFE00 ∧ ReadArg 1 0x7FFFFF = 0x7FFFFF :=
  ⟨(C7_read_argument (ok_driver 0) (ready_world 0) 0 0 0).2.2.2 0x7FFFFF (by decide),
    (C7_read_argument (ok_driver 0) (ready_world 0) 0 0 0).2.1 1 0x7FFFFF (by decide)⟩

/-- C8. An iteration entered with `r` bytes remaining requests 2,097,152 bytes
and 4096 sectors when `r > 2,097,152`, and otherwise `r` bytes and
`⌈r / 512⌉` sectors, the 32-bit expression `(r + 512 - 1) / 512` not wrapping;
the read it issues carries that sector count; and no sub-transfer of any fetch
requests more than 4096 sectors. -/
theorem C8_chunk_sizes :
    (∀ r, BytesToReadInChunk r = if r > 2097152 then 2097152 else r) ∧
    (∀ r, BlocksToRead r = if r > 2097152 then 4096 else ⌈(r : ℚ) / 512⌉₊) ∧
    (∀ r, r ≤ 2097152 →
      (r + 512) % 2 ^ 32 = r + 512 ∧ ((r + 512) % 2 ^ 32 + 2 ^ 32 - 1) % 2 ^ 32 = r + 511 ∧
      BlocksToRead r = (r + 511) / 512) ∧
    (∀ (drv : SdDriver) (hcs r addr c : Nat) (ev : List SdEvent) (m : Mem), 0 < r →
      ∃ st rest, (read_loop drv hcs r addr c ev m).2.1 =
        ev ++ SdEvent.ReadPolled (ReadArg hcs c)
          (if r > 2097152 then 4096 else (r + 511) / 512) addr st :: rest) ∧
    (∀ (drv : SdDriver) (w : SdWorld) (dst n c : Nat), ∃ app,
      (read_elf_from_sd drv w dst n c).2.events = w.events ++ app ∧
      ∀ a b p st, SdEvent.ReadPolled a b p st ∈ app → b ≤ 4096) := by
  refine ⟨?_, ?_, ?_, ?_, ?_⟩
  · intro r
    rw [bytes_in_chunk_eq]
    split <;> omega
  · intro r
    rw [blocks_to_read_eq, ceil_div_sector]
  · intro r hr
    refine ⟨by omega, by omega, ?_⟩
    rw [blocks_to_read_eq, if_neg (by omega)]
  · intro drv hcs r addr c ev m hr
    rw [← blocks_to_read_eq]
    by_cases hst : (drv.ReadPolled ev m (ReadArg hcs c) (BlocksToRead r) addr).1 = XST_SUCCESS
    · obtain ⟨new, h1, _⟩ := read_loop_spec drv hcs
        ((r + 2 ^ 32 - BytesToReadInChunk r) % 2 ^ 32)
        ((addr + (BlocksToRead r * SectorSize) % 2 ^ 32) % 2 ^ 64)
        ((c + BlocksToRead r) % 2 ^ 32)
        (ev ++ [SdEvent.ReadPolled (ReadArg hcs c) (BlocksToRead r) addr XST_SUCCESS])
        (drv.ReadPolled ev m (ReadArg hcs c) (BlocksToRead r) addr).2
      refine ⟨XST_SUCCESS, new, ?_⟩
      rw [read_loop_next drv hcs r addr c ev m hr hst, h1]
      simp
    · refine ⟨(drv.ReadPolled ev m (ReadArg hcs c) (BlocksToRead r) addr).1, [], ?_⟩
      rw [read_loop_fail drv hcs r addr c ev m hr hst]
  · intro drv w dst n c
    obtain ⟨init, new, h1, h2, h3, _⟩ := read_elf_from_sd_spec drv w dst n c
    refine ⟨init ++ new, h1, ?_⟩
    intro a b p st hmem
    rcases List.mem_append.mp hmem with hi | hn
    · have := h2 _ hi
      simp [is_read] at this
    · obtain ⟨a2, b2, p2, st2, he, hb⟩ := sub_transfers_reads _ new _ _ _ h3 _ hn
      simp only [SdEvent.ReadPolled.injEq] at he
      omega

/-- C8 at concrete inputs: 2,097,152 remaining bytes are one chunk of 4096
sectors, one remaining byte is read as one whole sector. -/
theorem C8_chunk_sizes_witness :
    BlocksToRead 2097152 = 4096 ∧ BlocksToRead 1 = 1 ∧ BytesToReadInChunk 0x700000 = 2097152 := by
  refine ⟨?_, ?_, ?_⟩
  · rw [(C8_chunk_sizes.2.2.1 2097152 (by decide)).2.2]
  · rw [(C8_chunk_sizes.2.2.1 1 (by decide)).2.2]
  · rw [C8_chunk_sizes.1 0x700000]
    decide

/-- C9. A fetch of `total_bytes = 2,097,153` from `start_sector = 0` on a
high-capacity card, the initialisation in order and all reads succeeding,
issues after the calls of the initialisation exactly two sub-transfers:
sector argument `0` with destination `mem_dst_adr`, then sector argument
`4096` with destination `mem_dst_adr + 2,097,152` (an address, so taken in the
64-bit address space); then it returns `XST_SUCCESS`. -/
theorem C9_fetch_scenario (drv : SdDriver) (hok : reads_succeed drv) (w : SdWorld)
    (hinit : init_ok drv w) (mem_dst_adr : Nat)
    (hhcs : (read_elf_from_sd drv w mem_dst_adr 2097153 0).2.HCS ≠ 0) :
    (read_elf_from_sd drv w mem_dst_adr 2097153 0).1 = XST_SUCCESS ∧
    ∃ init, (∀ e ∈ init, is_read e = false) ∧
      (read_elf_from_sd drv w mem_dst_adr 2097153 0).2.events =
        w.events ++ init ++
          [SdEvent.ReadPolled 0 4096 mem_dst_adr XST_SUCCESS,
           SdEvent.ReadPolled 4096 1 ((mem_dst_adr + 2097152) % 2 ^ 64) XST_SUCCESS] := by
  have harg : ∀ hcs, hcs ≠ 0 → ReadArg hcs 0 = 0 ∧ ReadArg hcs ((0 + 4096) % 2 ^ 32) = 4096 := by
    intro hcs h
    unfold ReadArg
    rw [if_neg h, if_neg h]
    exact ⟨rfl, by decide⟩
  by_cases h0 : w.SdIsInitialized = 0
  · rcases hinit with h | ⟨hl, hc, hk⟩
    · exact absurd h0 h
    · rw [read_elf_from_sd_init drv w mem_dst_adr 2097153 0 h0 hl hc hk] at hhcs ⊢
      obtain ⟨h1, h2⟩ := read_loop_two_chunks drv hok
        (drv.CardInitialize (w.events ++ [SdEvent.LookupConfig true,
          SdEvent.CfgInitialize XST_SUCCESS])).2 mem_dst_adr 0
        (w.events ++ [SdEvent.LookupConfig true, SdEvent.CfgInitialize XST_SUCCESS,
          SdEvent.CardInitialize XST_SUCCESS
            (drv.CardInitialize (w.events ++ [SdEvent.LookupConfig true,
              SdEvent.CfgInitialize XST_SUCCESS])).2]) w.mem
      rw [(harg _ hhcs).1, (harg _ hhcs).2] at h2
      refine ⟨h1, [SdEvent.LookupConfig true, SdEvent.CfgInitialize XST_SUCCESS,
          SdEvent.CardInitialize XST_SUCCESS
            (drv.CardInitialize (w.events ++ [SdEvent.LookupConfig true,
              SdEvent.CfgInitialize XST_SUCCESS])).2], ?_, ?_⟩
      · simp [is_read]
      · simp only [h2, List.append_assoc]
  · rw [read_elf_from_sd_ready drv w mem_dst_adr 2097153 0 h0] at hhcs ⊢
    obtain ⟨h1, h2⟩ := read_loop_two_chunks drv hok w.HCS mem_dst_adr 0 w.events w.mem
    rw [(harg _ hhcs).1, (harg _ hhcs).2] at h2
    refine ⟨h1, [], ?_, ?_⟩
    · simp
    · simp only [h2, List.append_nil]

/-- C9 from the state at program start, destination `0x30000000`: the three
calls of the initialisation, then the two sub-transfers, the second one at
`0x30200000`. -/
theorem C9_fetch_scenario_witness :
    (read_elf_from_sd (ok_driver 1) fresh_world 0x30000000 2097153 0).1 = XST_SUCCESS ∧
    ∃ init, (∀ e ∈ init, is_read e = false) ∧
      (read_elf_from_sd (ok_driver 1) fresh_world 0x30000000 2097153 0).2.events =
        [] ++ init ++
          [SdEvent.ReadPolled 0 4096 0x30000000 XST_SUCCESS,
           SdEvent.ReadPolled 4096 1 0x30200000 XST_SUCCESS] :=
  C9_fetch_scenario (ok_driver 1) (ok_driver_reads 1) fresh_world
    (Or.inr ⟨rfl, rfl, rfl⟩) 0x30000000
    (by rw [read_elf_from_sd_init _ _ _ _ _ rfl rfl rfl rfl]; decide)

/-- C10. In the driver calls of one fetch a failing read is the last call: when
the `k`-th read fails, no call follows it, the fetch has issued exactly `k`
sub-transfers and returns `XST_FAILURE`.  The fetch returns `XST_SUCCESS`
exactly when the initialisation succeeded or was already done and every
sub-transfer it issued succeeded. -/
theorem C10_read_failure_aborts (drv : SdDriver) (w : SdWorld)
    (mem_dst_adr total_bytes sd_sector_offset : Nat) :
    ∃ app,
      (read_elf_from_sd drv w mem_dst_adr total_bytes sd_sector_offset).2.events =
        w.events ++ app ∧
      (∀ pre a b p st post, app = pre ++ SdEvent.ReadPolled a b p st :: post →
        st ≠ XST_SUCCESS →
        post = [] ∧
        (app.filter is_read).length = (pre.filter is_read).length + 1 ∧
        (read_elf_from_sd drv w mem_dst_adr total_bytes sd_sector_offset).1 = XST_FAILURE) ∧
      ((read_elf_from_sd drv w mem_dst_adr total_bytes sd_sector_offset).1 = XST_SUCCESS ↔
        init_ok drv w ∧ ∀ a b p st, SdEvent.ReadPolled a b p st ∈ app → st = XST_SUCCESS) := by
  obtain ⟨init, new, h1, h2, h3, h4, h5, h6⟩ :=
    read_elf_from_sd_spec drv w mem_dst_adr total_bytes sd_sector_offset
  have hiff : (∀ e ∈ new, event_ok e = true) ↔
      ∀ a b p st, SdEvent.ReadPolled a b p st ∈ init ++ new → st = XST_SUCCESS := by
    constructor
    · intro h a b p st hmem
      rcases List.mem_append.mp hmem with hi | hn
      · have := h2 _ hi
        simp [is_read] at this
      · simpa [event_ok] using h _ hn
    · intro h e he
      obtain ⟨a, b, p, st, rfl, _⟩ := sub_transfers_reads _ new _ _ _ h3 e he
      simpa [event_ok] using h a b p st (List.mem_append.mpr (Or.inr he))
  refine ⟨init ++ new, h1, ?_, ?_⟩
  · intro pre a b p st post happ hst
    have hpost : post = [] := h4 pre _ post happ (by simpa [event_ok] using hst)
    subst hpost
    refine ⟨rfl, ?_, ?_⟩
    · rw [happ]
      simp [is_read]
    · rcases h6 with hs | hf
      · have hall := (hiff.mp (h5.mp hs).2) a b p st (by rw [happ]; simp)
        exact absurd hall hst
      · exact hf
  · rw [h5, hiff]

/-- C10 at a concrete input: on a driver whose second read fails, the fetch of
0x700000 bytes issues exactly two sub-transfers and returns `XST_FAILURE`. -/
theorem C10_read_failure_aborts_witness :
    ∃ app,
      (read_elf_from_sd (fail_after_driver 1 1) (ready_world 1) 0x30000000 0x700000 0).2.events =
        (ready_world 1).events ++ app ∧
      (∀ pre a b p st post, app = pre ++ SdEvent.ReadPolled a b p st :: post →
        st ≠ XST_SUCCESS →
        post = [] ∧
        (app.filter is_read).length = (pre.filter is_read).length + 1 ∧
        (read_elf_from_sd (fail_after_driver 1 1) (ready_world 1) 0x30000000 0x700000 0).1 =
          XST_FAILURE) ∧
      ((read_elf_from_sd (fail_after_driver 1 1) (ready_world 1) 0x30000000 0x700000 0).1 =
          XST_SUCCESS ↔
        init_ok (fail_after_driver 1 1) (ready_world 1) ∧
          ∀ a b p st, SdEvent.ReadPolled a b p st ∈ app → st = XST_SUCCESS) :=
  C10_read_failure_aborts (fail_after_driver 1 1) (ready_world 1) 0x30000000 0x700000 0

/-! ## Whole fetches with every read succeeding -/

theorem read_loop_counters_done (drv : SdDriver) (hcs addr c : Nat) (ev : List SdEvent)
    (m : Mem) : read_loop_counters drv hcs 0 addr c ev m = (0, addr, c) := by
  rw [read_loop_counters]
  simp

theorem read_loop_counters_next (drv : SdDriver) (hcs r addr c : Nat) (ev : List SdEvent)
    (m : Mem) (hr : 0 < r)
    (hst : (drv.ReadPolled ev m (ReadArg hcs c) (BlocksToRead r) addr).1 = XST_SUCCESS) :
    read_loop_counters drv hcs r addr c ev m =
      read_loop_counters drv hcs ((r + 2 ^ 32 - BytesToReadInChunk r) % 2 ^ 32)
        ((addr + (BlocksToRead r * SectorSize) % 2 ^ 32) % 2 ^ 64)
        ((c + BlocksToRead r) % 2 ^ 32)
        (ev ++ [SdEvent.ReadPolled (ReadArg hcs c) (BlocksToRead r) addr XST_SUCCESS])
        (drv.ReadPolled ev m (ReadArg hcs c) (BlocksToRead r) addr).2 := by
  rw [read_loop_counters]
  simp [hr, hst]

/-- A fetch loop on which every read succeeds runs to the end: it returns
`XST_SUCCESS` after `⌈r / 2097152⌉` reads of `⌈r / 512⌉` sectors in all, with
nothing remaining, the destination `512 * ⌈r / 512⌉` bytes further and the
cursor `⌈r / 512⌉` sectors further. -/
theorem read_loop_total (drv : SdDriver) (hok : reads_succeed drv) (hcs : Nat) :
    ∀ (r addr c : Nat) (ev : List SdEvent) (m : Mem), r < 2 ^ 32 → addr < 2 ^ 64 → c < 2 ^ 32 →
      ∃ new,
        (read_loop drv hcs r addr c ev m).1 = XST_SUCCESS ∧
        (read_loop drv hcs r addr c ev m).2.1 = ev ++ new ∧
        (∀ e ∈ new, is_read e = true) ∧
        new.length = (r + 2097151) / 2097152 ∧
        blocks_sum new = (r + 511) / 512 ∧
        read_loop_counters drv hcs r addr c ev m =
          (0, (addr + 512 * ((r + 511) / 512)) % 2 ^ 64, (c + (r + 511) / 512) % 2 ^ 32) := by
  intro r
  induction r using Nat.strong_induction_on with
  | _ r ih =>
    intro addr c ev m hr32 haddr hc
    by_cases hr : r = 0
    · subst hr
      refine ⟨[], ?_, ?_, ?_, rfl, rfl, ?_⟩
      · rw [read_loop_done]
      · rw [read_loop_done]
        simp
      · intro e he
        simp at he
      · rw [read_loop_counters_done]
        simp only [Nat.zero_add, Nat.reduceDiv, Nat.mul_zero, Nat.add_zero]
        rw [Nat.mod_eq_of_lt haddr, Nat.mod_eq_of_lt hc]
    · have hr0 : 0 < r := Nat.pos_of_ne_zero hr
      have hst := hok ev m (ReadArg hcs c) (BlocksToRead r) addr
      have hchunk := bytes_in_chunk_eq r
      have hblk := blocks_to_read_eq r
      have hlt : (r + 2 ^ 32 - BytesToReadInChunk r) % 2 ^ 32 < r := by
        rw [hchunk]
        omega
      obtain ⟨new, h1, h2, h3, h4, h5, h6⟩ := ih _ hlt
        ((addr + (BlocksToRead r * SectorSize) % 2 ^ 32) % 2 ^ 64)
        ((c + BlocksToRead r) % 2 ^ 32)
        (ev ++ [SdEvent.ReadPolled (ReadArg hcs c) (BlocksToRead r) addr XST_SUCCESS])
        (drv.ReadPolled ev m (ReadArg hcs c) (BlocksToRead r) addr).2
        (by omega) (Nat.mod_lt _ (by norm_num)) (Nat.mod_lt _ (by norm_num))
      refine ⟨SdEvent.ReadPolled (ReadArg hcs c) (BlocksToRead r) addr XST_SUCCESS :: new,
        ?_, ?_, ?_, ?_, ?_, ?_⟩
      · rw [read_loop_next drv hcs r addr c ev m hr0 hst]
        exact h1
      · rw [read_loop_next drv hcs r addr c ev m hr0 hst, h2]
        simp
      · intro e he
        rcases List.mem_cons.mp he with rfl | hm
        · rfl
        · exact h3 e hm
      · rw [List.length_cons, h4, hchunk]
        by_cases hbig : r > 2097152
        · rw [Nat.min_eq_right (by omega)]
          omega
        · rw [Nat.min_eq_left (by omega)]
          omega
      · show BlocksToRead r + blocks_sum new = (r + 511) / 512
        rw [h5, hchunk, hblk]
        by_cases hbig : r > 2097152
        · rw [Nat.min_eq_right (by omega), if_pos hbig]
          omega
        · rw [Nat.min_eq_left (by omega), if_neg hbig]
          omega
      · rw [read_loop_counters_next drv hcs r addr c ev m hr0 hst, h6, hchunk, hblk]
        unfold SectorSize
        by_cases hbig : r > 2097152
        · rw [Nat.min_eq_right (by omega), if_pos hbig]
          have e1 : (r + 2 ^ 32 - 2097152) % 2 ^ 32 = r - 2097152 := by omega
          have e2 : (r + 511) / 512 = (r - 2097152 + 511) / 512 + 4096 := by omega
          rw [e1, e2]
          refine Prod.ext rfl (Prod.ext ?_ ?_)
          · show ((addr + 4096 * 512 % 2 ^ 32) % 2 ^ 64 + 512 * ((r - 2097152 + 511) / 512)) %
              2 ^ 64 = (addr + 512 * ((r - 2097152 + 511) / 512 + 4096)) % 2 ^ 64
            omega
          · show ((c + 4096) % 2 ^ 32 + (r - 2097152 + 511) / 512) % 2 ^ 32 =
              (c + ((r - 2097152 + 511) / 512 + 4096)) % 2 ^ 32
            omega
        · rw [Nat.min_eq_left (by omega), if_neg hbig]
          have e1 : (r + 2 ^ 32 - r) % 2 ^ 32 = 0 := by omega
          rw [e1]
          have hq : (r + 511) / 512 ≤ 4096 := by omega
          refine Prod.ext rfl (Prod.ext ?_ ?_)
          · show ((addr + (r + 511) / 512 * 512 % 2 ^ 32) % 2 ^ 64 + 512 * ((0 + 511) / 512)) %
              2 ^ 64 = (addr + 512 * ((r + 511) / 512)) % 2 ^ 64
            omega
          · show ((c + (r + 511) / 512) % 2 ^ 32 + (0 + 511) / 512) % 2 ^ 32 =
              (c + (r + 511) / 512) % 2 ^ 32
            omega

theorem ceil_div_chunk (r : Nat) : ⌈(r : ℚ) / 2097152⌉₊ = (r + 2097151) / 2097152 := by
  apply le_antisymm
  · apply Nat.ceil_le.mpr
    have h : r ≤ 2097152 * ((r + 2097151) / 2097152) := by omega
    have h2 : (r : ℚ) ≤ 2097152 * (((r + 2097151) / 2097152 : ℕ) : ℚ) := by exact_mod_cast h
    rw [div_le_iff₀ (by norm_num)]
    linarith
  · have h := Nat.le_ceil ((r : ℚ) / 2097152)
    rw [div_le_iff₀ (by norm_num)] at h
    have h2 : r ≤ ⌈(r : ℚ) / 2097152⌉₊ * 2097152 := by exact_mod_cast h
    omega

/-- With the initialisation in order, a fetch is the calls of the
initialisation, none of them a read, followed by the loop. -/
theorem read_elf_from_sd_of_init_ok (drv : SdDriver) (w : SdWorld) (dst n c : Nat)
    (hinit : init_ok drv w) :
    ∃ init hcs,
      (∀ e ∈ init, is_read e = false) ∧
      (read_elf_from_sd drv w dst n c).1 =
        (read_loop drv hcs n dst c (w.events ++ init) w.mem).1 ∧
      (read_elf_from_sd drv w dst n c).2.events =
        (read_loop drv hcs n dst c (w.events ++ init) w.mem).2.1 ∧
      (read_elf_from_sd drv w dst n c).2.mem =
        (read_loop drv hcs n dst c (w.events ++ init) w.mem).2.2 ∧
      (read_elf_from_sd drv w dst n c).2.HCS = hcs := by
  by_cases h0 : w.SdIsInitialized = 0
  · rcases hinit with h | ⟨hl, hc, hk⟩
    · exact absurd h0 h
    · refine ⟨[SdEvent.LookupConfig true, SdEvent.CfgInitialize XST_SUCCESS,
          SdEvent.CardInitialize XST_SUCCESS
            (drv.CardInitialize (w.events ++ [SdEvent.LookupConfig true,
              SdEvent.CfgInitialize XST_SUCCESS])).2],
        (drv.CardInitialize (w.events ++ [SdEvent.LookupConfig true,
              SdEvent.CfgInitialize XST_SUCCESS])).2, ?_, ?_⟩
      · simp [is_read]
      · rw [read_elf_from_sd_init drv w dst n c h0 hl hc hk]
        exact ⟨rfl, rfl, rfl, rfl⟩
  · refine ⟨[], w.HCS, ?_, ?_⟩
    · simp
    · rw [read_elf_from_sd_ready drv w dst n c h0, List.append_nil]
      exact ⟨rfl, rfl, rfl, rfl⟩

/-- The fetch of the image of `main`, `0x700000` bytes, every read succeeding:
three reads of 4096 sectors and one of 2048 sectors. -/
theorem read_loop_os_image (drv : SdDriver) (hok : reads_succeed drv) (hcs addr c : Nat)
    (ev : List SdEvent) (m : Mem) :
    block_counts ((read_loop drv hcs 0x700000 addr c ev m).2.1.drop ev.length) =
      [4096, 4096, 4096, 2048] := by
  have hb1 : BlocksToRead 0x700000 = 4096 := by decide
  have hr1 : (0x700000 + 2 ^ 32 - BytesToReadInChunk 0x700000) % 2 ^ 32 = 0x500000 := by decide
  have hb2 : BlocksToRead 0x500000 = 4096 := by decide
  have hr2 : (0x500000 + 2 ^ 32 - BytesToReadInChunk 0x500000) % 2 ^ 32 = 0x300000 := by decide
  have hb3 : BlocksToRead 0x300000 = 4096 := by decide
  have hr3 : (0x300000 + 2 ^ 32 - BytesToReadInChunk 0x300000) % 2 ^ 32 = 0x100000 := by decide
  rw [read_loop_next drv hcs 0x700000 addr c ev m (by omega) (hok _ _ _ _ _), hr1, hb1,
    read_loop_next drv hcs 0x500000 _ _ _ _ (by omega) (hok _ _ _ _ _), hr2, hb2,
    read_loop_next drv hcs 0x300000 _ _ _ _ (by omega) (hok _ _ _ _ _), hr3, hb3,
    read_loop_one_chunk drv hok hcs 0x100000 _ _ _ _ (by omega) (by omega)]
  simp [block_counts]

theorem ceil_sector_facts (n : Nat) :
    n ≤ 512 * ((n + 511) / 512) ∧ 512 * ((n + 511) / 512) - n < 512 ∧
    (512 * ((n + 511) / 512) = n ↔ 512 ∣ n) := by
  refine ⟨by omega, by omega, ?_⟩
  constructor
  · intro h
    exact ⟨(n + 511) / 512, h.symm⟩
  · rintro ⟨k, rfl⟩
    omega

/-! ## The claims on whole fetches -/

/-- C18. For every 32-bit `total_bytes`, the initialisation in order and all
reads succeeding, `read_elf_from_sd` returns `XST_SUCCESS`; its sub-transfers
request `⌈total_bytes / 512⌉` sectors in all; the loop ends with
`BytesRemaining = 0` (it has decreased by `total_bytes`), with the
destination pointer `512 * ⌈total_bytes / 512⌉` bytes further and the sector
cursor `⌈total_bytes / 512⌉` sectors further (in `uintptr_t` and `u32`
arithmetic).  The destination advance exceeds `total_bytes` by less than 512
and equals it exactly when `total_bytes` is a multiple of 512. -/
theorem C18_fetch_advances (drv : SdDriver) (hok : reads_succeed drv) (w : SdWorld)
    (hinit : init_ok drv w) (mem_dst_adr total_bytes sd_sector_offset : Nat)
    (htotal : total_bytes < 2 ^ 32) (hdst : mem_dst_adr < 2 ^ 64)
    (hsec : sd_sector_offset < 2 ^ 32) :
    (read_elf_from_sd drv w mem_dst_adr total_bytes sd_sector_offset).1 = XST_SUCCESS ∧
    (∃ init new,
      (read_elf_from_sd drv w mem_dst_adr total_bytes sd_sector_offset).2.events =
        w.events ++ (init ++ new) ∧
      (∀ e ∈ init, is_read e = false) ∧ (∀ e ∈ new, is_read e = true) ∧
      blocks_sum new = ⌈(total_bytes : ℚ) / 512⌉₊) ∧
    (∀ (hcs : Nat) (ev : List SdEvent) (m : Mem),
      read_loop_counters drv hcs total_bytes mem_dst_adr sd_sector_offset ev m =
        (total_bytes - total_bytes,
         (mem_dst_adr + 512 * ⌈(total_bytes : ℚ) / 512⌉₊) % 2 ^ 64,
         (sd_sector_offset + ⌈(total_bytes : ℚ) / 512⌉₊) % 2 ^ 32)) ∧
    total_bytes ≤ 512 * ⌈(total_bytes : ℚ) / 512⌉₊ ∧
    512 * ⌈(total_bytes : ℚ) / 512⌉₊ - total_bytes < 512 ∧
    (512 * ⌈(total_bytes : ℚ) / 512⌉₊ = total_bytes ↔ 512 ∣ total_bytes) := by
  rw [ceil_div_sector]
  obtain ⟨init, hcs, hi, h1, h2, _, _⟩ :=
    read_elf_from_sd_of_init_ok drv w mem_dst_adr total_bytes sd_sector_offset hinit
  obtain ⟨new, g1, g2, g3, _, g5, _⟩ := read_loop_total drv hok hcs total_bytes mem_dst_adr
    sd_sector_offset (w.events ++ init) w.mem htotal hdst hsec
  obtain ⟨f1, f2, f3⟩ := ceil_sector_facts total_bytes
  refine ⟨by rw [h1, g1], ⟨init, new, ?_, hi, g3, g5⟩, ?_, f1, f2, f3⟩
  · rw [h2, g2, List.append_assoc]
  · intro hcs2 ev m
    obtain ⟨_, _, _, _, _, _, k6⟩ := read_loop_total drv hok hcs2 total_bytes mem_dst_adr
      sd_sector_offset ev m htotal hdst hsec
    rw [k6, Nat.sub_self]

/-- C18 at a concrete input: 1000 bytes to `0x30000000` from sector 7 are read as
2 sectors, the pointer ends 1024 bytes further and the cursor at sector 9. -/
theorem C18_fetch_advances_witness :
    (read_elf_from_sd (ok_driver 1) (ready_world 1) 0x30000000 1000 7).1 = XST_SUCCESS ∧
    read_loop_counters (ok_driver 1) 1 1000 0x30000000 7 [] (fun _ => 0) =
      (1000 - 1000, (0x30000000 + 512 * ⌈((1000 : ℕ) : ℚ) / 512⌉₊) % 2 ^ 64,
        (7 + ⌈((1000 : ℕ) : ℚ) / 512⌉₊) % 2 ^ 32) ∧
    512 * ⌈((1000 : ℕ) : ℚ) / 512⌉₊ - 1000 < 512 :=
  ⟨(C18_fetch_advances (ok_driver 1) (ok_driver_reads 1) (ready_world 1) (Or.inl (by decide))
      0x30000000 1000 7 (by decide) (by decide) (by decide)).1,
    (C18_fetch_advances (ok_driver 1) (ok_driver_reads 1) (ready_world 1) (Or.inl (by decide))
      0x30000000 1000 7 (by decide) (by decide) (by decide)).2.2.1 1 [] (fun _ => 0),
    (C18_fetch_advances (ok_driver 1) (ok_driver_reads 1) (ready_world 1) (Or.inl (by decide))
      0x30000000 1000 7 (by decide) (by decide) (by decide)).2.2.2.2.1⟩

/-- C20. For every 32-bit `total_bytes`, the initialisation in order and all
reads succeeding, the fetch loop runs to its end: `read_elf_from_sd` returns
`XST_SUCCESS` after exactly `⌈total_bytes / 2097152⌉` sub-transfers, none for
`total_bytes = 0`, and four of 4096, 4096, 4096 and 2048 sectors for the
`0x700000` bytes fetched by `main`.  In every iteration the chunk is positive
and at most `BytesRemaining`, so the 32-bit subtraction neither wraps nor
stalls. -/
theorem C20_fetch_terminates (drv : SdDriver) (hok : reads_succeed drv) (w : SdWorld)
    (hinit : init_ok drv w) (mem_dst_adr total_bytes sd_sector_offset : Nat)
    (htotal : total_bytes < 2 ^ 32) (hdst : mem_dst_adr < 2 ^ 64)
    (hsec : sd_sector_offset < 2 ^ 32) :
    (read_elf_from_sd drv w mem_dst_adr total_bytes sd_sector_offset).1 = XST_SUCCESS ∧
    (∃ init new,
      (read_elf_from_sd drv w mem_dst_adr total_bytes sd_sector_offset).2.events =
        w.events ++ (init ++ new) ∧
      (∀ e ∈ init, is_read e = false) ∧ (∀ e ∈ new, is_read e = true) ∧
      new.length = ⌈(total_bytes : ℚ) / 2097152⌉₊ ∧
      (total_bytes = 0 → new = []) ∧
      (total_bytes = OS_SIZE_BYTES → block_counts new = [4096, 4096, 4096, 2048])) ∧
    (∀ r, 0 < r → r < 2 ^ 32 →
      0 < BytesToReadInChunk r ∧ BytesToReadInChunk r ≤ r ∧
      (r + 2 ^ 32 - BytesToReadInChunk r) % 2 ^ 32 = r - BytesToReadInChunk r ∧
      r - BytesToReadInChunk r < r) := by
  rw [ceil_div_chunk]
  obtain ⟨init, hcs, hi, h1, h2, _, _⟩ :=
    read_elf_from_sd_of_init_ok drv w mem_dst_adr total_bytes sd_sector_offset hinit
  obtain ⟨new, g1, g2, g3, g4, _, _⟩ := read_loop_total drv hok hcs total_bytes mem_dst_adr
    sd_sector_offset (w.events ++ init) w.mem htotal hdst hsec
  refine ⟨by rw [h1, g1], ⟨init, new, ?_, hi, g3, g4, ?_, ?_⟩, ?_⟩
  · rw [h2, g2, List.append_assoc]
  · intro h0
    subst h0
    exact List.length_eq_zero.mp g4
  · intro hos
    subst hos
    have h := read_loop_os_image drv hok hcs mem_dst_adr sd_sector_offset (w.events ++ init) w.mem
    have hg : (read_loop drv hcs 0x700000 mem_dst_adr sd_sector_offset (w.events ++ init)
        w.mem).2.1 = w.events ++ init ++ new := g2
    rw [hg, List.drop_left] at h
    exact h
  · intro r h0 h32
    rw [bytes_in_chunk_eq]
    omega

/-- C20 at a concrete input: the fetch of `main` from the state at program
start succeeds. -/
theorem C20_fetch_terminates_witness :
    (read_elf_from_sd (ok_driver 1) fresh_world 0x30000000 0x700000 0).1 = XST_SUCCESS ∧
    (0 < BytesToReadInChunk 0x700000 ∧ BytesToReadInChunk 0x700000 ≤ 0x700000 ∧
      (0x700000 + 2 ^ 32 - BytesToReadInChunk 0x700000) % 2 ^ 32 =
        0x700000 - BytesToReadInChunk 0x700000 ∧
      0x700000 - BytesToReadInChunk 0x700000 < 0x700000) :=
  ⟨(C20_fetch_terminates (ok_driver 1) (ok_driver_reads 1) fresh_world (Or.inr ⟨rfl, rfl, rfl⟩)
      0x30000000 0x700000 0 (by decide) (by decide) (by decide)).1,
    (C20_fetch_terminates (ok_driver 1) (ok_driver_reads 1) fresh_world (Or.inr ⟨rfl, rfl, rfl⟩)
      0x30000000 0x700000 0 (by decide) (by decide) (by decide)).2.2 0x700000
      (by decide) (by decide)⟩

/-! ## Calls in sequence -/

/-- The five ways through `main`: the fetch fails; the extraction fails; the
load-address register reads back another value; the version register reads
another value; or all went well and the start bit is written. -/
theorem main_cases (drv : SdDriver) (io : Mmio) (m : Mem) (program program_size : Nat) :
    ((read_elf_from_sd drv (staged_world m program program_size)
        ELF_OS_BASE_OFFSET OS_SIZE_BYTES SECTOR_OFFSET).1 ≠ XST_SUCCESS ∧
      (main drv io m program program_size).outcome = BootOutcome.Aborted ∧
      (main drv io m program program_size).mmio = []) ∨
    ((read_elf_from_sd drv (staged_world m program program_size)
        ELF_OS_BASE_OFFSET OS_SIZE_BYTES SECTOR_OFFSET).1 = XST_SUCCESS ∧
      (load_and_run_elf (read_elf_from_sd drv (staged_world m program program_size)
        ELF_OS_BASE_OFFSET OS_SIZE_BYTES SECTOR_OFFSET).2.mem
        PS_DRAM_BASE_OFFSET ELF_OS_BASE_OFFSET).1 ≠ XST_SUCCESS ∧
      (main drv io m program program_size).outcome = BootOutcome.Aborted ∧
      (main drv io m program program_size).mmio = []) ∨
    ((read_elf_from_sd drv (staged_world m program program_size)
        ELF_OS_BASE_OFFSET OS_SIZE_BYTES SECTOR_OFFSET).1 = XST_SUCCESS ∧
      (load_and_run_elf (read_elf_from_sd drv (staged_world m program program_size)
        ELF_OS_BASE_OFFSET OS_SIZE_BYTES SECTOR_OFFSET).2.mem
        PS_DRAM_BASE_OFFSET ELF_OS_BASE_OFFSET).1 = XST_SUCCESS ∧
      io.In32 [MmioEvent.Out32 MEM_REG PS_DRAM_BASE_OFFSET] MEM_REG ≠ PS_DRAM_BASE_OFFSET ∧
      (main drv io m program program_size).outcome = BootOutcome.Aborted ∧
      (main drv io m program program_size).mmio =
        [MmioEvent.Out32 MEM_REG PS_DRAM_BASE_OFFSET,
          MmioEvent.In32 MEM_REG (io.In32 [MmioEvent.Out32 MEM_REG PS_DRAM_BASE_OFFSET] MEM_REG)]) ∨
    ((read_elf_from_sd drv (staged_world m program program_size)
        ELF_OS_BASE_OFFSET OS_SIZE_BYTES SECTOR_OFFSET).1 = XST_SUCCESS ∧
      (load_and_run_elf (read_elf_from_sd drv (staged_world m program program_size)
        ELF_OS_BASE_OFFSET OS_SIZE_BYTES SECTOR_OFFSET).2.mem
        PS_DRAM_BASE_OFFSET ELF_OS_BASE_OFFSET).1 = XST_SUCCESS ∧
      io.In32 [MmioEvent.Out32 MEM_REG PS_DRAM_BASE_OFFSET] MEM_REG = PS_DRAM_BASE_OFFSET ∧
      io.In32 [MmioEvent.Out32 MEM_REG PS_DRAM_BASE_OFFSET,
        MmioEvent.In32 MEM_REG PS_DRAM_BASE_OFFSET] VER_REG ≠ CUR_VER ∧
      (main drv io m program program_size).outcome = BootOutcome.Aborted ∧
      (main drv io m program program_size).mmio =
        [MmioEvent.Out32 MEM_REG PS_DRAM_BASE_OFFSET,
          MmioEvent.In32 MEM_REG PS_DRAM_BASE_OFFSET,
          MmioEvent.In32 VER_REG (io.In32 [MmioEvent.Out32 MEM_REG PS_DRAM_BASE_OFFSET,
            MmioEvent.In32 MEM_REG PS_DRAM_BASE_OFFSET] VER_REG)]) ∨
    ((read_elf_from_sd drv (staged_world m program program_size)
        ELF_OS_BASE_OFFSET OS_SIZE_BYTES SECTOR_OFFSET).1 = XST_SUCCESS ∧
      (load_and_run_elf (read_elf_from_sd drv (staged_world m program program_size)
        ELF_OS_BASE_OFFSET OS_SIZE_BYTES SECTOR_OFFSET).2.mem
        PS_DRAM_BASE_OFFSET ELF_OS_BASE_OFFSET).1 = XST_SUCCESS ∧
      io.In32 [MmioEvent.Out32 MEM_REG PS_DRAM_BASE_OFFSET] MEM_REG = PS_DRAM_BASE_OFFSET ∧
      io.In32 [MmioEvent.Out32 MEM_REG PS_DRAM_BASE_OFFSET,
        MmioEvent.In32 MEM_REG PS_DRAM_BASE_OFFSET] VER_REG = CUR_VER ∧
      (main drv io m program program_size).outcome = BootOutcome.Running ∧
      (main drv io m program program_size).mmio =
        [MmioEvent.Out32 MEM_REG PS_DRAM_BASE_OFFSET,
          MmioEvent.In32 MEM_REG PS_DRAM_BASE_OFFSET,
          MmioEvent.In32 VER_REG CUR_VER,
          MmioEvent.Out32 CTR_REG 1]) := by
  have hs : (prog_mem_directly m PS_DRAM_BASE_OFFSET program program_size).1 = XST_SUCCESS := rfl
  by_cases hf : (read_elf_from_sd drv (staged_world m program program_size)
      ELF_OS_BASE_OFFSET OS_SIZE_BYTES SECTOR_OFFSET).1 = XST_SUCCESS
  · by_cases hl : (load_and_run_elf (read_elf_from_sd drv (staged_world m program program_size)
        ELF_OS_BASE_OFFSET OS_SIZE_BYTES SECTOR_OFFSET).2.mem
        PS_DRAM_BASE_OFFSET ELF_OS_BASE_OFFSET).1 = XST_SUCCESS
    · by_cases h1 : io.In32 [MmioEvent.Out32 MEM_REG PS_DRAM_BASE_OFFSET] MEM_REG =
          PS_DRAM_BASE_OFFSET
      · by_cases h2 : io.In32 [MmioEvent.Out32 MEM_REG PS_DRAM_BASE_OFFSET,
            MmioEvent.In32 MEM_REG PS_DRAM_BASE_OFFSET] VER_REG = CUR_VER
        · right; right; right; right
          unfold staged_world at hf hl
          refine ⟨hf, hl, h1, h2, ?_, ?_⟩ <;> simp [main, hs, hf, hl, h1, h2]
        · right; right; right; left
          unfold staged_world at hf hl
          refine ⟨hf, hl, h1, h2, ?_, ?_⟩ <;> simp [main, hs, hf, hl, h1, h2]
      · right; right; left
        unfold staged_world at hf hl
        refine ⟨hf, hl, h1, ?_, ?_⟩ <;> simp [main, hs, hf, hl, h1]
    · right; left
      unfold staged_world at hf hl
      refine ⟨hf, hl, ?_, ?_⟩ <;> simp [main, hs, hf, hl]
  · left
    unfold staged_world at hf
    refine ⟨hf, ?_, ?_⟩ <;> simp [main, hs, hf]

theorem load_status_iff (m : Mem) (dst elf : Nat) :
    (load_and_run_elf m dst elf).1 = XST_SUCCESS ↔ magic_ok m elf = true := by
  cases h : magic_ok m elf
  · rw [load_and_run_elf_of_bad_magic m dst elf h]
    simp [XST_SUCCESS, XST_FAILURE]
  · rw [load_and_run_elf_of_magic m dst elf h]
    simp

/-- The status of a fetch started with an empty log: success exactly when the
initialisation is in order and every read in the log it leaves succeeded. -/
theorem fetch_status_iff (drv : SdDriver) (w : SdWorld) (dst n c : Nat) (hev : w.events = []) :
    (read_elf_from_sd drv w dst n c).1 = XST_SUCCESS ↔
      init_ok drv w ∧
      ∀ a b p st, SdEvent.ReadPolled a b p st ∈ (read_elf_from_sd drv w dst n c).2.events →
        st = XST_SUCCESS := by
  obtain ⟨init, new, h1, h2, h3, _, h5, _⟩ := read_elf_from_sd_spec drv w dst n c
  rw [hev, List.nil_append] at h1
  rw [h5, h1]
  constructor
  · rintro ⟨hi, hn⟩
    refine ⟨hi, ?_⟩
    intro a b p st hmem
    rcases List.mem_append.mp hmem with hin | hnew
    · have := h2 _ hin
      simp [is_read] at this
    · simpa [event_ok] using hn _ hnew
  · rintro ⟨hi, hn⟩
    refine ⟨hi, ?_⟩
    intro e he
    obtain ⟨a, b, p, st, rfl, _⟩ := sub_transfers_reads _ new _ _ _ h3 e he
    simpa [event_ok] using hn a b p st (List.mem_append.mpr (Or.inr he))

/-- `main` ends in the `wfi` loop exactly when the fetch and the extraction
return `XST_SUCCESS` and both register reads give the expected values. -/
theorem main_running_iff (drv : SdDriver) (io : Mmio) (m : Mem) (program program_size : Nat) :
    (main drv io m program program_size).outcome = BootOutcome.Running ↔
      (read_elf_from_sd drv (staged_world m program program_size)
        ELF_OS_BASE_OFFSET OS_SIZE_BYTES SECTOR_OFFSET).1 = XST_SUCCESS ∧
      (load_and_run_elf (read_elf_from_sd drv (staged_world m program program_size)
        ELF_OS_BASE_OFFSET OS_SIZE_BYTES SECTOR_OFFSET).2.mem
        PS_DRAM_BASE_OFFSET ELF_OS_BASE_OFFSET).1 = XST_SUCCESS ∧
      io.In32 [MmioEvent.Out32 MEM_REG PS_DRAM_BASE_OFFSET] MEM_REG = PS_DRAM_BASE_OFFSET ∧
      io.In32 [MmioEvent.Out32 MEM_REG PS_DRAM_BASE_OFFSET,
        MmioEvent.In32 MEM_REG PS_DRAM_BASE_OFFSET] VER_REG = CUR_VER := by
  rcases main_cases drv io m program program_size with
    ⟨hf, ho, _⟩ | ⟨hf, hl, ho, _⟩ | ⟨hf, hl, h1, ho, _⟩ | ⟨hf, hl, h1, h2, ho, _⟩ |
    ⟨hf, hl, h1, h2, ho, _⟩
  · rw [ho]
    constructor
    · intro h
      exact absurd h (by decide)
    · rintro ⟨h, _⟩
      exact absurd h hf
  · rw [ho]
    constructor
    · intro h
      exact absurd h (by decide)
    · rintro ⟨_, h, _⟩
      exact absurd h hl
  · rw [ho]
    constructor
    · intro h
      exact absurd h (by decide)
    · rintro ⟨_, _, h, _⟩
      exact absurd h h1
  · rw [ho]
    constructor
    · intro h
      exact absurd h (by decide)
    · rintro ⟨_, _, _, h⟩
      exact absurd h h2
  · rw [ho]
    exact ⟨fun _ => ⟨hf, hl, h1, h2⟩, fun _ => rfl⟩

/-- On a driver whose reads leave the memory alone, the loop leaves it alone. -/
theorem read_loop_mem_inert (drv : SdDriver) (hcs : Nat)
    (hinert : ∀ ev m a b p, (drv.ReadPolled ev m a b p).2 = m) :
    ∀ (r addr c : Nat) (ev : List SdEvent) (m : Mem),
      (read_loop drv hcs r addr c ev m).2.2 = m := by
  intro r
  induction r using Nat.strong_induction_on with
  | _ r ih =>
    intro addr c ev m
    by_cases hr : r = 0
    · subst hr
      rw [read_loop_done]
    · have hr0 : 0 < r := Nat.pos_of_ne_zero hr
      by_cases hst : (drv.ReadPolled ev m (ReadArg hcs c) (BlocksToRead r) addr).1 = XST_SUCCESS
      · rw [read_loop_next drv hcs r addr c ev m hr0 hst, ih _ (by
          rw [bytes_in_chunk_eq]
          omega), hinert]
      · rw [read_loop_fail drv hcs r addr c ev m hr0 hst]
        exact hinert _ _ _ _ _

/-- The fetch of `main` on the driver whose calls all succeed: it returns
`XST_SUCCESS` and leaves the memory as staged. -/
theorem ok_fetch (m : Mem) :
    (read_elf_from_sd (ok_driver 1) (staged_world m 0 0)
      ELF_OS_BASE_OFFSET OS_SIZE_BYTES SECTOR_OFFSET).1 = XST_SUCCESS ∧
    (read_elf_from_sd (ok_driver 1) (staged_world m 0 0)
      ELF_OS_BASE_OFFSET OS_SIZE_BYTES SECTOR_OFFSET).2.mem = m := by
  obtain ⟨init, hcs, _, h1, _, h3, _⟩ := read_elf_from_sd_of_init_ok (ok_driver 1)
    (staged_world m 0 0) ELF_OS_BASE_OFFSET OS_SIZE_BYTES SECTOR_OFFSET (Or.inr ⟨rfl, rfl, rfl⟩)
  obtain ⟨new, g1, _⟩ := read_loop_total (ok_driver 1) (ok_driver_reads 1) hcs OS_SIZE_BYTES
    ELF_OS_BASE_OFFSET SECTOR_OFFSET ((staged_world m 0 0).events ++ init) (staged_world m 0 0).mem
    (by decide) (by decide) (by decide)
  refine ⟨by rw [h1, g1], ?_⟩
  rw [h3, read_loop_mem_inert (ok_driver 1) hcs (fun _ _ _ _ _ => rfl)]
  rfl

/-- A memory with the scenario image at `0x30000000`, where `main` fetches. -/
theorem fetched_magic : magic_ok (memOfList 0x30000000 (scenario_image 0x7F)) 0x30000000 = true := by
  decide

/-! ## The memory that `main` leaves -/

/-- When the fetch succeeds, the memory at the end of `main` is the memory the
loader leaves: after the fetch only the loader stores into memory. -/
theorem main_mem (drv : SdDriver) (io : Mmio) (m : Mem) (program program_size : Nat)
    (hf : (read_elf_from_sd drv (staged_world m program program_size)
      ELF_OS_BASE_OFFSET OS_SIZE_BYTES SECTOR_OFFSET).1 = XST_SUCCESS) :
    (main drv io m program program_size).sd.mem =
      (load_and_run_elf (read_elf_from_sd drv (staged_world m program program_size)
        ELF_OS_BASE_OFFSET OS_SIZE_BYTES SECTOR_OFFSET).2.mem
        PS_DRAM_BASE_OFFSET ELF_OS_BASE_OFFSET).2 := by
  have hs : (prog_mem_directly m PS_DRAM_BASE_OFFSET program program_size).1 = XST_SUCCESS := rfl
  unfold staged_world at hf ⊢
  unfold main
  simp only [hs, hf, ne_eq, not_true_eq_false, if_false]
  split_ifs <;> rfl

/-- The run of the loader on `release_mem`: one iteration, on the entry at
`0x30000040`. -/
theorem release_run :
    load_and_run_elf release_mem 0x20000000 0x30000000 =
      (XST_SUCCESS, load_segment release_mem 0x20000000 0x30000000 0x30000040) := by
  rw [load_and_run_elf_of_magic _ _ _ (by decide)]
  have e : (0x30000000 + e_phoff release_mem 0x30000000) % 2 ^ 64 = 0x30000040 := by decide
  have e0 : (0x30000040 + SIZEOF_PHDR * 0) % 2 ^ 64 = 0x30000040 := by decide
  rw [e, load_loop, if_pos (by decide), e0, load_loop, if_neg (by decide!)]

theorem fetched_header :
    magic_ok fetched_mem 0x30000000 = true ∧ e_phnum fetched_mem 0x30000000 = 3 ∧
    e_phoff fetched_mem 0x30000000 = 64 := by decide

theorem fetched_phdr_at (i : Nat) (hi : i < 3) :
    phdr_at fetched_mem 0x30000000 i = 0x30000040 + 56 * i := by
  interval_cases i <;> decide

theorem fetched_entry :
    p_type fetched_mem 0x30000040 = 0 ∧ p_type fetched_mem 0x30000078 = 1 ∧
    p_type fetched_mem 0x300000B0 = 4 ∧
    p_vaddr fetched_mem 0x30000078 = 0x1000 ∧ p_filesz fetched_mem 0x30000078 = 100 ∧
    p_memsz fetched_mem 0x30000078 = 150 := by decide

theorem fetched_loadable (i : Nat) (h : loadable fetched_mem 0x30000000 i) : i = 1 := by
  unfold loadable PT_LOAD at h
  rw [fetched_header.2.1] at h
  obtain ⟨hi, ht⟩ := h
  rw [fetched_phdr_at i hi] at ht
  interval_cases i
  · rw [fetched_entry.1] at ht
    omega
  · rfl
  · rw [fetched_entry.2.2.1] at ht
    omega

theorem fetched_in_dest (x : Nat) (h : in_dest fetched_mem 0x20000000 0x30000078 x) :
    0x20001000 ≤ x ∧ x < 0x20001096 := by
  unfold in_dest at h
  rw [fetched_entry.2.2.2.1, fetched_entry.2.2.2.2.1, fetched_entry.2.2.2.2.2] at h
  obtain ⟨j, hj, rfl⟩ := h
  omega

theorem fetched_in_ctrl (x : Nat) (h : in_ctrl fetched_mem 0x30000000 x) :
    0x30000000 ≤ x ∧ x < 0x300000E8 := by
  unfold in_ctrl SIZEOF_PHDR at h
  rw [fetched_header.2.1] at h
  rcases h with ⟨j, hj, rfl⟩ | ⟨i, j, hi, hj, rfl⟩
  · omega
  · rw [fetched_phdr_at i hi, Nat.mod_eq_of_lt (by omega)]
    omega

/-! ## The claims on `main` -/

/-- C12, the claim as stated fails: when the driver finds no device
configuration, no sub-transfer is issued (so none fails), the image at
`0x30000000` has valid magic, the load-address register would read back
`0x20000000` and the version register `0xDEADBEEF`, and yet `main` aborts. -/
theorem C12_counterexample :
    (∀ a b p st, SdEvent.ReadPolled a b p st ∈
        (read_elf_from_sd no_config_driver
          (staged_world (memOfList 0x30000000 (scenario_image 0x7F)) 0 0)
          0x30000000 0x700000 0).2.events → st = XST_SUCCESS) ∧
    magic_ok (read_elf_from_sd no_config_driver
        (staged_world (memOfList 0x30000000 (scenario_image 0x7F)) 0 0)
        0x30000000 0x700000 0).2.mem 0x30000000 = true ∧
    good_io.In32 [MmioEvent.Out32 0xA0000004 0x20000000] 0xA0000004 = 0x20000000 ∧
    good_io.In32 [MmioEvent.Out32 0xA0000004 0x20000000,
      MmioEvent.In32 0xA0000004 0x20000000] 0xA000000C = 0xDEADBEEF ∧
    (main no_config_driver good_io (memOfList 0x30000000 (scenario_image 0x7F)) 0 0).outcome =
      BootOutcome.Aborted := by
  have hf : read_elf_from_sd no_config_driver
      (staged_world (memOfList 0x30000000 (scenario_image 0x7F)) 0 0) 0x30000000 0x700000 0 =
      (XST_FAILURE, { staged_world (memOfList 0x30000000 (scenario_image 0x7F)) 0 0 with
        events := (staged_world (memOfList 0x30000000 (scenario_image 0x7F)) 0 0).events ++
          [SdEvent.LookupConfig false] }) :=
    read_elf_from_sd_no_config _ _ _ _ _ rfl rfl
  refine ⟨?_, ?_, by decide, by decide, ?_⟩
  · rw [hf]
    intro a b p st hmem
    simp [staged_world] at hmem
  · rw [hf]
    exact fetched_magic
  · cases ho : (main no_config_driver good_io
        (memOfList 0x30000000 (scenario_image 0x7F)) 0 0).outcome
    · have h := ((main_running_iff _ _ _ _ _).mp ho).1
      have hf1 : (read_elf_from_sd no_config_driver
          (staged_world (memOfList 0x30000000 (scenario_image 0x7F)) 0 0)
          ELF_OS_BASE_OFFSET OS_SIZE_BYTES SECTOR_OFFSET).1 = XST_FAILURE := by
        show (read_elf_from_sd no_config_driver
          (staged_world (memOfList 0x30000000 (scenario_image 0x7F)) 0 0)
          0x30000000 0x700000 0).1 = XST_FAILURE
        rw [hf]
      rw [hf1] at h
      exact absurd h (by decide)
    · rfl

/-- C12, amended.  `main` reaches the running state (start bit written, then the
endless wait) exactly when the storage initialisation succeeds, every
sub-transfer of the fetch succeeds, the magic check of the fetched image
passes, the load-address register reads back `0x20000000` and the version
register reads `0xDEADBEEF`; otherwise it ends aborted. -/
theorem C12_running_iff (drv : SdDriver) (io : Mmio) (m : Mem) (program program_size : Nat) :
    ((main drv io m program program_size).outcome = BootOutcome.Running ↔
      init_ok drv (staged_world m program program_size) ∧
      (∀ a b p st, SdEvent.ReadPolled a b p st ∈
        (read_elf_from_sd drv (staged_world m program program_size)
          0x30000000 0x700000 0).2.events → st = XST_SUCCESS) ∧
      magic_ok (read_elf_from_sd drv (staged_world m program program_size)
        0x30000000 0x700000 0).2.mem 0x30000000 = true ∧
      io.In32 [MmioEvent.Out32 0xA0000004 0x20000000] 0xA0000004 = 0x20000000 ∧
      io.In32 [MmioEvent.Out32 0xA0000004 0x20000000,
        MmioEvent.In32 0xA0000004 0x20000000] 0xA000000C = 0xDEADBEEF) ∧
    ((main drv io m program program_size).outcome ≠ BootOutcome.Running →
      (main drv io m program program_size).outcome = BootOutcome.Aborted) := by
  constructor
  · have h := main_running_iff drv io m program program_size
    rw [fetch_status_iff drv (staged_world m program program_size) _ _ _ rfl,
      load_status_iff] at h
    rw [h]
    constructor
    · rintro ⟨⟨h1, h2⟩, h3, h4, h5⟩
      exact ⟨h1, h2, h3, h4, h5⟩
    · rintro ⟨h1, h2, h3, h4, h5⟩
      exact ⟨⟨h1, h2⟩, h3, h4, h5⟩
  · intro h
    cases ho : (main drv io m program program_size).outcome
    · exact absurd ho h
    · rfl

/-- C12 amended, at a concrete input: with a driver whose calls all succeed, the
scenario image at `0x30000000` and a companion core of the expected version,
`main` reaches the running state. -/
theorem C12_running_iff_witness :
    (main (ok_driver 1) good_io (memOfList 0x30000000 (scenario_image 0x7F)) 0 0).outcome =
      BootOutcome.Running := by
  have hok := ok_fetch (memOfList 0x30000000 (scenario_image 0x7F))
  have hst := (fetch_status_iff (ok_driver 1)
    (staged_world (memOfList 0x30000000 (scenario_image 0x7F)) 0 0)
    ELF_OS_BASE_OFFSET OS_SIZE_BYTES SECTOR_OFFSET rfl).mp hok.1
  refine (C12_running_iff (ok_driver 1) good_io
    (memOfList 0x30000000 (scenario_image 0x7F)) 0 0).1.mpr ⟨hst.1, hst.2, ?_, by decide, by decide⟩
  have hm := hok.2
  change (read_elf_from_sd (ok_driver 1)
    (staged_world (memOfList 0x30000000 (scenario_image 0x7F)) 0 0)
    0x30000000 0x700000 0).2.mem = _ at hm
  rw [hm]
  exact fetched_magic

/-- C13, the claim as stated fails: with the image `release_image` on the card
and a companion core of another version, `main` aborts at the verification
and makes no call of `Xil_Out32` on the control register; yet the loader has
stored the bytes `1, 0, 0, 0`, the start bit, at `0xA0000000`, the address of
the control register, before any register was read. -/
theorem C13_counterexample :
    load32 release_mem 0xA0000000 = 0 ∧
    (main (ok_driver 1) old_io release_mem 0 0).outcome = BootOutcome.Aborted ∧
    (main (ok_driver 1) old_io release_mem 0 0).mmio =
      [MmioEvent.Out32 0xA0000004 0x20000000, MmioEvent.In32 0xA0000004 0x20000000,
        MmioEvent.In32 0xA000000C 0] ∧
    load32 (main (ok_driver 1) old_io release_mem 0 0).sd.mem 0xA0000000 = 1 := by
  have hok := ok_fetch release_mem
  have hmem : (read_elf_from_sd (ok_driver 1) (staged_world release_mem 0 0)
      ELF_OS_BASE_OFFSET OS_SIZE_BYTES SECTOR_OFFSET).2.mem = release_mem := hok.2
  have hload : load_and_run_elf release_mem PS_DRAM_BASE_OFFSET ELF_OS_BASE_OFFSET =
      (XST_SUCCESS, load_segment release_mem 0x20000000 0x30000000 0x30000040) := release_run
  refine ⟨by decide, ?_, ?_, ?_⟩
  · rcases main_cases (ok_driver 1) old_io release_mem 0 0 with
      ⟨_, ho, _⟩ | ⟨_, _, ho, _⟩ | ⟨_, _, _, ho, _⟩ | ⟨_, _, _, _, ho, _⟩ | ⟨_, _, _, h2, _, _⟩
    · exact ho
    · exact ho
    · exact ho
    · exact ho
    · exact absurd h2 (by decide)
  · rcases main_cases (ok_driver 1) old_io release_mem 0 0 with
      ⟨hf, _, _⟩ | ⟨_, hl, _, _⟩ | ⟨_, _, h1, _, _⟩ | ⟨_, _, _, _, _, hm⟩ | ⟨_, _, _, h2, _, _⟩
    · exact absurd hok.1 hf
    · rw [hmem, hload] at hl
      exact absurd rfl hl
    · exact absurd (by decide) h1
    · rw [hm]
      rfl
    · exact absurd h2 (by decide)
  · rw [main_mem _ _ _ _ _ hok.1, hmem, hload]
    decide!

/-- C13, amended.  Counting as register accesses the calls of `Xil_Out32` and
`Xil_In32`: in every run of `main`, a write to the control register
`0xA0000000` occurs only in a run that ends running, and then the register
accesses are exactly: write `0x20000000` to the load-address register, read it
back as `0x20000000`, read the version register as `0xDEADBEEF`, write the
start bit `1` to the control register.  In every run that aborts the control
register is not accessed, and when the fetch or the extraction fails no
register of the companion core is accessed at all.  As to the bytes the
loader stores: when the fetch succeeds and no destination range of a loadable
entry of the fetched image overlaps the field `e_phnum` or the
program-header table, `main` leaves every byte outside those destination
ranges as the fetch left it. -/
theorem C13_release_only_after_verification (drv : SdDriver) (io : Mmio) (m : Mem)
    (program program_size : Nat) :
    (∀ v, MmioEvent.Out32 0xA0000000 v ∈ (main drv io m program program_size).mmio →
      (main drv io m program program_size).outcome = BootOutcome.Running ∧
      (main drv io m program program_size).mmio =
        [MmioEvent.Out32 0xA0000004 0x20000000, MmioEvent.In32 0xA0000004 0x20000000,
          MmioEvent.In32 0xA000000C 0xDEADBEEF, MmioEvent.Out32 0xA0000000 1]) ∧
    ((main drv io m program program_size).outcome = BootOutcome.Running →
      (main drv io m program program_size).mmio =
        [MmioEvent.Out32 0xA0000004 0x20000000, MmioEvent.In32 0xA0000004 0x20000000,
          MmioEvent.In32 0xA000000C 0xDEADBEEF, MmioEvent.Out32 0xA0000000 1]) ∧
    ((main drv io m program program_size).outcome = BootOutcome.Aborted →
      ∀ v, MmioEvent.Out32 0xA0000000 v ∉ (main drv io m program program_size).mmio) ∧
    (((read_elf_from_sd drv (staged_world m program program_size)
          0x30000000 0x700000 0).1 ≠ XST_SUCCESS ∨
        (load_and_run_elf (read_elf_from_sd drv (staged_world m program program_size)
          0x30000000 0x700000 0).2.mem 0x20000000 0x30000000).1 ≠ XST_SUCCESS) →
      (main drv io m program program_size).outcome = BootOutcome.Aborted ∧
      (main drv io m program program_size).mmio = []) ∧
    ((read_elf_from_sd drv (staged_world m program program_size)
          0x30000000 0x700000 0).1 = XST_SUCCESS →
      (∀ i, loadable (read_elf_from_sd drv (staged_world m program program_size)
          0x30000000 0x700000 0).2.mem 0x30000000 i →
        ∀ x, in_dest (read_elf_from_sd drv (staged_world m program program_size)
            0x30000000 0x700000 0).2.mem 0x20000000
            (phdr_at (read_elf_from_sd drv (staged_world m program program_size)
              0x30000000 0x700000 0).2.mem 0x30000000 i) x →
          ¬ in_ctrl (read_elf_from_sd drv (staged_world m program program_size)
            0x30000000 0x700000 0).2.mem 0x30000000 x) →
      ∀ x, (∀ i, loadable (read_elf_from_sd drv (staged_world m program program_size)
          0x30000000 0x700000 0).2.mem 0x30000000 i →
        ¬ in_dest (read_elf_from_sd drv (staged_world m program program_size)
            0x30000000 0x700000 0).2.mem 0x20000000
            (phdr_at (read_elf_from_sd drv (staged_world m program program_size)
              0x30000000 0x700000 0).2.mem 0x30000000 i) x) →
        (main drv io m program program_size).sd.mem x =
          (read_elf_from_sd drv (staged_world m program program_size)
            0x30000000 0x700000 0).2.mem x) := by
  have hframe : (read_elf_from_sd drv (staged_world m program program_size)
          0x30000000 0x700000 0).1 = XST_SUCCESS →
      (∀ i, loadable (read_elf_from_sd drv (staged_world m program program_size)
          0x30000000 0x700000 0).2.mem 0x30000000 i →
        ∀ x, in_dest (read_elf_from_sd drv (staged_world m program program_size)
            0x30000000 0x700000 0).2.mem 0x20000000
            (phdr_at (read_elf_from_sd drv (staged_world m program program_size)
              0x30000000 0x700000 0).2.mem 0x30000000 i) x →
          ¬ in_ctrl (read_elf_from_sd drv (staged_world m program program_size)
            0x30000000 0x700000 0).2.mem 0x30000000 x) →
      ∀ x, (∀ i, loadable (read_elf_from_sd drv (staged_world m program program_size)
          0x30000000 0x700000 0).2.mem 0x30000000 i →
        ¬ in_dest (read_elf_from_sd drv (staged_world m program program_size)
            0x30000000 0x700000 0).2.mem 0x20000000
            (phdr_at (read_elf_from_sd drv (staged_world m program program_size)
              0x30000000 0x700000 0).2.mem 0x30000000 i) x) →
        (main drv io m program program_size).sd.mem x =
          (read_elf_from_sd drv (staged_world m program program_size)
            0x30000000 0x700000 0).2.mem x := by
    intro hf hctrl x hx
    rw [main_mem drv io m program program_size hf]
    show (load_and_run_elf (read_elf_from_sd drv (staged_world m program program_size)
      0x30000000 0x700000 0).2.mem 0x20000000 0x30000000).2 x = _
    cases hmag : magic_ok (read_elf_from_sd drv (staged_world m program program_size)
        0x30000000 0x700000 0).2.mem 0x30000000
    · rw [load_and_run_elf_of_bad_magic _ _ _ hmag]
    · rw [load_and_run_elf_of_magic _ _ _ hmag]
      exact load_loop_frame _ _ _ hctrl x hx
  suffices h4 : _ ∧ _ ∧ _ ∧ _ from ⟨h4.1, h4.2.1, h4.2.2.1, h4.2.2.2, hframe⟩
  clear hframe
  rcases main_cases drv io m program program_size with
    ⟨hf, ho, hm⟩ | ⟨hf, hl, ho, hm⟩ | ⟨hf, hl, h1, ho, hm⟩ | ⟨hf, hl, h1, h2, ho, hm⟩ |
    ⟨hf, hl, h1, h2, ho, hm⟩
  · rw [ho, hm]
    refine ⟨fun v h => by simp at h, fun h => absurd h (by decide), fun _ v h => by simp at h,
      fun _ => ⟨rfl, rfl⟩⟩
  · rw [ho, hm]
    refine ⟨fun v h => by simp at h, fun h => absurd h (by decide), fun _ v h => by simp at h,
      fun _ => ⟨rfl, rfl⟩⟩
  · have hno : ∀ v, MmioEvent.Out32 0xA0000000 v ∉ (main drv io m program program_size).mmio := by
      rw [hm]
      intro v h
      simp [MEM_REG] at h
    rw [ho]
    refine ⟨fun v h => absurd h (hno v), fun h => absurd h (by decide), fun _ => hno, ?_⟩
    rintro (h | h)
    · exact absurd hf h
    · exact absurd hl h
  · have hno : ∀ v, MmioEvent.Out32 0xA0000000 v ∉ (main drv io m program program_size).mmio := by
      rw [hm]
      intro v h
      simp [MEM_REG] at h
    rw [ho]
    refine ⟨fun v h => absurd h (hno v), fun h => absurd h (by decide), fun _ => hno, ?_⟩
    rintro (h | h)
    · exact absurd hf h
    · exact absurd hl h
  · rw [ho, hm]
    refine ⟨fun _ _ => ⟨rfl, rfl⟩, fun _ => rfl, fun h => absurd h (by decide), ?_⟩
    rintro (h | h)
    · exact absurd hf h
    · exact absurd hl h

/-- C13 amended, at concrete inputs: with a companion core of another version
`main` aborts after the two register reads without a call of `Xil_Out32` on
the control register; when no device configuration is found it accesses no
register at all; and with the scenario image on the card, whose only
destination range is `[0x20001000, 0x20001096)`, the four bytes at
`0xA0000000` are left as they were. -/
theorem C13_release_only_after_verification_witness :
    (∀ v, MmioEvent.Out32 0xA0000000 v ∉ (main (ok_driver 1) old_io fetched_mem 0 0).mmio) ∧
    (main no_config_driver good_io fetched_mem 0 0).mmio = [] ∧
    (main (ok_driver 1) good_io fetched_mem 0 0).sd.mem 0xA0000000 = fetched_mem 0xA0000000 ∧
    (main (ok_driver 1) good_io fetched_mem 0 0).sd.mem 0xA0000003 = fetched_mem 0xA0000003 := by
  have hm : (read_elf_from_sd (ok_driver 1) (staged_world fetched_mem 0 0)
      0x30000000 0x700000 0).2.mem = fetched_mem := (ok_fetch fetched_mem).2
  have h5 := (C13_release_only_after_verification (ok_driver 1) good_io fetched_mem 0 0).2.2.2.2
    (ok_fetch fetched_mem).1
  rw [hm] at h5
  have hctrl : ∀ i, loadable fetched_mem 0x30000000 i →
      ∀ x, in_dest fetched_mem 0x20000000 (phdr_at fetched_mem 0x30000000 i) x →
        ¬ in_ctrl fetched_mem 0x30000000 x := by
    intro i hi y hd hc
    rw [fetched_loadable i hi, fetched_phdr_at 1 (by omega)] at hd
    have h1 := fetched_in_dest y hd
    have h2 := fetched_in_ctrl y hc
    omega
  have hout : ∀ x, 0xA0000000 ≤ x → ∀ i, loadable fetched_mem 0x30000000 i →
      ¬ in_dest fetched_mem 0x20000000 (phdr_at fetched_mem 0x30000000 i) x := by
    intro x hx i hi hd
    rw [fetched_loadable i hi, fetched_phdr_at 1 (by omega)] at hd
    have h1 := fetched_in_dest x hd
    omega
  refine ⟨?_, ?_, h5 hctrl _ (hout _ (by omega)), h5 hctrl _ (hout _ (by omega))⟩
  · apply (C13_release_only_after_verification (ok_driver 1) old_io fetched_mem 0 0).2.2.1
    cases ho : (main (ok_driver 1) old_io fetched_mem 0 0).outcome
    · have h := ((main_running_iff _ _ _ _ _).mp ho).2.2.2
      revert h
      decide
    · rfl
  · apply ((C13_release_only_after_verification no_config_driver good_io fetched_mem 0 0).2.2.2.1
      _).2
    left
    rw [read_elf_from_sd_no_config _ _ _ _ _ rfl rfl]
    decide

/-! ## The entries the loader loop visits -/

theorem e_phnum_lt (m : Mem) (elf : Nat) : e_phnum m elf < 65536 :=
  load16_lt m (elf + 56)

/-- The loop with the trace leaves the memory that the loop leaves. -/
theorem load_loop_trace_mem (dst elf tbl : Nat) :
    ∀ (d i : Nat) (m : Mem), 65536 ≤ i + d →
      (load_loop_trace dst elf tbl i m).2 = load_loop dst elf tbl i m := by
  intro d
  induction d with
  | zero =>
    intro i m h
    have := e_phnum_lt m elf
    rw [load_loop_trace, load_loop, if_neg (by omega), if_neg (by omega)]
  | succ d ih =>
    intro i m h
    by_cases hi : i < e_phnum m elf
    · rw [load_loop_trace, load_loop, if_pos hi, if_pos hi]
      exact ih (i + 1) _ (by omega)
    · rw [load_loop_trace, load_loop, if_neg hi, if_neg hi]

/-- Whatever the image, the entries visited from index `i` on are at
`phdr_table + 56 * i`, `phdr_table + 56 * (i + 1)`, and so on, in this order. -/
theorem load_loop_trace_addr (dst elf tbl : Nat) :
    ∀ (d i : Nat) (m : Mem), 65536 ≤ i + d →
      (load_loop_trace dst elf tbl i m).1 =
        (List.range (load_loop_trace dst elf tbl i m).1.length).map
          (fun k => (tbl + SIZEOF_PHDR * (i + k)) % 2 ^ 64) := by
  intro d
  induction d with
  | zero =>
    intro i m h
    have := e_phnum_lt m elf
    rw [load_loop_trace, if_neg (by omega)]
    rfl
  | succ d ih =>
    intro i m h
    by_cases hi : i < e_phnum m elf
    · have hrec := ih (i + 1) (load_segment m dst elf ((tbl + SIZEOF_PHDR * i) % 2 ^ 64))
        (by omega)
      rw [load_loop_trace, if_pos hi]
      simp only [List.length_cons, List.range_succ_eq_map, List.map_cons, List.map_map,
        Nat.add_zero]
      congr 1
      rw [hrec]
      simp only [List.length_map, List.length_range, List.map_map]
      apply List.map_congr_left
      intro k _
      simp only [Function.comp]
      rw [show i + k.succ = i + 1 + k by omega]
    · rw [load_loop_trace, if_neg hi]
      rfl

/-- Invariant rule for the number of entries visited: when a property that
holds before iteration `k` fixes the value read for `e_phnum` at `n` and is
carried over by one iteration, the loop started at index `k` visits `n - k`
entries. -/
theorem load_loop_trace_inv (dst elf tbl n : Nat) (P : Nat → Mem → Prop)
    (hnum : ∀ k μ, k ≤ n → P k μ → e_phnum μ elf = n)
    (hstep : ∀ k μ, k < n → P k μ →
      P (k + 1) (load_segment μ dst elf ((tbl + SIZEOF_PHDR * k) % 2 ^ 64))) :
    ∀ d k μ, k + d = n → P k μ → (load_loop_trace dst elf tbl k μ).1.length = d := by
  intro d
  induction d with
  | zero =>
    intro k μ hk hP
    have hk2 : k = n := by omega
    subst hk2
    rw [load_loop_trace, if_neg (by rw [hnum k μ (le_refl _) hP]; omega)]
    rfl
  | succ d ih =>
    intro k μ hk hP
    rw [load_loop_trace, if_pos (by rw [hnum k μ (by omega) hP]; omega)]
    simp only [List.length_cons]
    rw [ih (k + 1) _ (by omega) (hstep k μ (by omega) hP)]

/-- While the bytes outside the destination ranges are as in `m`, and no
destination range overlaps the field `e_phnum` or the table, the bytes that
steer the loop are as in `m`. -/
theorem frame_inv_ctrl (m : Mem) (dst elf : Nat)
    (hctrl : ∀ i, loadable m elf i →
      ∀ x, in_dest m dst (phdr_at m elf i) x → ¬ in_ctrl m elf x)
    (μ : Mem) (hP : ∀ y, (∀ i, loadable m elf i →
      ¬ in_dest m dst (phdr_at m elf i) y) → μ y = m y) :
    ∀ y, in_ctrl m elf y → μ y = m y :=
  fun y hy => hP y (fun i hi hd => hctrl i hi y hd hy)

theorem frame_inv_num (m : Mem) (dst elf : Nat)
    (hctrl : ∀ i, loadable m elf i →
      ∀ x, in_dest m dst (phdr_at m elf i) x → ¬ in_ctrl m elf x)
    (μ : Mem) (hP : ∀ y, (∀ i, loadable m elf i →
      ¬ in_dest m dst (phdr_at m elf i) y) → μ y = m y) :
    e_phnum μ elf = e_phnum m elf :=
  load16_congr μ m (elf + 56)
    (fun j hj => frame_inv_ctrl m dst elf hctrl μ hP _ (Or.inl ⟨j, hj, rfl⟩))

theorem frame_inv_fields (m : Mem) (dst elf : Nat)
    (hctrl : ∀ i, loadable m elf i →
      ∀ x, in_dest m dst (phdr_at m elf i) x → ¬ in_ctrl m elf x)
    (μ : Mem) (hP : ∀ y, (∀ i, loadable m elf i →
      ¬ in_dest m dst (phdr_at m elf i) y) → μ y = m y)
    (k : Nat) (hk : k < e_phnum m elf) :
    p_type μ (phdr_at m elf k) = p_type m (phdr_at m elf k) ∧
    p_offset μ (phdr_at m elf k) = p_offset m (phdr_at m elf k) ∧
    p_vaddr μ (phdr_at m elf k) = p_vaddr m (phdr_at m elf k) ∧
    p_filesz μ (phdr_at m elf k) = p_filesz m (phdr_at m elf k) ∧
    p_memsz μ (phdr_at m elf k) = p_memsz m (phdr_at m elf k) :=
  phdr_fields_congr μ m (phdr_at m elf k)
    (fun j hj => frame_inv_ctrl m dst elf hctrl μ hP _ (Or.inr ⟨k, j, hk, hj, rfl⟩))

theorem frame_inv_step (m : Mem) (dst elf : Nat)
    (hctrl : ∀ i, loadable m elf i →
      ∀ x, in_dest m dst (phdr_at m elf i) x → ¬ in_ctrl m elf x)
    (μ : Mem) (hP : ∀ y, (∀ i, loadable m elf i →
      ¬ in_dest m dst (phdr_at m elf i) y) → μ y = m y)
    (k : Nat) (hk : k < e_phnum m elf) :
    ∀ y, (∀ i, loadable m elf i → ¬ in_dest m dst (phdr_at m elf i) y) →
      load_segment μ dst elf (phdr_at m elf k) y = m y := by
  intro y hy
  obtain ⟨ht, _, hv, hfs, hms⟩ := frame_inv_fields m dst elf hctrl μ hP k hk
  rw [load_segment_frame μ dst elf (phdr_at m elf k)]
  · exact hP y hy
  · intro hty j hj hd
    rw [ht] at hty
    rw [in_dest_congr μ m dst _ _ hv hfs hms] at hd
    exact hctrl k ⟨hk, hty⟩ _ hd (Or.inr ⟨k, j, hk, hj, rfl⟩)
  · intro hty hd
    rw [ht] at hty
    rw [in_dest_congr μ m dst _ _ hv hfs hms] at hd
    exact hy k ⟨hk, hty⟩ hd

/-- When no destination range of a loadable entry overlaps the field `e_phnum`
or the program-header table, the loop visits the `e_phnum` entries of the
table, one after the other. -/
theorem load_loop_trace_entries (m : Mem) (dst elf : Nat)
    (hctrl : ∀ i, loadable m elf i →
      ∀ x, in_dest m dst (phdr_at m elf i) x → ¬ in_ctrl m elf x) :
    (load_loop_trace dst elf ((elf + e_phoff m elf) % 2 ^ 64) 0 m).1 =
      (List.range (e_phnum m elf)).map (phdr_at m elf) := by
  have hlen := load_loop_trace_inv dst elf ((elf + e_phoff m elf) % 2 ^ 64) (e_phnum m elf)
    (fun _ μ => ∀ y, (∀ i, loadable m elf i → ¬ in_dest m dst (phdr_at m elf i) y) → μ y = m y)
    (fun _ μ _ hP => frame_inv_num m dst elf hctrl μ hP)
    (fun k μ hk hP => frame_inv_step m dst elf hctrl μ hP k hk)
    (e_phnum m elf) 0 m (by omega) (fun _ _ => rfl)
  rw [load_loop_trace_addr dst elf _ 65536 0 m (by omega), hlen]
  apply List.map_congr_left
  intro k _
  unfold phdr_at
  rw [Nat.zero_add]

/-! ## Two runs on memories that differ in bytes never read -/

/-- Two copies whose source bytes lie outside a set `F` of addresses keep two
memories equal outside `F`. -/
theorem my_memcpy_loop_rel (F : Nat → Prop) (dest src : Nat) :
    ∀ (k i : Nat) (μ ν : Mem), (∀ x, ¬ F x → ν x = μ x) →
      (∀ j, i ≤ j → j < i + k → ¬ F ((src + j) % 2 ^ 64)) →
      ∀ x, ¬ F x → my_memcpy_loop dest src k i ν x = my_memcpy_loop dest src k i μ x := by
  intro k
  induction k with
  | zero => intro i μ ν hag _ x hx; exact hag x hx
  | succ k ih =>
    intro i μ ν hag hsrc x hx
    rw [my_memcpy_loop, my_memcpy_loop]
    apply ih (i + 1) _ _ _ (fun j h1 h2 => hsrc j (by omega) (by omega)) x hx
    intro y hy
    have hv : load8 ν (src + i) = load8 μ (src + i) :=
      load8_congr ν μ (src + i) (hag _ (hsrc i (by omega) (by omega)))
    unfold store8
    rw [hv, hag y hy]

/-- Two fills keep two memories equal outside `F`. -/
theorem my_memset_loop_rel (F : Nat → Prop) (s c : Nat) :
    ∀ (k i : Nat) (μ ν : Mem), (∀ x, ¬ F x → ν x = μ x) →
      ∀ x, ¬ F x → my_memset_loop s c k i ν x = my_memset_loop s c k i μ x := by
  intro k
  induction k with
  | zero => intro i μ ν hag x hx; exact hag x hx
  | succ k ih =>
    intro i μ ν hag x hx
    rw [my_memset_loop, my_memset_loop]
    apply ih (i + 1) _ _ _ x hx
    intro y hy
    unfold store8
    rw [hag y hy]

/-- One iteration on two memories equal outside `F` leaves memories equal
outside `F`, when neither the entry nor the file bytes of its segment have a
byte in `F`. -/
theorem load_segment_rel (F : Nat → Prop) (μ ν : Mem) (dst elf p : Nat)
    (hag : ∀ x, ¬ F x → ν x = μ x)
    (hp : ∀ j, j < SIZEOF_PHDR → ¬ F ((p + j) % 2 ^ 64))
    (hsrc : p_type μ p = PT_LOAD →
      ∀ j, j < p_filesz μ p → ¬ F ((elf + p_offset μ p + j) % 2 ^ 64)) :
    ∀ x, ¬ F x → load_segment ν dst elf p x = load_segment μ dst elf p x := by
  intro x hx
  obtain ⟨ht, ho, hv, hf, _⟩ := phdr_fields_congr ν μ p (fun j hj => hag _ (hp j hj))
  by_cases htype : p_type μ p = PT_LOAD
  · have hcopy : ∀ y, ¬ F y →
        my_memcpy ν ((dst + p_vaddr μ p) % 2 ^ 64) ((elf + p_offset μ p) % 2 ^ 64)
          (p_filesz μ p) y =
        my_memcpy μ ((dst + p_vaddr μ p) % 2 ^ 64) ((elf + p_offset μ p) % 2 ^ 64)
          (p_filesz μ p) y := by
      apply my_memcpy_loop_rel F _ _ _ 0 μ ν hag
      intro j _ hj
      have e : ((elf + p_offset μ p) % 2 ^ 64 + j) % 2 ^ 64 =
          (elf + p_offset μ p + j) % 2 ^ 64 := by omega
      rw [e]
      exact hsrc htype j (by omega)
    obtain ⟨_, _, _, hf1, hm1⟩ := phdr_fields_congr
      (my_memcpy ν ((dst + p_vaddr μ p) % 2 ^ 64) ((elf + p_offset μ p) % 2 ^ 64)
        (p_filesz μ p))
      (my_memcpy μ ((dst + p_vaddr μ p) % 2 ^ 64) ((elf + p_offset μ p) % 2 ^ 64)
        (p_filesz μ p)) p (fun j hj => hcopy _ (hp j hj))
    unfold load_segment
    rw [if_pos htype, if_pos (by rw [ht]; exact htype)]
    simp only [ho, hv, hf, hf1, hm1]
    split
    · exact my_memset_loop_rel F _ _ _ 0 _ _ hcopy x hx
    · exact hcopy x hx
  · rw [load_segment_of_not_load μ dst elf p htype,
      load_segment_of_not_load ν dst elf p (by rw [ht]; exact htype)]
    exact hag x hx

theorem load_loop_step (dst elf tbl i : Nat) (m : Mem) (h : i < e_phnum m elf) :
    load_loop dst elf tbl i m =
      load_loop dst elf tbl (i + 1) (load_segment m dst elf ((tbl + SIZEOF_PHDR * i) % 2 ^ 64)) := by
  rw [load_loop, if_pos h]

theorem load_loop_exit (dst elf tbl i : Nat) (m : Mem) (h : ¬ i < e_phnum m elf) :
    load_loop dst elf tbl i m = m := by
  rw [load_loop, if_neg h]

/-- The loop on two memories equal outside `F` leaves memories equal outside
`F`, when no destination range of a loadable entry overlaps the field
`e_phnum` or the table and `F` holds no byte of the field `e_phnum`, of the
table, or of the file bytes of a loadable entry. -/
theorem load_loop_rel (F : Nat → Prop) (m : Mem) (dst elf : Nat)
    (hctrl : ∀ i, loadable m elf i →
      ∀ x, in_dest m dst (phdr_at m elf i) x → ¬ in_ctrl m elf x)
    (hFc : ∀ x, F x → ¬ in_ctrl m elf x)
    (hFs : ∀ x, F x → ∀ i, loadable m elf i → ¬ in_src m elf (phdr_at m elf i) x) :
    ∀ (d k : Nat) (μ ν : Mem), k + d = e_phnum m elf →
      (∀ y, (∀ i, loadable m elf i → ¬ in_dest m dst (phdr_at m elf i) y) → μ y = m y) →
      (∀ x, ¬ F x → ν x = μ x) →
      ∀ x, ¬ F x →
        load_loop dst elf ((elf + e_phoff m elf) % 2 ^ 64) k ν x =
          load_loop dst elf ((elf + e_phoff m elf) % 2 ^ 64) k μ x := by
  have hnumν : ∀ μ ν : Mem, (∀ x, ¬ F x → ν x = μ x) → e_phnum ν elf = e_phnum μ elf :=
    fun μ ν hag => load16_congr ν μ (elf + 56)
      (fun j hj => hag _ (fun hF => hFc _ hF (Or.inl ⟨j, hj, rfl⟩)))
  intro d
  induction d with
  | zero =>
    intro k μ ν hk hP hag x hx
    have h1 := frame_inv_num m dst elf hctrl μ hP
    have h2 := hnumν μ ν hag
    rw [load_loop_exit _ _ _ k ν (by omega), load_loop_exit _ _ _ k μ (by omega)]
    exact hag x hx
  | succ d ih =>
    intro k μ ν hk hP hag x hx
    have h1 := frame_inv_num m dst elf hctrl μ hP
    have h2 := hnumν μ ν hag
    have hk2 : k < e_phnum m elf := by omega
    rw [load_loop_step _ _ _ k ν (by omega), load_loop_step _ _ _ k μ (by omega)]
    apply ih (k + 1) _ _ (by omega) (frame_inv_step m dst elf hctrl μ hP k hk2) _ x hx
    obtain ⟨ht, ho, _, hfs, _⟩ := frame_inv_fields m dst elf hctrl μ hP k hk2
    apply load_segment_rel F μ ν dst elf (phdr_at m elf k) hag
    · intro j hj hF
      exact hFc _ hF (Or.inr ⟨k, j, hk2, hj, rfl⟩)
    · intro hty j hj hF
      rw [ht] at hty
      rw [hfs] at hj
      rw [ho] at hF
      exact hFs _ hF k ⟨hk2, hty⟩ ⟨j, hj, rfl⟩

/-- Two images that differ only in the field `e_phentsize`: the loader returns
the same status on both and leaves memories that differ at most in the two
bytes of the field, when no destination range of a loadable entry overlaps
the field `e_phnum` or the table and the field `e_phentsize` lies neither in
the table nor in the file bytes of a loadable entry. -/
theorem load_and_run_elf_phentsize (m ν : Mem) (dst elf : Nat)
    (hsame : same_but_phentsize m ν elf)
    (hctrl : ∀ i, loadable m elf i →
      ∀ x, in_dest m dst (phdr_at m elf i) x → ¬ in_ctrl m elf x)
    (hFc : ∀ x, in_phentsize elf x → ¬ in_ctrl m elf x)
    (hFs : ∀ x, in_phentsize elf x →
      ∀ i, loadable m elf i → ¬ in_src m elf (phdr_at m elf i) x) :
    (load_and_run_elf ν dst elf).1 = (load_and_run_elf m dst elf).1 ∧
    same_but_phentsize (load_and_run_elf m dst elf).2 (load_and_run_elf ν dst elf).2 elf := by
  have hid : ∀ k, k < 4 → load8 ν (elf + k) = load8 m (elf + k) := by
    intro k hk
    apply load8_congr
    apply hsame
    rintro ⟨j, hj, h⟩
    omega
  have hmag : magic_ok ν elf = magic_ok m elf := by
    unfold magic_ok e_ident
    rw [hid 0 (by omega), hid 1 (by omega), hid 2 (by omega), hid 3 (by omega)]
  have hoff : e_phoff ν elf = e_phoff m elf := by
    unfold e_phoff
    apply load64_congr
    intro k hk
    apply hsame
    rintro ⟨j, hj, h⟩
    omega
  cases hm : magic_ok m elf
  · rw [load_and_run_elf_of_bad_magic m dst elf hm,
      load_and_run_elf_of_bad_magic ν dst elf (by rw [hmag]; exact hm)]
    exact ⟨rfl, hsame⟩
  · rw [load_and_run_elf_of_magic m dst elf hm,
      load_and_run_elf_of_magic ν dst elf (by rw [hmag]; exact hm), hoff]
    refine ⟨rfl, ?_⟩
    intro x hx
    exact load_loop_rel (in_phentsize elf) m dst elf hctrl hFc hFs (e_phnum m elf) 0 m ν
      (by omega) (fun _ _ => rfl) hsame x hx

/-! ## Runs of the loader on the images for the stride of the table -/

theorem load_loop_trace_step (dst elf tbl i : Nat) (m : Mem) (h : i < e_phnum m elf) :
    (load_loop_trace dst elf tbl i m).1 =
      ((tbl + SIZEOF_PHDR * i) % 2 ^ 64) ::
        (load_loop_trace dst elf tbl (i + 1)
          (load_segment m dst elf ((tbl + SIZEOF_PHDR * i) % 2 ^ 64))).1 := by
  rw [load_loop_trace, if_pos h]

theorem load_loop_trace_exit (dst elf tbl i : Nat) (m : Mem) (h : ¬ i < e_phnum m elf) :
    (load_loop_trace dst elf tbl i m).1 = [] := by
  rw [load_loop_trace, if_neg h]

/-- The run of the loader on `header_copy_mem`: one iteration, on the entry at
`0x10040`. -/
theorem header_copy_run :
    load_and_run_elf header_copy_mem 0x2000 0x10000 =
      (XST_SUCCESS, load_segment header_copy_mem 0x2000 0x10000 0x10040) := by
  rw [load_and_run_elf_of_magic _ _ _ (by decide)]
  have e : (0x10000 + e_phoff header_copy_mem 0x10000) % 2 ^ 64 = 0x10040 := by decide
  have e0 : (0x10040 + SIZEOF_PHDR * 0) % 2 ^ 64 = 0x10040 := by decide
  rw [e, load_loop_step _ _ _ _ _ (by decide), e0, load_loop_exit _ _ _ _ _ (by decide!)]

/-- The same run after the field `e_phentsize` of the image has been set to 0. -/
theorem header_copy_run_zero :
    load_and_run_elf (store8 header_copy_mem 0x10036 0) 0x2000 0x10000 =
      (XST_SUCCESS, load_segment (store8 header_copy_mem 0x10036 0) 0x2000 0x10000 0x10040) := by
  rw [load_and_run_elf_of_magic _ _ _ (by decide)]
  have e : (0x10000 + e_phoff (store8 header_copy_mem 0x10036 0) 0x10000) % 2 ^ 64 = 0x10040 := by
    decide
  have e0 : (0x10040 + SIZEOF_PHDR * 0) % 2 ^ 64 = 0x10040 := by decide
  rw [e, load_loop_step _ _ _ _ _ (by decide), e0, load_loop_exit _ _ _ _ _ (by decide!)]

/-- The run of the loader on `recount_mem`: the field `e_phnum` holds 1 at the
call, the first iteration stores 2 in it, and the loop visits a second entry,
at `0x10078`. -/
theorem recount_run :
    e_phnum recount_mem 0x10000 = 1 ∧
    (load_loop_trace 0x2000 0x10000 ((0x10000 + e_phoff recount_mem 0x10000) % 2 ^ 64) 0
      recount_mem).1 = [0x10040, 0x10078] := by
  refine ⟨by decide, ?_⟩
  have e : (0x10000 + e_phoff recount_mem 0x10000) % 2 ^ 64 = 0x10040 := by decide
  have e0 : (0x10040 + SIZEOF_PHDR * 0) % 2 ^ 64 = 0x10040 := by decide
  have e1 : (0x10040 + SIZEOF_PHDR * (0 + 1)) % 2 ^ 64 = 0x10078 := by decide
  rw [e, load_loop_trace_step _ _ _ _ _ (by decide), e0,
    load_loop_trace_step _ _ _ _ _ (by decide!), e1,
    load_loop_trace_exit _ _ _ _ _ (by decide!)]

theorem scenario_in_ctrl_ge (x : Nat) (h : in_ctrl scenario_mem 0x10000 x) : 0x10038 ≤ x := by
  unfold in_ctrl SIZEOF_PHDR at h
  rw [scenario_header.2.1] at h
  rcases h with ⟨j, hj, rfl⟩ | ⟨i, j, hi, hj, rfl⟩
  · omega
  · rw [scenario_phdr_at i hi, Nat.mod_eq_of_lt (by omega)]
    omega

/-! ## The claim on the stride of the table and the field `e_phentsize` -/

/-- C21, the claim as stated fails: the image `header_copy_image`, whose
loadable segment has for file bytes the first 56 bytes of the image, and the
same image with the field `e_phentsize` changed from 56 to 0 differ only in
that field; the loader succeeds on both, but the destination byte `0x3036`,
which is not a byte of the field, ends as 56 for the one and as 0 for the
other. -/
theorem C21_counterexample :
    same_but_phentsize header_copy_mem (store8 header_copy_mem 0x10036 0) 0x10000 ∧
    e_phentsize header_copy_mem 0x10000 = 56 ∧
    e_phentsize (store8 header_copy_mem 0x10036 0) 0x10000 = 0 ∧
    (load_and_run_elf header_copy_mem 0x2000 0x10000).1 = XST_SUCCESS ∧
    (load_and_run_elf (store8 header_copy_mem 0x10036 0) 0x2000 0x10000).1 = XST_SUCCESS ∧
    ¬ in_phentsize 0x10000 0x3036 ∧
    load8 (load_and_run_elf header_copy_mem 0x2000 0x10000).2 0x3036 = 56 ∧
    load8 (load_and_run_elf (store8 header_copy_mem 0x10036 0) 0x2000 0x10000).2 0x3036 = 0 := by
  refine ⟨?_, by decide, by decide, ?_, ?_, ?_, ?_, ?_⟩
  · intro x hx
    apply store8_of_ne
    intro h
    exact hx ⟨0, by omega, by omega⟩
  · rw [header_copy_run]
  · rw [header_copy_run_zero]
  · rintro ⟨j, hj, h⟩
    omega
  · rw [header_copy_run]
    decide!
  · rw [header_copy_run_zero]
    decide!

/-- C21, amended.  When no destination range of a loadable entry overlaps the
field `e_phnum` or the program-header table, the loop of `load_and_run_elf`
visits exactly `e_phnum` entries, the `i`-th at
`image_base + e_phoff + 56 * i` (as a 64-bit address), in increasing order of
`i`, and leaves the memory that `load_and_run_elf` returns.  Under the same
condition, if moreover the two bytes of the field `e_phentsize` lie neither in
the field `e_phnum` or the table nor in the file bytes of a loadable entry,
then for every memory that differs from `m` only in the field `e_phentsize`
the loader returns the same status and leaves a memory that differs from the
one left for `m` at most in the two bytes of the field. -/
theorem C21_stride_and_phentsize (m : Mem) (destination_base image_base : Nat)
    (hctrl : ∀ i, loadable m image_base i →
      ∀ x, in_dest m destination_base (phdr_at m image_base i) x → ¬ in_ctrl m image_base x) :
    (load_loop_trace destination_base image_base
        ((image_base + e_phoff m image_base) % 2 ^ 64) 0 m).1 =
      (List.range (e_phnum m image_base)).map
        (fun i => (image_base + e_phoff m image_base + 56 * i) % 2 ^ 64) ∧
    (magic_ok m image_base = true →
      (load_and_run_elf m destination_base image_base).2 =
        (load_loop_trace destination_base image_base
          ((image_base + e_phoff m image_base) % 2 ^ 64) 0 m).2) ∧
    (∀ μ, same_but_phentsize m μ image_base →
      (∀ x, in_phentsize image_base x → ¬ in_ctrl m image_base x) →
      (∀ x, in_phentsize image_base x →
        ∀ i, loadable m image_base i → ¬ in_src m image_base (phdr_at m image_base i) x) →
      (load_and_run_elf μ destination_base image_base).1 =
        (load_and_run_elf m destination_base image_base).1 ∧
      same_but_phentsize (load_and_run_elf m destination_base image_base).2
        (load_and_run_elf μ destination_base image_base).2 image_base) := by
  refine ⟨?_, ?_, ?_⟩
  · rw [load_loop_trace_entries m destination_base image_base hctrl]
    apply List.map_congr_left
    intro i _
    unfold phdr_at SIZEOF_PHDR
    omega
  · intro hmag
    rw [load_and_run_elf_of_magic m destination_base image_base hmag,
      load_loop_trace_mem destination_base image_base _ 65536 0 m (by omega)]
  · intro μ hsame hFc hFs
    exact load_and_run_elf_phentsize m μ destination_base image_base hsame hctrl hFc hFs

/-- C21 amended, on the scenario image at `0x10000` loaded with base `0x2000`:
the loop visits the three entries at `0x10040`, `0x10078` and `0x100B0`; and
with the field `e_phentsize` changed from 56 to 0 the loader returns the same
status and leaves the same bytes outside the field. -/
theorem C21_stride_and_phentsize_witness :
    (load_loop_trace 0x2000 0x10000 ((0x10000 + e_phoff scenario_mem 0x10000) % 2 ^ 64) 0
      scenario_mem).1 = [0x10040, 0x10078, 0x100B0] ∧
    e_phentsize scenario_mem 0x10000 = 56 ∧
    e_phentsize (store8 scenario_mem 0x10036 0) 0x10000 = 0 ∧
    (load_and_run_elf (store8 scenario_mem 0x10036 0) 0x2000 0x10000).1 =
      (load_and_run_elf scenario_mem 0x2000 0x10000).1 ∧
    same_but_phentsize (load_and_run_elf scenario_mem 0x2000 0x10000).2
      (load_and_run_elf (store8 scenario_mem 0x10036 0) 0x2000 0x10000).2 0x10000 := by
  have h := C21_stride_and_phentsize scenario_mem 0x2000 0x10000 (by
    intro i hi y hd hc
    rw [(scenario_loadable i).mp hi, scenario_phdr_at 1 (by omega)] at hd
    have h1 := (scenario_in_dest y).mp hd
    have h2 := scenario_in_ctrl y hc
    omega)
  have hfield : ∀ x, in_phentsize 0x10000 x → x < 0x10038 := by
    rintro x ⟨j, hj, rfl⟩
    omega
  have h3 := h.2.2 (store8 scenario_mem 0x10036 0)
    (by
      intro x hx
      apply store8_of_ne
      intro hxe
      exact hx ⟨0, by omega, by omega⟩)
    (by
      intro x hx hc
      have h1 := hfield x hx
      have h2 := scenario_in_ctrl_ge x hc
      omega)
    (by
      intro x hx i hi hs
      rw [(scenario_loadable i).mp hi, scenario_phdr_at 1 (by omega)] at hs
      have h1 := hfield x hx
      have h2 := scenario_in_src x hs
      omega)
  exact ⟨h.1.trans (by decide), by decide, by decide, h3.1, h3.2⟩

end Bootloader


namespace MwWelcome

/-! ## Strings, the console and `str_reverse` -/

theorem char_at_append_length (l : List Nat) (a : Nat) (rest : List Nat) :
    char_at (l ++ a :: rest) l.length = a := by
  unfold char_at
  rw [List.getD_append_right _ _ _ _ (le_refl _)]
  simp

theorem set_append_length (l : List Nat) (a x : Nat) (rest : List Nat) :
    (l ++ a :: rest).set l.length x = l ++ x :: rest := by
  rw [List.set_append, if_neg (by omega)]
  simp

theorem my_strlen_terminated (chars tl : List Nat) (h : ∀ c ∈ chars, c ≠ 0) :
    my_strlen (chars ++ 0 :: tl) = chars.length := by
  induction chars with
  | nil => simp [my_strlen]
  | cons c rest ih =>
    have hc : c ≠ 0 := h c (List.mem_cons_self _ _)
    rw [List.cons_append, my_strlen, if_pos hc,
      ih (fun x hx => h x (List.mem_cons_of_mem _ hx)), List.length_cons]

theorem my_print_terminated (chars tl : List Nat) :
    ∀ out : List Nat, (∀ c ∈ chars, c ≠ 0 ∧ c < 256) →
      my_print out (chars ++ 0 :: tl) = out ++ chars := by
  induction chars with
  | nil => intro out _; simp [my_print]
  | cons c rest ih =>
    intro out h
    obtain ⟨hc, hlt⟩ := h c (List.mem_cons_self _ _)
    rw [List.cons_append, my_print, if_pos hc,
      ih _ (fun x hx => h x (List.mem_cons_of_mem _ hx))]
    unfold uart_transmit_byte
    rw [Nat.mod_eq_of_lt hlt]
    simp

/-- The swap loop reverses the stretch between `i` and `j`, given fuel for
half its length. -/
theorem str_reverse_loop_eq :
    ∀ (fuel : Nat) (pre mid post : List Nat), mid.length ≤ 2 * fuel + 1 →
      str_reverse_loop fuel pre.length ((pre.length : Int) + mid.length - 1)
        (pre ++ mid ++ post) = pre ++ mid.reverse ++ post := by
  intro fuel
  induction fuel with
  | zero =>
    intro pre mid post h
    have : mid = [] ∨ ∃ a, mid = [a] := by
      rcases mid with _ | ⟨a, _ | ⟨b, t⟩⟩
      · exact Or.inl rfl
      · exact Or.inr ⟨a, rfl⟩
      · simp at h
    rcases this with rfl | ⟨a, rfl⟩ <;> simp [str_reverse_loop]
  | succ fuel ih =>
    intro pre mid post h
    rcases mid with _ | ⟨a, t⟩
    · simp [str_reverse_loop]
    · rcases List.eq_nil_or_concat t with rfl | ⟨mid2, b, rfl⟩
      · simp [str_reverse_loop]
      · rw [List.concat_eq_append] at h ⊢
        have hlen : (a :: (mid2 ++ [b])).length = mid2.length + 2 := by simp
        have hj : ((pre.length : Int) + ((a :: (mid2 ++ [b])).length : Nat) - 1) =
            ((pre.length + mid2.length + 1 : Nat) : Int) := by
          rw [hlen]
          push_cast
          ring
        rw [hj]
        unfold str_reverse_loop
        rw [if_pos (by push_cast; omega)]
        simp only [Int.toNat_ofNat]
        have e1 : pre ++ a :: (mid2 ++ [b]) ++ post = pre ++ a :: (mid2 ++ b :: post) := by simp
        have e2 : pre ++ a :: (mid2 ++ b :: post) = (pre ++ a :: mid2) ++ b :: post := by simp
        have hl2 : (pre ++ a :: mid2).length = pre.length + mid2.length + 1 := by simp; omega
        have ca : char_at (pre ++ a :: (mid2 ++ [b]) ++ post) pre.length = a := by
          rw [e1]
          exact char_at_append_length pre a _
        have cb : char_at (pre ++ a :: (mid2 ++ [b]) ++ post) (pre.length + mid2.length + 1) = b := by
          rw [e1, e2, ← hl2]
          exact char_at_append_length _ b post
        rw [ca, cb]
        have s1 : (pre ++ a :: (mid2 ++ [b]) ++ post).set pre.length b =
            pre ++ b :: (mid2 ++ b :: post) := by
          rw [e1]
          exact set_append_length pre a b _
        rw [s1]
        have e3 : pre ++ b :: (mid2 ++ b :: post) = (pre ++ b :: mid2) ++ b :: post := by simp
        have hl3 : (pre ++ b :: mid2).length = pre.length + mid2.length + 1 := by simp; omega
        have s2 : (pre ++ b :: (mid2 ++ b :: post)).set (pre.length + mid2.length + 1) a =
            (pre ++ [b]) ++ mid2 ++ (a :: post) := by
          rw [e3, ← hl3, set_append_length]
          simp
        rw [s2]
        have hpre : pre.length + 1 = (pre ++ [b]).length := by simp
        have hj2 : ((pre.length + mid2.length + 1 : Nat) : Int) - 1 =
            (((pre ++ [b]).length : Nat) : Int) + (mid2.length : Nat) - 1 := by
          rw [← hpre]
          push_cast
          ring
        rw [hj2, hpre, ih (pre ++ [b]) mid2 (a :: post) (by simp at h; omega)]
        simp

/-- On a buffer holding non-zero bytes and then the terminator, `str_reverse`
reverses the bytes and keeps the terminator. -/
theorem str_reverse_terminated (chars : List Nat) (h : ∀ c ∈ chars, c ≠ 0) :
    str_reverse (chars ++ [0]) = chars.reverse ++ [0] := by
  unfold str_reverse
  rw [my_strlen_terminated chars [] h]
  have := str_reverse_loop_eq chars.length [] chars [0] (by omega)
  simpa using this

/-! ## The digit loops in closed form -/

theorem hex_char_facts (d : Nat) (hd : d < 16) :
    is_hex_char (char_at hex_chars d) ∧ char_at hex_chars d ≠ 0 ∧
    char_at hex_chars d < 256 ∧ hex_value (char_at hex_chars d) = d := by
  unfold is_hex_char
  interval_cases d <;> decide

theorem uitoa_hex_digits_eq :
    ∀ (fuel n : Nat) (s : List Nat), n ≤ fuel →
      uitoa_hex_digits fuel n s = s ++ (Nat.digits 16 n).map (char_at hex_chars) := by
  intro fuel
  induction fuel with
  | zero =>
    intro n s h
    have : n = 0 := by omega
    subst this
    simp [uitoa_hex_digits]
  | succ fuel ih =>
    intro n s h
    by_cases hn : n = 0
    · subst hn
      simp [uitoa_hex_digits]
    · rw [uitoa_hex_digits, if_pos hn, ih _ _ (by omega),
        Nat.digits_def' (by norm_num) (Nat.pos_of_ne_zero hn)]
      simp

theorem pad_zeros_eq (min_len : Int) :
    ∀ (fuel : Nat) (s : List Nat), (min_len - s.length).toNat ≤ fuel →
      pad_zeros min_len fuel s = s ++ List.replicate (min_len - s.length).toNat 48 := by
  intro fuel
  induction fuel with
  | zero =>
    intro s h
    have : (min_len - s.length).toNat = 0 := by omega
    rw [this]
    simp [pad_zeros]
  | succ fuel ih =>
    intro s h
    by_cases hlt : (s.length : Int) < min_len
    · have e : (min_len - s.length).toNat = (min_len - (s ++ [48]).length).toNat + 1 := by
        rw [List.length_append, List.length_singleton]
        push_cast
        omega
      rw [pad_zeros, if_pos hlt, ih _ (by omega), e, List.replicate_succ]
      simp
    · have : (min_len - s.length).toNat = 0 := by omega
      rw [pad_zeros, if_neg hlt, this]
      simp

/-- `my_uitoa_hex` in closed form: leading zeros up to the width, then the
hexadecimal digits of `n`, most significant first, then the terminator. -/
theorem my_uitoa_hex_eq (n : Nat) (min_len : Int) (hn : n ≠ 0) :
    my_uitoa_hex n min_len =
      List.replicate (min_len - (Nat.digits 16 n).length).toNat 48 ++
        ((Nat.digits 16 n).map (char_at hex_chars)).reverse ++ [0] := by
  unfold my_uitoa_hex
  simp only [if_neg hn]
  rw [uitoa_hex_digits_eq n n [] (le_refl _), List.nil_append, pad_zeros_eq _ _ _ (le_refl _),
    str_reverse_terminated]
  · simp
  · intro c hc
    rcases List.mem_append.mp hc with h | h
    · obtain ⟨d, hd, rfl⟩ := List.mem_map.mp h
      exact (hex_char_facts d (Nat.digits_lt_base (by norm_num) hd)).2.1
    · rw [List.eq_of_mem_replicate h]
      decide

theorem my_uitoa_hex_zero (min_len : Int) :
    my_uitoa_hex 0 min_len = List.replicate (min_len - 1).toNat 48 ++ [48] ++ [0] := by
  unfold my_uitoa_hex
  simp only [if_pos]
  rw [show uitoa_hex_digits 0 0 [48] = [48] from rfl, pad_zeros_eq _ _ _ (le_refl _),
    str_reverse_terminated]
  · simp
  · intro c hc
    rcases List.mem_append.mp hc with h | h
    · rw [List.mem_singleton.mp h]
      decide
    · rw [List.eq_of_mem_replicate h]
      decide

theorem ofDigits_replicate_zero (b k : Nat) : Nat.ofDigits b (List.replicate k 0) = 0 := by
  induction k with
  | zero => rfl
  | succ k ih => rw [List.replicate_succ, Nat.ofDigits_cons, ih]; simp

theorem map_hex_value_digits (n : Nat) :
    ((Nat.digits 16 n).map (char_at hex_chars)).map hex_value = Nat.digits 16 n := by
  rw [List.map_map]
  conv_rhs => rw [← List.map_id (Nat.digits 16 n)]
  apply List.map_congr_left
  intro d hd
  exact (hex_char_facts d (Nat.digits_lt_base (by norm_num) hd)).2.2.2

/-- What `my_uitoa_hex` leaves in the buffer: hexadecimal characters, most
significant first, of value `n`, as many as the larger of the width and the
number of hexadecimal digits of `n` (one for zero), then the terminator. -/
theorem my_uitoa_hex_spec (n : Nat) (min_len : Int) :
    ∃ digs,
      my_uitoa_hex n min_len = digs ++ [0] ∧
      (∀ c ∈ digs, is_hex_char c) ∧ (∀ c ∈ digs, c ≠ 0 ∧ c < 256) ∧
      Nat.ofDigits 16 (digs.reverse.map hex_value) = n ∧
      (digs.length : Int) = max min_len ((if n = 0 then 1 else Nat.log 16 n + 1 : Nat) : Int) := by
  have h48 : is_hex_char 48 := Or.inl ⟨by decide, by decide⟩
  by_cases hn : n = 0
  · subst hn
    refine ⟨List.replicate (min_len - 1).toNat 48 ++ [48], my_uitoa_hex_zero min_len, ?_, ?_, ?_, ?_⟩
    · intro c hc
      rcases List.mem_append.mp hc with h | h
      · rw [List.eq_of_mem_replicate h]
        exact h48
      · rw [List.mem_singleton.mp h]
        exact h48
    · intro c hc
      rcases List.mem_append.mp hc with h | h
      · rw [List.eq_of_mem_replicate h]
        decide
      · rw [List.mem_singleton.mp h]
        decide
    · rw [List.reverse_append, List.map_append, List.reverse_replicate, List.map_replicate,
        Nat.ofDigits_append]
      have : hex_value 48 = 0 := by decide
      rw [this, ofDigits_replicate_zero]
      simp [Nat.ofDigits, this]
    · simp only [List.length_append, List.length_replicate, List.length_singleton, if_pos]
      push_cast
      omega
  · refine ⟨List.replicate (min_len - (Nat.digits 16 n).length).toNat 48 ++
        ((Nat.digits 16 n).map (char_at hex_chars)).reverse, ?_, ?_, ?_, ?_, ?_⟩
    · rw [my_uitoa_hex_eq n min_len hn]
    · intro c hc
      rcases List.mem_append.mp hc with h | h
      · rw [List.eq_of_mem_replicate h]
        exact h48
      · obtain ⟨d, hd, rfl⟩ := List.mem_map.mp (List.mem_reverse.mp h)
        exact (hex_char_facts d (Nat.digits_lt_base (by norm_num) hd)).1
    · intro c hc
      rcases List.mem_append.mp hc with h | h
      · rw [List.eq_of_mem_replicate h]
        decide
      · obtain ⟨d, hd, rfl⟩ := List.mem_map.mp (List.mem_reverse.mp h)
        have := hex_char_facts d (Nat.digits_lt_base (by norm_num) hd)
        exact ⟨this.2.1, this.2.2.1⟩
    · rw [List.reverse_append, List.reverse_reverse, List.map_append, List.reverse_replicate,
        List.map_replicate, Nat.ofDigits_append, map_hex_value_digits]
      have : hex_value 48 = 0 := by decide
      rw [this, ofDigits_replicate_zero, Nat.ofDigits_digits]
      simp
    · simp only [List.length_append, List.length_replicate, List.length_reverse, List.length_map,
        if_neg hn]
      rw [Nat.digits_len 16 n (by norm_num) hn]
      push_cast
      omega

/-! ## The claims on the hexadecimal conversions -/

/-- C16. For every `n` and every width `min_len`, `my_uitoa_hex` writes a string
over the characters `0`-`9`, `a`-`f`, most significant digit first, followed by
the terminator; read in base 16 the string has the value `n`, and its length
is the larger of `min_len` and the number of hexadecimal digits of `n`,
where zero counts as one digit. -/
theorem C16_uitoa_hex (n : Nat) (min_len : Int) :
    ∃ digs,
      my_uitoa_hex n min_len = digs ++ [0] ∧
      (∀ c ∈ digs, is_hex_char c) ∧
      Nat.ofDigits 16 (digs.reverse.map hex_value) = n ∧
      (digs.length : Int) = max min_len ((if n = 0 then 1 else Nat.log 16 n + 1 : Nat) : Int) := by
  obtain ⟨digs, h1, h2, _, h4, h5⟩ := my_uitoa_hex_spec n min_len
  exact ⟨digs, h1, h2, h4, h5⟩

/-- The sixteen digits written for a 64-bit value at width 16. -/
theorem my_uitoa_hex_pointer (p : Nat) (hp : p < 2 ^ 64) :
    ∃ digs,
      my_uitoa_hex p 16 = digs ++ [0] ∧ digs.length = 16 ∧
      (∀ c ∈ digs, is_hex_char c) ∧ (∀ c ∈ digs, c ≠ 0 ∧ c < 256) ∧
      Nat.ofDigits 16 (digs.reverse.map hex_value) = p := by
  obtain ⟨digs, h1, h2, h3, h4, h5⟩ := my_uitoa_hex_spec p 16
  refine ⟨digs, h1, ?_, h2, h3, h4⟩
  by_cases h0 : p = 0
  · rw [if_pos h0] at h5
    omega
  · rw [if_neg h0] at h5
    have : Nat.log 16 p < 16 := Nat.log_lt_of_lt_pow h0 (by norm_num; omega)
    omega

/-- The case `p` of the switch: `0x`, sixteen digits, eighteen counted. -/
theorem my_printf_switch_pointer (format : List Nat) (st : PrintfState) (min_len : Int)
    (hp : char_at format st.i = 112) :
    ∃ digs,
      digs.length = 16 ∧ (∀ c ∈ digs, is_hex_char c) ∧
      Nat.ofDigits 16 (digs.reverse.map hex_value) = (va_arg st.args).1.val % 2 ^ 64 ∧
      my_printf_switch format st min_len =
        { st with args := (va_arg st.args).2, out := st.out ++ [48, 120] ++ digs,
                  count := st.count + 18, buffer_used := max st.buffer_used 17 } := by
  obtain ⟨digs, h1, h2, h3, h4, h5⟩ :=
    my_uitoa_hex_pointer ((va_arg st.args).1.val % 2 ^ 64) (Nat.mod_lt _ (by norm_num))
  refine ⟨digs, h2, h3, h5, ?_⟩
  have hx : my_print st.out [48, 120, 0] = st.out ++ [48, 120] :=
    my_print_terminated [48, 120] [] st.out (by decide)
  unfold my_printf_switch
  simp only [hp, h1, hx]
  rw [my_print_terminated digs [] _ h4, my_strlen_terminated digs [] (fun c hc => (h4 c hc).1)]
  simp only [List.length_append, List.length_singleton, h2]
  norm_num
  ring

/-! ## The loop of `my_printf`, step by step -/

theorem my_printf_body_percent (format : List Nat) (st : PrintfState)
    (h : char_at format st.i = 37) :
    my_printf_body format st =
      my_printf_switch format
        { st with i := (parse_width format format.length
            (if char_at format (st.i + 1) = 48 then st.i + 1 + 1 else st.i + 1) 0).1 }
        (parse_width format format.length
            (if char_at format (st.i + 1) = 48 then st.i + 1 + 1 else st.i + 1) 0).2 := by
  unfold my_printf_body
  rw [if_neg (by rw [h]; decide)]

theorem my_printf_body_plain (format : List Nat) (st : PrintfState)
    (h : char_at format st.i ≠ 37) :
    my_printf_body format st =
      { st with out := my_print st.out [char_at format st.i, 0], count := st.count + 1 } := by
  unfold my_printf_body
  rw [if_pos h]

theorem my_printf_loop_step (format : List Nat) (fuel : Nat) (st : PrintfState)
    (h : char_at format st.i ≠ 0) :
    my_printf_loop format (fuel + 1) st =
      my_printf_loop format fuel
        { my_printf_body format st with i := (my_printf_body format st).i + 1 } := by
  rw [my_printf_loop, if_pos h]

theorem my_printf_loop_exit (format : List Nat) (fuel : Nat) (st : PrintfState)
    (h : char_at format st.i = 0) : my_printf_loop format fuel st = st := by
  cases fuel with
  | zero => rfl
  | succ fuel => rw [my_printf_loop, if_neg (by rw [h]; decide)]

/-! ## The claim on the pointer conversion -/

/-- C17. For every pointer value `p`, the conversion `%p` of `my_printf` (the
case `p` of its switch, whatever width was parsed) transmits exactly 18
characters, `0x` followed by exactly 16 hexadecimal digits `0`-`9`, `a`-`f` of
value `p`, and adds 18 to `count`; so `my_printf("%p", p)` transmits these 18
characters and returns 18. -/
theorem C17_pointer_conversion (format : List Nat) (st : PrintfState) (min_len : Int)
    (hp : char_at format st.i = 112) :
    (∃ digs,
      digs.length = 16 ∧ (∀ c ∈ digs, is_hex_char c) ∧
      Nat.ofDigits 16 (digs.reverse.map hex_value) = (va_arg st.args).1.val % 2 ^ 64 ∧
      (my_printf_switch format st min_len).out = st.out ++ [48, 120] ++ digs ∧
      (my_printf_switch format st min_len).count = st.count + 18) ∧
    (∀ a : Arg, ∃ digs,
      digs.length = 16 ∧ (∀ c ∈ digs, is_hex_char c) ∧
      Nat.ofDigits 16 (digs.reverse.map hex_value) = a.val % 2 ^ 64 ∧
      my_printf [37, 112] [a] = (18, [48, 120] ++ digs)) := by
  constructor
  · obtain ⟨digs, h1, h2, h3, h4⟩ := my_printf_switch_pointer format st min_len hp
    exact ⟨digs, h1, h2, h3, by rw [h4], by rw [h4]⟩
  · intro a
    obtain ⟨digs, h1, h2, h3, h4⟩ := my_printf_switch_pointer [37, 112]
      { i := 1, args := [a], count := 0, out := [], buffer_used := 0 } 0
      (by show char_at [37, 112] 1 = 112; decide)
    refine ⟨digs, h1, h2, h3, ?_⟩
    have hw : parse_width [37, 112] 2 1 0 = (1, 0) := by decide
    have e : (if char_at [37, 112] (0 + 1) = 48 then 0 + 1 + 1 else 0 + 1) = 1 := by decide
    have hbody : my_printf_body [37, 112]
        { i := 0, args := [a], count := 0, out := [], buffer_used := 0 } =
        my_printf_switch [37, 112]
          { i := 1, args := [a], count := 0, out := [], buffer_used := 0 } 0 := by
      rw [my_printf_body_percent _ _ (by show char_at [37, 112] 0 = 37; decide)]
      simp only [List.length_cons, List.length_nil, e]
      rw [show (0 + 1 + 1 : Nat) = 2 from rfl, hw]
    unfold my_printf my_printf_run
    rw [show [37, 112].length + 1 = 2 + 1 from rfl,
      my_printf_loop_step _ _ _ (by show char_at [37, 112] 0 ≠ 0; decide), hbody, h4,
      my_printf_loop_exit _ _ _ (by show char_at [37, 112] 2 = 0; decide)]
    simp

/-- C17 at a concrete input: the conversion of the pointer `0x1234` inside the
format `at %p`. -/
theorem C17_pointer_conversion_witness :
    ∃ digs,
      digs.length = 16 ∧ (∀ c ∈ digs, is_hex_char c) ∧
      Nat.ofDigits 16 (digs.reverse.map hex_value) = 0x1234 % 2 ^ 64 ∧
      (my_printf_switch (c_str "at %p")
        { i := 4, args := [{ val := 0x1234, str := [] }], count := 3, out := c_str "at ",
          buffer_used := 0 } 0).out = c_str "at " ++ [48, 120] ++ digs ∧
      (my_printf_switch (c_str "at %p")
        { i := 4, args := [{ val := 0x1234, str := [] }], count := 3, out := c_str "at ",
          buffer_used := 0 } 0).count = 3 + 18 :=
  (C17_pointer_conversion (c_str "at %p")
    { i := 4, args := [{ val := 0x1234, str := [] }], count := 3, out := c_str "at ",
      buffer_used := 0 } 0 (by decide)).1

/-! ## The loops have fuel enough -/

theorem char_at_of_le (s : List Nat) (i : Nat) (h : s.length ≤ i) : char_at s i = 0 := by
  unfold char_at
  rw [List.getD_eq_getElem?_getD, List.getElem?_eq_none h]
  rfl

theorem parse_width_ge (format : List Nat) :
    ∀ (fuel i : Nat) (min_len : Int), i ≤ (parse_width format fuel i min_len).1 := by
  intro fuel
  induction fuel with
  | zero => intro i min_len; exact le_refl _
  | succ fuel ih =>
    intro i min_len
    rw [parse_width]
    split
    · exact le_trans (Nat.le_succ i) (ih _ _)
    · exact le_refl _

/-- More fuel than the length of the format changes nothing in the width loop. -/
theorem parse_width_fuel (format : List Nat) :
    ∀ (fuel k i : Nat) (min_len : Int), format.length ≤ fuel + i →
      parse_width format (fuel + k) i min_len = parse_width format fuel i min_len := by
  intro fuel
  induction fuel with
  | zero =>
    intro k i min_len h
    have hc := char_at_of_le format i (by omega)
    cases k with
    | zero => rfl
    | succ k =>
      rw [Nat.zero_add, parse_width, parse_width, hc, if_neg (by decide)]
  | succ fuel ih =>
    intro k i min_len h
    rw [show fuel + 1 + k = (fuel + k) + 1 by omega, parse_width, parse_width]
    split
    · exact ih k (i + 1) _ (by omega)
    · rfl

theorem my_printf_switch_i (format : List Nat) (st : PrintfState) (min_len : Int) :
    (my_printf_switch format st min_len).i = st.i := by
  unfold my_printf_switch
  simp only []
  split_ifs <;> rfl

theorem my_printf_body_i_ge (format : List Nat) (st : PrintfState) :
    st.i ≤ (my_printf_body format st).i := by
  by_cases h : char_at format st.i = 37
  · rw [my_printf_body_percent format st h, my_printf_switch_i]
    refine le_trans ?_ (parse_width_ge format _ _ _)
    split <;> omega
  · rw [my_printf_body_plain format st h]

/-- More fuel than the length of the format plus one changes nothing in the
loop of `my_printf`: the loop always ends by finding the terminator. -/
theorem my_printf_loop_fuel (format : List Nat) :
    ∀ (fuel k : Nat) (st : PrintfState), format.length + 1 ≤ fuel + st.i →
      my_printf_loop format (fuel + k) st = my_printf_loop format fuel st := by
  intro fuel
  induction fuel with
  | zero =>
    intro k st h
    have hc := char_at_of_le format st.i (by omega)
    rw [my_printf_loop_exit format _ st hc, my_printf_loop_exit format _ st hc]
  | succ fuel ih =>
    intro k st h
    by_cases hc : char_at format st.i = 0
    · rw [my_printf_loop_exit format _ st hc, my_printf_loop_exit format _ st hc]
    · rw [show fuel + 1 + k = (fuel + k) + 1 by omega, my_printf_loop_step format _ st hc,
        my_printf_loop_step format _ st hc]
      apply ih
      have := my_printf_body_i_ge format st
      show format.length + 1 ≤ fuel + ((my_printf_body format st).i + 1)
      omega

/-- More fuel than the magnitude of `n` changes nothing in the digit loop of
`my_itoa`, for negative `n` too. -/
theorem itoa_digits_fuel :
    ∀ (fuel k : Nat) (n : Int) (s : List Nat), n.natAbs ≤ fuel →
      itoa_digits (fuel + k) n s = itoa_digits fuel n s := by
  intro fuel
  induction fuel with
  | zero =>
    intro k n s h
    have hn : n = 0 := Int.natAbs_eq_zero.mp (by omega)
    subst hn
    cases k with
    | zero => rfl
    | succ k => rw [Nat.zero_add, itoa_digits, itoa_digits, if_neg (by decide)]
  | succ fuel ih =>
    intro k n s h
    rw [show fuel + 1 + k = (fuel + k) + 1 by omega, itoa_digits, itoa_digits]
    split
    · rename_i hn
      apply ih
      rw [Int.natAbs_tdiv]
      have hpos : 0 < n.natAbs := Int.natAbs_pos.mpr hn
      have : n.natAbs.div (10 : Int).natAbs < n.natAbs :=
        Nat.div_lt_self hpos (by decide)
      omega
    · rfl

/-! ## `my_itoa` away from the least `int` -/

theorem itoa_digits_nat :
    ∀ (fuel m : Nat) (s : List Nat), m ≤ fuel →
      itoa_digits fuel (m : Int) s = s ++ (Nat.digits 10 m).map (fun d => d + 48) := by
  intro fuel
  induction fuel with
  | zero =>
    intro m s h
    have : m = 0 := by omega
    subst this
    simp [itoa_digits]
  | succ fuel ih =>
    intro m s h
    by_cases hm : m = 0
    · subst hm
      simp [itoa_digits]
    · have hne : (m : Int) ≠ 0 := by exact_mod_cast hm
      have hmod : Int.tmod (m : Int) 10 = ((m % 10 : Nat) : Int) := (Int.ofNat_tmod m 10).symm
      have hdiv : Int.tdiv (m : Int) 10 = ((m / 10 : Nat) : Int) := (Int.ofNat_tdiv m 10).symm
      have hbyte : ((Int.tmod (m : Int) 10 + 48) % 256).toNat = m % 10 + 48 := by
        rw [hmod]
        have h10 : m % 10 < 10 := Nat.mod_lt _ (by decide)
        omega
      rw [itoa_digits, if_pos hne, hdiv, hbyte, ih (m / 10) _ (by omega),
        Nat.digits_def' (by decide) (Nat.pos_of_ne_zero hm)]
      simp

theorem wrap_int_of_range (x : Int) (h1 : -2 ^ 31 ≤ x) (h2 : x < 2 ^ 31) : wrap_int x = x := by
  unfold wrap_int
  omega

/-- For every `int` other than zero and the least one, `my_itoa` leaves in the
buffer the sign, the padding and the decimal digits of the magnitude. -/
theorem my_itoa_eq (n min_len : Int) (h0 : n ≠ 0) (h1 : -2 ^ 31 < n) (h2 : n < 2 ^ 31) :
    my_itoa n min_len =
      (if n < 0 then [45] else []) ++
        List.replicate (min_len - (Nat.digits 10 n.natAbs).length).toNat 48 ++
        ((Nat.digits 10 n.natAbs).map (fun d => d + 48)).reverse ++ [0] := by
  have hn1 : (if n = 0 then n else if n < 0 then wrap_int (-n) else n) = (n.natAbs : Int) := by
    rw [if_neg h0]
    split
    · rw [wrap_int_of_range _ (by omega) (by omega)]
      omega
    · omega
  unfold my_itoa
  simp only [hn1, if_neg h0, Int.natAbs_ofNat]
  rw [itoa_digits_nat _ _ _ (le_refl _), List.nil_append, pad_zeros_eq _ _ _ (le_refl _)]
  have hchars : ∀ c ∈ (Nat.digits 10 n.natAbs).map (fun d => d + 48) ++
      List.replicate (min_len - ((Nat.digits 10 n.natAbs).map (fun d => d + 48)).length).toNat 48,
      c ≠ 0 := by
    intro c hc
    rcases List.mem_append.mp hc with h | h
    · obtain ⟨d, _, rfl⟩ := List.mem_map.mp h
      omega
    · rw [(List.mem_replicate.mp h).2]
      decide
  by_cases hneg : n < 0
  · simp only [if_pos hneg, if_true, ne_eq, one_ne_zero, not_false_eq_true]
    rw [str_reverse_terminated]
    · simp
    · intro c hc
      rcases List.mem_append.mp hc with h | h
      · exact hchars c h
      · rw [List.mem_singleton.mp h]
        decide
  · simp only [if_neg hneg, ne_eq, not_true_eq_false, if_false]
    rw [str_reverse_terminated _ hchars]
    simp

/-- For zero `my_itoa` leaves the padding and one digit. -/
theorem my_itoa_zero (min_len : Int) :
    my_itoa 0 min_len = List.replicate (min_len - 1).toNat 48 ++ [48, 0] := by
  unfold my_itoa
  simp only [if_true, Int.natAbs_zero, itoa_digits, ne_eq, not_true_eq_false, if_false]
  rw [pad_zeros_eq _ _ _ (le_refl _), str_reverse_terminated]
  · simp [List.reverse_replicate]
  · intro c hc
    rcases List.mem_append.mp hc with h | h
    · rw [List.mem_singleton.mp h]
      decide
    · rw [(List.mem_replicate.mp h).2]
      decide

/-! ## The value returned by `my_printf` -/

/-- C14. The value returned by `my_printf` is not always the number of bytes
transmitted.  For the format `"%zab"`, with the unknown conversion `z`, the six
bytes `%zabab` are transmitted and 4 is returned: the `default` case sends the
whole rest of the format and counts two.  For `"100%"` the loop steps over the
terminator and reads the byte after it: when that byte is 0, four bytes are
transmitted and 5 is returned; when the bytes after it are `A` and 0, five
bytes are transmitted and 6 is returned.  For `"%c"` with the character 0
nothing is transmitted and 1 is returned. -/
theorem C14_count_differs_from_transmitted :
    my_printf (c_str "%zab") [] = (4, c_str "%zabab") ∧
    ((c_str "%zabab").length : Int) ≠ 4 ∧
    my_printf (c_str "100%" ++ [0, 0]) [] = (5, c_str "100%") ∧
    my_printf (c_str "100%" ++ [0, 65, 0]) [] = (6, c_str "100%A") ∧
    my_printf (c_str "%c") [{ val := 0, str := [] }] = (1, []) := by
  refine ⟨by decide, by decide, by decide, by decide, by decide⟩

/-! ## `my_itoa` at the least `int` -/

/-- C15. At `n = -2147483648` the negation `n = -n` of `my_itoa` gives back
`n`, the digit loop then writes the bytes `'0' + (n % 10)` for negative
remainders, and the buffer holds `-./,),(-*,(` instead of `-2147483648`. -/
theorem C15_itoa_least_int :
    wrap_int (-(-2147483648)) = -2147483648 ∧
    my_itoa (-2147483648) 0 = c_str "-./,),(-*,(" ++ [0] ∧
    my_itoa (-2147483648) 0 ≠ c_str "-2147483648" ++ [0] := by
  refine ⟨by decide, by decide, by decide⟩

/-! ## The buffer of `my_printf` -/

/-- C19. For the format `"%030d"` and the argument 5, `my_itoa` writes thirty
digits and the terminator, 31 bytes, into the 21 bytes of `buffer`; so does
`my_uitoa_hex` for `"%030x"`. -/
theorem C19_buffer_overrun :
    (my_printf_run (c_str "%030d") [{ val := 5, str := [] }]).buffer_used = 31 ∧
    (my_itoa 5 30).length = 31 ∧
    (my_printf_run (c_str "%030x") [{ val := 5, str := [] }]).buffer_used = 31 ∧
    (my_uitoa_hex 5 30).length = 31 ∧
    21 < (my_printf_run (c_str "%030d") [{ val := 5, str := [] }]).buffer_used := by
  refine ⟨by decide, by decide, by decide, by decide, by decide⟩

end MwWelcome
